import Mathlib

/-!
# Overlap-add FFT processor: circular-buffer bookkeeping

A shallow embedding of `Source/OverlapAddFftProcessor.h` (class
`OverlapAddFftProcessor`) together with the configuration used by
`Source/SpectralDynamicProcessor.h` and `Source/PluginProcessor.cpp`.

Modelling conventions.

* The embedding of the source is parametric in the sample arithmetic: a type `α`
  with a zero, a sum and a product, and no laws.  `Float32` is the arithmetic of the
  source (`float`: every product and sum is rounded to binary32, `roundFloat32`).
  The closed forms, the invariants and the theorems about sample values are for exact
  arithmetic, `α` a commutative ring, unless they name `Float32`; what they say about
  faults, cursors and counters does not depend on the arithmetic.  The member
  `gScaleFactor` (initialised to `0.5`) is a field of the processor; the theorems that
  mention `0.5` are stated over `ℚ` with `gScaleFactor = 1/2`.
* The `int` members `fftSize` and `hopSize` are computed as 32-bit integers by the
  member initialisers (`fftSizeOf`, `hopSizeOf`); the constructor returns a processor
  only for `fftSizeAsPowerOf2 ≤ 30`, where they are positive, and the processor then
  holds them, like the cursors and the hop counter, as natural numbers (no overflow
  occurs as long as `fftSize + 2 * hopSize < 2 ^ 31`).  The only subtraction in the
  source, in the two `circularBufferIndex` computations, is done in `Int` with the
  truncating remainder of C++ (`Int.tmod`).
* `juce::AudioBuffer::getSample` / `setSample` and `std::vector::at` check their
  indices; an access outside the allocated range is a fault, modelled by `none`.
* `processFrameInBuffer` is the default empty hook (also the body of the override in
  `SpectralDynamicProcessor`).
* `frameCycles` is a ghost counter of the frame cycles fired; it is not a member of
  the class and nothing reads it.
-/

namespace OverlapAdd

/-! ## The embedding of the source -/

section Definitions

variable {α : Type} [Zero α] [Add α] [Mul α]

/-- Capacity of the two circular buffers: `gBufferSize` (lines 108 and 420). -/
def gBufferSize : Nat := 16384

/-- A `juce::AudioBuffer<float>` / `dsp::AudioBlock<float>`: a rectangular store of
`numChannels` by `numSamples` samples. -/
structure AudioBuffer (α : Type) where
  numChannels : Nat
  numSamples : Nat
  data : Nat → Nat → α

/-- The bounds assertion of `getSample` and `setSample`. -/
def AudioBuffer.inRange (b : AudioBuffer α) (ch : Nat) (i : Int) : Prop :=
  ch < b.numChannels ∧ 0 ≤ i ∧ i < (b.numSamples : Int)

instance (b : AudioBuffer α) (ch : Nat) (i : Int) : Decidable (b.inRange ch i) := by
  unfold AudioBuffer.inRange; infer_instance

/-- The method `AudioBuffer::getSample (channel, sampleIndex)`, with its bounds
assertion as a fault. -/
def AudioBuffer.getSample (b : AudioBuffer α) (ch : Nat) (i : Int) : Option α :=
  if b.inRange ch i then some (b.data ch i.toNat) else none

/-- The method `AudioBuffer::setSample (channel, sampleIndex, newValue)`, with its
bounds assertion as a fault. -/
def AudioBuffer.setSample (b : AudioBuffer α) (ch : Nat) (i : Int) (v : α) : Option (AudioBuffer α) :=
  if b.inRange ch i then
    some { b with data := fun c j => if c = ch ∧ j = i.toNat then v else b.data c j }
  else none

/-- The method `AudioBuffer::setSize (newNumChannels, newNumSamples)`; the content is not
specified by JUCE and is kept as it was here (every call in the source is followed
by `clear`). -/
def AudioBuffer.setSize (b : AudioBuffer α) (newNumChannels newNumSamples : Nat) : AudioBuffer α :=
  { b with numChannels := newNumChannels, numSamples := newNumSamples }

/-- The method `AudioBuffer::clear ()`. -/
def AudioBuffer.clear [Zero α] (b : AudioBuffer α) : AudioBuffer α :=
  { b with data := fun _ _ => 0 }

/-- A default-constructed `AudioBuffer` (no channels, no samples). -/
def AudioBuffer.empty [Zero α] : AudioBuffer α := ⟨0, 0, fun _ _ => 0⟩

/-- The members of `OverlapAddFftProcessor` that `prepare` and `process` use
(lines 416-441), and the ghost counter `frameCycles`.  The `int` members are natural
numbers here: the constructor returns a processor only where `fftSize` and `hopSize`
are positive, and the cursors and the hop counter are never negative. -/
structure OverlapAddFftProcessor (α : Type) where
  fftSize : Nat
  hopSize : Nat
  gScaleFactor : α
  window : List α
  fftInOutBuffer : AudioBuffer α
  numInpChannel : Nat
  numOutChannel : Nat
  gInputBuffer : AudioBuffer α
  gInputBufferPointer : Nat
  gHopCounter : Nat
  gOutputBuffer : AudioBuffer α
  gOutputBufferWritePointer : Nat
  gOutputBufferReadPointer : Nat
  gCachedInputBufferPointer : Nat
  frameCycles : Nat

/-- The member initialisers (lines 419, 435-441) for given sizes, scale factor and
window table. -/
def OverlapAddFftProcessor.init (fftSize hopSize : Nat) (gScaleFactor : α) (window : List α) :
    OverlapAddFftProcessor α where
  fftSize := fftSize
  hopSize := hopSize
  gScaleFactor := gScaleFactor
  window := window
  fftInOutBuffer := AudioBuffer.empty
  numInpChannel := 0
  numOutChannel := 0
  gInputBuffer := AudioBuffer.empty
  gInputBufferPointer := 0
  gHopCounter := 0
  gOutputBuffer := AudioBuffer.empty
  gOutputBufferWritePointer := 0
  gOutputBufferReadPointer := 0
  gCachedInputBufferPointer := 0
  frameCycles := 0

/-- The two assertions of the constructor (lines 55 and 58). -/
def constructorChecks (fftSizeAsPowerOf2 hopSizeDividerAsPowerOf2 : Int) : Bool :=
  decide (hopSizeDividerAsPowerOf2 > 0) && decide (hopSizeDividerAsPowerOf2 ≤ fftSizeAsPowerOf2)

/-- The value of an `int` expression whose mathematical value is `z`: reduced to 32
bits in two's complement. -/
def wrapInt32 (z : Int) : Int := (z + 2147483648) % 4294967296 - 2147483648

/-- The member initialiser `fftSize (1 << fftSizeAsPowerOf2)` (line 51), an `int`:
`2 ^ fftSizeAsPowerOf2` up to the exponent 30, and `-2147483648` at the exponent 31,
where the shift overflows.  (C++ gives the shift no value for exponents outside
`0 .. 31`; claims are stated for exponents in that range only.) -/
def fftSizeOf (fftSizeAsPowerOf2 : Int) : Int :=
  wrapInt32 ((1 <<< fftSizeAsPowerOf2.toNat : Nat) : Int)

/-- The member initialiser `hopSize (fftSize >> hopSizeDividerAsPowerOf2)` (line 52),
an `int`: the arithmetic shift, which keeps the sign of `fftSize`. -/
def hopSizeOf (fftSizeAsPowerOf2 hopSizeDividerAsPowerOf2 : Int) : Int :=
  fftSizeOf fftSizeAsPowerOf2 >>> hopSizeDividerAsPowerOf2.toNat

/-- The constructor (lines 49-71): the members `fftSize` and `hopSize` are initialised
with `fftSizeOf` and `hopSizeOf`; a failed assertion gives `none`.  For
`fftSizeAsPowerOf2 > 30` the `int` member `fftSize` is not the positive number
`2 ^ fftSizeAsPowerOf2`, and `window.resize (fftSize)` (line 66) cannot give a window
of that length: no processor is returned, `none`.  The window table filled by
`createWindow` is the argument `window`. -/
def OverlapAddFftProcessor.construct (fftSizeAsPowerOf2 hopSizeDividerAsPowerOf2 : Int)
    (gScaleFactor : α) (window : List α) : Option (OverlapAddFftProcessor α) :=
  if constructorChecks fftSizeAsPowerOf2 hopSizeDividerAsPowerOf2 then
    if fftSizeAsPowerOf2 ≤ 30 then
      some (OverlapAddFftProcessor.init (fftSizeOf fftSizeAsPowerOf2).toNat
        (hopSizeOf fftSizeAsPowerOf2 hopSizeDividerAsPowerOf2).toNat gScaleFactor window)
    else none
  else none

/-- The method `prepare` (lines 77-113).  It sets the output write pointer and
resizes and clears the buffers; it assigns no other cursor. -/
def OverlapAddFftProcessor.prepare (s : OverlapAddFftProcessor α)
    (numInputChannels numOutputChannels : Nat) : OverlapAddFftProcessor α :=
  { s with
    gOutputBufferWritePointer := s.fftSize + 2 * s.hopSize
    numInpChannel := numInputChannels
    numOutChannel := numOutputChannels
    fftInOutBuffer :=
      (s.fftInOutBuffer.setSize (max numInputChannels numOutputChannels) s.fftSize).clear
    gInputBuffer := (s.gInputBuffer.setSize numInputChannels gBufferSize).clear
    gOutputBuffer := (s.gOutputBuffer.setSize numInputChannels gBufferSize).clear }

/-- The expression `(pointer + n - fftSize + gBufferSize) % gBufferSize` of lines 174
and 182, with the truncating remainder of C++. -/
def circularBufferIndex (pointer n fftSize : Nat) : Int :=
  Int.tmod ((pointer : Int) + (n : Int) - (fftSize : Int) + (gBufferSize : Int))
    (gBufferSize : Int)

/-- The default `processFrameInBuffer` (line 404): an empty body. -/
def processFrameInBuffer (_maxNumChannels : Nat) (fftInOutBuffer : AudioBuffer α) :
    AudioBuffer α :=
  fftInOutBuffer

/-- The body of the extraction loop (lines 174-177) for one `n`.  The product is the
one of the sample arithmetic (rounded for `Float32`). -/
def extractStep (s : OverlapAddFftProcessor α) (ch : Nat) (fftBuf : AudioBuffer α) (n : Nat) :
    Option (AudioBuffer α) := do
  let v ← s.gInputBuffer.getSample ch
    (circularBufferIndex s.gCachedInputBufferPointer n s.fftSize)
  let w ← s.window[n]?
  fftBuf.setSample ch n (v * w)

/-- The extraction loop (lines 172-178): the new content of `fftInOutBuffer`. -/
def extractFrame (s : OverlapAddFftProcessor α) (ch : Nat) : Option (AudioBuffer α) :=
  (List.range s.fftSize).foldlM (extractStep s ch) s.fftInOutBuffer

/-- The body of the scatter loop (lines 182-185) for one `n`.  The product and the sum
are those of the sample arithmetic (each rounded for `Float32`). -/
def scatterStep (s : OverlapAddFftProcessor α) (ch : Nat) (outBuf : AudioBuffer α) (n : Nat) :
    Option (AudioBuffer α) := do
  let idx := circularBufferIndex s.gOutputBufferWritePointer n s.fftSize
  let o ← outBuf.getSample ch idx
  let f ← s.fftInOutBuffer.getSample ch n
  let w ← s.window[n]?
  outBuf.setSample ch idx (o + f * w)

/-- The scatter loop (lines 181-186): the new content of `gOutputBuffer`. -/
def scatterAdd (s : OverlapAddFftProcessor α) (ch : Nat) : Option (AudioBuffer α) :=
  (List.range s.fftSize).foldlM (scatterStep s ch) s.gOutputBuffer

/-- The frame cycle, the body of the `if` of line 166 (lines 167-188). -/
def frameCycle (s : OverlapAddFftProcessor α) (maxNumChannels ch : Nat) :
    Option (OverlapAddFftProcessor α) := do
  let s1 := { s with gHopCounter := 0, gCachedInputBufferPointer := s.gInputBufferPointer }
  let fftBuf ← extractFrame s1 ch
  let s2 := { s1 with fftInOutBuffer := processFrameInBuffer maxNumChannels fftBuf }
  let outBuf ← scatterAdd s2 ch
  some { s2 with
    gOutputBuffer := outBuf
    gOutputBufferWritePointer := (s2.gOutputBufferWritePointer + s2.hopSize) % gBufferSize
    frameCycles := s2.frameCycles + 1 }

/-- One iteration of the inner loop of `process` (lines 134-190) without the final
`outputBlock.setSample`: the new state and the value of `out`.  The product
`out *= gScaleFactor` (line 158) is the one of the sample arithmetic. -/
def processSample (s : OverlapAddFftProcessor α) (maxNumChannels ch : Nat) (inp : α) :
    Option (OverlapAddFftProcessor α × α) := do
  let gIn ← s.gInputBuffer.setSample ch s.gInputBufferPointer inp
  let p := if s.gInputBufferPointer + 1 ≥ gBufferSize then 0 else s.gInputBufferPointer + 1
  let out ← s.gOutputBuffer.getSample ch s.gOutputBufferReadPointer
  let gOut ← s.gOutputBuffer.setSample ch s.gOutputBufferReadPointer 0
  let r :=
    if s.gOutputBufferReadPointer + 1 ≥ gBufferSize then 0 else s.gOutputBufferReadPointer + 1
  let s1 := { s with
    gInputBuffer := gIn
    gInputBufferPointer := p
    gOutputBuffer := gOut
    gOutputBufferReadPointer := r
    gHopCounter := s.gHopCounter + 1 }
  if s1.gHopCounter ≥ s1.hopSize then
    let s2 ← frameCycle s1 maxNumChannels ch
    some (s2, out * s.gScaleFactor)
  else
    some (s1, out * s.gScaleFactor)

/-- The body of the inner loop (lines 134-190) for sample `i` of channel `ch`. -/
def sampleLoopBody (inputBlock : AudioBuffer α) (maxNumChannels ch : Nat)
    (st : OverlapAddFftProcessor α × AudioBuffer α) (i : Nat) :
    Option (OverlapAddFftProcessor α × AudioBuffer α) := do
  let inp ← inputBlock.getSample ch i
  let r ← processSample st.1 maxNumChannels ch inp
  let outputBlock ← st.2.setSample ch i r.2
  some (r.1, outputBlock)

/-- The body of the outer loop (lines 132-191) for channel `ch`. -/
def channelLoopBody (inputBlock : AudioBuffer α)
    (st : OverlapAddFftProcessor α × AudioBuffer α) (ch : Nat) :
    Option (OverlapAddFftProcessor α × AudioBuffer α) :=
  (List.range inputBlock.numSamples).foldlM
    (sampleLoopBody inputBlock inputBlock.numChannels ch) st

/-- The method `process (inputBlock, outputBlock)` (lines 125-192): the new state and
the new content of the output block. -/
def OverlapAddFftProcessor.process (s : OverlapAddFftProcessor α)
    (inputBlock outputBlock : AudioBuffer α) :
    Option (OverlapAddFftProcessor α × AudioBuffer α) :=
  (List.range inputBlock.numChannels).foldlM (channelLoopBody inputBlock) (s, outputBlock)

/-- The host calling `process (ProcessContextReplacing)` (lines 115-118, and
`processBlock` of the plugin) on successive blocks: the output block of each call is
the input block itself, each sample being read before it is overwritten.  The result
is the final state and the blocks as left by the calls. -/
def runBlocks (s : OverlapAddFftProcessor α) :
    List (AudioBuffer α) → Option (OverlapAddFftProcessor α × List (AudioBuffer α))
  | [] => some (s, [])
  | b :: bs => do
    let r ← s.process b b
    let rest ← runBlocks r.1 bs
    some (rest.1, r.2 :: rest.2)

/-- The samples of channel `ch` of a block, in order. -/
def channelSamples (b : AudioBuffer α) (ch : Nat) : List α :=
  (List.range b.numSamples).map (b.data ch)

/-- The stream of channel `ch` carried by a sequence of blocks. -/
def channelStream (bs : List (AudioBuffer α)) (ch : Nat) : List α :=
  bs.flatMap (fun b => channelSamples b ch)

/-- A single-channel block holding the samples `xs`. -/
def monoBlock (xs : List α) : AudioBuffer α :=
  ⟨1, xs.length, fun _ i => xs.getD i 0⟩

/-- A freshly constructed and prepared processor. -/
def freshProcessor (fftSize hopSize : Nat) (gScaleFactor : α) (window : List α)
    (numInputChannels numOutputChannels : Nat) : OverlapAddFftProcessor α :=
  (OverlapAddFftProcessor.init fftSize hopSize gScaleFactor window).prepare
    numInputChannels numOutputChannels

/-- A block holding one list of samples per channel, `numSamples` samples each. -/
def blockOfChannels (channels : List (List α)) (numSamples : Nat) : AudioBuffer α :=
  ⟨channels.length, numSamples, fun c i => (channels.getD c []).getD i 0⟩

/-- The first `k` samples of every channel of a block. -/
def AudioBuffer.takeSamples (b : AudioBuffer α) (k : Nat) : AudioBuffer α :=
  ⟨b.numChannels, k, b.data⟩

/-- The samples of every channel of a block from sample `k` on. -/
def AudioBuffer.dropSamples (b : AudioBuffer α) (k : Nat) : AudioBuffer α :=
  ⟨b.numChannels, b.numSamples - k, fun c i => b.data c (k + i)⟩

/-- The constructor of `SpectralDynamicProcessor` (lines 17-20 of
`SpectralDynamicProcessor.h`): `OverlapAddFftProcessor (10, 3)`. -/
def SpectralDynamicProcessor.construct (gScaleFactor : α) (window : List α) :
    Option (OverlapAddFftProcessor α) :=
  OverlapAddFftProcessor.construct 10 3 gScaleFactor window

/-- A call of the host on the processor: `prepare`, or `process` on a block in
place. -/
inductive Call (α : Type) where
  | prepare (numInputChannels numOutputChannels : Nat)
  | process (block : AudioBuffer α)

/-- The state after a sequence of host calls, none if a call of `process` faults. -/
def runCalls (s : OverlapAddFftProcessor α) : List (Call α) → Option (OverlapAddFftProcessor α)
  | [] => some s
  | Call.prepare numIn numOut :: cs => runCalls (s.prepare numIn numOut) cs
  | Call.process b :: cs => do
    let r ← s.process b b
    runCalls r.1 cs

/-- The states that the processor can be in between two iterations of the inner loop
of `process`, starting from `s0`: `s0` itself, the state after a call of `prepare`, and
the state after one more successful iteration. -/
inductive Reachable (s0 : OverlapAddFftProcessor α) : OverlapAddFftProcessor α → Prop where
  | start : Reachable s0 s0
  | prepare (s : OverlapAddFftProcessor α) (numIn numOut : Nat) :
      Reachable s0 s → Reachable s0 (s.prepare numIn numOut)
  | iteration (s : OverlapAddFftProcessor α) (m ch : Nat) (inp : α)
      (r : OverlapAddFftProcessor α × α) :
      Reachable s0 s → processSample s m ch inp = some r → Reachable s0 r.1

/-- The states that the processor can be in between two iterations of the inner loop
of `process`, starting from `s0`, with the number of iterations executed on the way:
calls of `prepare` do not count, every successful iteration counts one. -/
inductive ReachableAfter (s0 : OverlapAddFftProcessor α) :
    Nat → OverlapAddFftProcessor α → Prop where
  | start : ReachableAfter s0 0 s0
  | prepare (n : Nat) (s : OverlapAddFftProcessor α) (numIn numOut : Nat) :
      ReachableAfter s0 n s → ReachableAfter s0 n (s.prepare numIn numOut)
  | iteration (n : Nat) (s : OverlapAddFftProcessor α) (m ch : Nat) (inp : α)
      (r : OverlapAddFftProcessor α × α) :
      ReachableAfter s0 n s → processSample s m ch inp = some r →
      ReachableAfter s0 (n + 1) r.1

/-- The number of iterations of the inner loop executed by a sequence of host
calls. -/
def callIterations : List (Call α) → Nat
  | [] => 0
  | Call.prepare _ _ :: cs => callIterations cs
  | Call.process b :: cs => b.numChannels * b.numSamples + callIterations cs

/-- The number of binary digits of `n`, computed with `fuel ≥ n` steps at most. -/
def bitLength : Nat → Nat → Nat
  | 0, _ => 0
  | fuel + 1, n => if n = 0 then 0 else bitLength fuel (n / 2) + 1

/-- The integer `L` with `2 ^ L ≤ a / b < 2 ^ (L + 1)`, for positive `a` and `b`. -/
def floorLog2 (a b : Nat) : Int :=
  let k : Int := (bitLength a a : Int) - (bitLength b b : Int)
  if b * 2 ^ k.toNat ≤ a * 2 ^ (-k).toNat then k else k - 1

/-- The rounding of the `float` arithmetic of the source: the binary32 value (24
significant bits) nearest to `q`, ties to the even significand.  The exponent range
is not limited: overflow to infinity and subnormal numbers are not modelled. -/
def roundFloat32 (q : ℚ) : ℚ :=
  if q.num = 0 then 0
  else
    let a := q.num.natAbs
    let e : Int := floorLog2 a q.den - 23
    let n := a * 2 ^ (-e).toNat
    let d := q.den * 2 ^ e.toNat
    let m := n / d
    let r := n % d
    let m' := if d < 2 * r then m + 1 else if 2 * r < d then m else if m % 2 = 0 then m else m + 1
    (if q.num < 0 then -1 else 1) * ((m' * 2 ^ e.toNat : Nat) : ℚ) / ((2 ^ (-e).toNat : Nat) : ℚ)

/-- A `float` of the source: a binary32 value, held as the rational number that it
denotes.  Sums and products are rounded by `roundFloat32`; the values given to a run
(samples, window, scale factor) are to be representable. -/
structure Float32 where
  val : ℚ

instance : Zero Float32 := ⟨⟨0⟩⟩

/-- The sum of two `float`s, rounded. -/
instance : Add Float32 := ⟨fun a b => ⟨roundFloat32 (a.val + b.val)⟩⟩

/-- The product of two `float`s, rounded. -/
instance : Mul Float32 := ⟨fun a b => ⟨roundFloat32 (a.val * b.val)⟩⟩

end Definitions

/-! ## Closed forms and invariants, for exact sample arithmetic -/

section ClosedForms

variable {α : Type} [CommRing α]

/-- The frame buffer after the first `k` iterations of the extraction loop. -/
def extractedUpTo (s : OverlapAddFftProcessor α) (ch k : Nat) : AudioBuffer α :=
  { s.fftInOutBuffer with
    data := fun c n =>
      if c = ch ∧ n < k then
        s.gInputBuffer.data ch
          ((s.gCachedInputBufferPointer + n + gBufferSize - s.fftSize) % gBufferSize)
          * s.window.getD n 0
      else s.fftInOutBuffer.data c n }

/-- The output buffer after the first `k` iterations of the scatter loop. -/
def scatteredUpTo (s : OverlapAddFftProcessor α) (ch k : Nat) : AudioBuffer α :=
  { s.gOutputBuffer with
    data := fun c j =>
      if c = ch then
        s.gOutputBuffer.data c j + ∑ n ∈ Finset.range k,
          (if (s.gOutputBufferWritePointer + n + gBufferSize - s.fftSize) % gBufferSize = j
            then s.fftInOutBuffer.data ch n * s.window.getD n 0 else 0)
      else s.gOutputBuffer.data c j }

/-- The size conditions under which no buffer access of `process` can fault. -/
structure WellFormed (s : OverlapAddFftProcessor α) : Prop where
  fft_le : s.fftSize ≤ gBufferSize
  window_length : s.window.length = s.fftSize
  in_samples : s.gInputBuffer.numSamples = gBufferSize
  out_samples : s.gOutputBuffer.numSamples = gBufferSize
  out_channels : s.gOutputBuffer.numChannels = s.gInputBuffer.numChannels
  fft_samples : s.fftInOutBuffer.numSamples = s.fftSize
  fft_channels : s.gInputBuffer.numChannels ≤ s.fftInOutBuffer.numChannels
  in_ptr : s.gInputBufferPointer < gBufferSize
  read_ptr : s.gOutputBufferReadPointer < gBufferSize

/-- The frame cycle with both loops in closed form. -/
def pureFrameCycle (s : OverlapAddFftProcessor α) (ch : Nat) : OverlapAddFftProcessor α :=
  let s1 := { s with gHopCounter := 0, gCachedInputBufferPointer := s.gInputBufferPointer }
  let s2 := { s1 with fftInOutBuffer := extractedUpTo s1 ch s1.fftSize }
  { s2 with
    gOutputBuffer := scatteredUpTo s2 ch s2.fftSize
    gOutputBufferWritePointer := (s2.gOutputBufferWritePointer + s2.hopSize) % gBufferSize
    frameCycles := s2.frameCycles + 1 }

/-- The state after the cursor updates of one iteration, before the hop test. -/
def afterCursors (s : OverlapAddFftProcessor α) (ch : Nat) (inp : α) :
    OverlapAddFftProcessor α :=
  { s with
    gInputBuffer :=
      { s.gInputBuffer with
        data := fun c j =>
          if c = ch ∧ j = s.gInputBufferPointer then inp else s.gInputBuffer.data c j }
    gInputBufferPointer :=
      if s.gInputBufferPointer + 1 ≥ gBufferSize then 0 else s.gInputBufferPointer + 1
    gOutputBuffer :=
      { s.gOutputBuffer with
        data := fun c j =>
          if c = ch ∧ j = s.gOutputBufferReadPointer then 0 else s.gOutputBuffer.data c j }
    gOutputBufferReadPointer :=
      if s.gOutputBufferReadPointer + 1 ≥ gBufferSize then 0
      else s.gOutputBufferReadPointer + 1
    gHopCounter := s.gHopCounter + 1 }

/-- One iteration without faults: the new state and the value of `out`. -/
def pureSample (s : OverlapAddFftProcessor α) (ch : Nat) (inp : α) :
    OverlapAddFftProcessor α × α :=
  (if (afterCursors s ch inp).gHopCounter ≥ (afterCursors s ch inp).hopSize then
      pureFrameCycle (afterCursors s ch inp) ch
    else afterCursors s ch inp,
   s.gOutputBuffer.data ch s.gOutputBufferReadPointer * s.gScaleFactor)

/-- Whether the iteration started in state `s` fires a frame cycle (line 166). -/
def fires (s : OverlapAddFftProcessor α) : Prop := s.gHopCounter + 1 ≥ s.hopSize

instance (s : OverlapAddFftProcessor α) : Decidable (fires s) := by
  unfold fires; infer_instance

/-- The cursor step of lines 141-146 and 161-163. -/
def nextCursor (p : Nat) : Nat := if p + 1 ≥ gBufferSize then 0 else p + 1

/-- The input sample that the frame fired in the iteration started in `s` reads for
its position `n`: the cell of the updated input buffer of channel `ch`. -/
def frameInput (s : OverlapAddFftProcessor α) (ch : Nat) (inp : α) (n : Nat) : α :=
  if (nextCursor s.gInputBufferPointer + n + gBufferSize - s.fftSize) % gBufferSize
      = s.gInputBufferPointer then inp
  else s.gInputBuffer.data ch
    ((nextCursor s.gInputBufferPointer + n + gBufferSize - s.fftSize) % gBufferSize)

/-- The state after a sequence of iterations, each given by its channel and its input
sample. -/
def pureState (s : OverlapAddFftProcessor α) (l : List (Nat × α)) : OverlapAddFftProcessor α :=
  l.foldl (fun st p => (pureSample st p.1 p.2).1) s

/-- The values of `out` of a sequence of iterations. -/
def pureOutputs (s : OverlapAddFftProcessor α) : List (Nat × α) → List α
  | [] => []
  | p :: l => (pureSample s p.1 p.2).2 :: pureOutputs (pureSample s p.1 p.2).1 l

/-- The iterations of the inner loop for the first `k` samples of channel `ch`. -/
def channelIterations (b : AudioBuffer α) (ch k : Nat) : List (Nat × α) :=
  (List.range k).map (fun i => (ch, b.data ch i))

/-- The iterations of `process` for the first `m` channels of a block, in the order of
the two nested loops (channel by channel). -/
def blockPrefix (b : AudioBuffer α) (m : Nat) : List (Nat × α) :=
  (List.range m).flatMap (fun ch => channelIterations b ch b.numSamples)

/-- All iterations of one call of `process` on the block `b`. -/
def blockIterations (b : AudioBuffer α) : List (Nat × α) := blockPrefix b b.numChannels

/-- The output block `o` after the samples `outs` (in the order of the iterations)
have been stored to its first `numChannels` channels. -/
def outputsBlock (o : AudioBuffer α) (numChannels numSamples : Nat) (outs : List α) :
    AudioBuffer α :=
  { o with
    data := fun c i =>
      if c < numChannels ∧ i < numSamples then outs.getD (c * numSamples + i) 0
      else o.data c i }

/-- All iterations of a sequence of calls of `process`, one call per block. -/
def runIterations (bs : List (AudioBuffer α)) : List (Nat × α) :=
  bs.flatMap blockIterations

/-- The blocks left by a fault-free sequence of calls of `process`, each call
overwriting its own block. -/
def pureBlocks (s : OverlapAddFftProcessor α) : List (AudioBuffer α) → List (AudioBuffer α)
  | [] => []
  | b :: bs =>
    outputsBlock b b.numChannels b.numSamples (pureOutputs s (blockIterations b))
      :: pureBlocks (pureState s (blockIterations b)) bs

/-- The iterations of a single-channel stream given as a function of the sample
index: the first `t` samples. -/
def monoIterations (x : Nat → α) (t : Nat) : List (Nat × α) :=
  (List.range t).map (fun i => (0, x i))

/-- The stream `x` delayed by `d` samples, silent before. -/
def delayed (x : Nat → α) (d u : Nat) : α := if d ≤ u then x (u - d) else 0

/-- The sum of the squared window coefficients that the first `k` frame cycles of a
single-channel stream lay on the output position `u`: frame cycle number `j` fires
after `(j + 1) * H` samples and covers the positions from `(j + 1) * H + H` on. -/
def overlapWeight (w : List α) (F H k u : Nat) : α :=
  ∑ j ∈ Finset.range k,
    if (j + 1) * H + H ≤ u ∧ u < (j + 1) * H + H + F then
      w.getD (u - ((j + 1) * H + H)) 0 * w.getD (u - ((j + 1) * H + H)) 0
    else 0

/-- The state of a single-channel run after `t` samples of the stream `x`, in terms
of the unwrapped sample positions. -/
structure MonoInv (x : Nat → α) (t : Nat) (s : OverlapAddFftProcessor α) : Prop where
  inPtr : s.gInputBufferPointer = t % gBufferSize
  readPtr : s.gOutputBufferReadPointer = t % gBufferSize
  hop_lt : s.gHopCounter < s.hopSize
  time : s.frameCycles * s.hopSize + s.gHopCounter = t
  writePtr : s.gOutputBufferWritePointer % gBufferSize
    = (s.fftSize + 2 * s.hopSize + s.frameCycles * s.hopSize) % gBufferSize
  inRecent : ∀ i, i < t → t ≤ i + gBufferSize → s.gInputBuffer.data 0 (i % gBufferSize) = x i
  inFresh : ∀ c, t ≤ c → c < gBufferSize → s.gInputBuffer.data 0 c = 0
  out : ∀ u, t ≤ u → u < t + gBufferSize →
    s.gOutputBuffer.data 0 (u % gBufferSize)
      = delayed x (s.fftSize + s.hopSize) u
        * overlapWeight s.window s.fftSize s.hopSize s.frameCycles u

/-- A single-channel stream `1, 2, 3, 4, 5, 6, 7, 8` cut into a block of three and a
block of five samples. -/
def demoBlocks : List (AudioBuffer ℚ) := [monoBlock [1, 2, 3], monoBlock [4, 5, 6, 7, 8]]

/-- A two-channel block of six samples per channel. -/
def stereoSix : AudioBuffer ℚ :=
  blockOfChannels [[1, 2, 3, 4, 5, 6], [10, 20, 30, 40, 50, 60]] 6

/-- The state in which channel 0 is starved: its output buffer is empty, and the
hop counter and the hop size are even, so that an iteration started at an even
counter cannot complete a hop. -/
structure Starved (s : OverlapAddFftProcessor α) : Prop where
  out_zero : ∀ j, s.gOutputBuffer.data 0 j = 0
  hop_even : s.gHopCounter % 2 = 0
  hop_lt : s.gHopCounter < s.hopSize
  size_even : s.hopSize % 2 = 0

/-- The scenario of C3 delivered in blocks of one sample: 10000 calls, each with the
sample 1 on channel 0 and the sample 0 on channel 1. -/
def scenarioBlocks : List (AudioBuffer ℚ) :=
  List.replicate 10000 (blockOfChannels [[1], [0]] 1)

/-- Both circular buffers of channel `c` hold nothing but zeros. -/
def SilentChannel (c : Nat) (s : OverlapAddFftProcessor α) : Prop :=
  ∀ j, s.gInputBuffer.data c j = 0 ∧ s.gOutputBuffer.data c j = 0

/-- A block of `numChannels` by `numSamples` zeros. -/
def silentBlock (numChannels numSamples : Nat) : AudioBuffer α :=
  ⟨numChannels, numSamples, fun _ _ => 0⟩

/-- The number of iterations of the inner loop executed by a sequence of calls. -/
def totalIterations (bs : List (AudioBuffer α)) : Nat :=
  (bs.map (fun b => b.numChannels * b.numSamples)).sum

/-- The cursors and counters after `n` iterations from a freshly prepared
processor. -/
structure Clock (n : Nat) (s : OverlapAddFftProcessor α) : Prop where
  inPtr : s.gInputBufferPointer = n % gBufferSize
  readPtr : s.gOutputBufferReadPointer = n % gBufferSize
  hop_lt : s.gHopCounter < s.hopSize
  time : s.frameCycles * s.hopSize + s.gHopCounter = n
  writePtr : s.gOutputBufferWritePointer % gBufferSize
    = (s.fftSize + 2 * s.hopSize + s.frameCycles * s.hopSize) % gBufferSize

/-- The cursors after `n` iterations, for a processor of the sizes `F` and `H`. -/
def ClockOf (F H : Nat) (n : Nat) (s : OverlapAddFftProcessor α) : Prop :=
  Clock n s ∧ s.fftSize = F ∧ s.hopSize = H

/-- The state in which the first frame cycle of a fresh processor with `fftSize = 2`,
`hopSize = 1` and the window `1, 1` fires: after the cursor updates of the iteration
for the first sample, of value 1. -/
def firstFiringState : OverlapAddFftProcessor ℚ :=
  afterCursors (freshProcessor 2 1 (1 / 2) [1, 1] 1 1) 0 1

/-- Two silent two-channel blocks of three and of five samples. -/
def silentBlocks : List (AudioBuffer ℚ) := [silentBlock 2 3, silentBlock 2 5]

/-- The input buffer of a single-channel run after `t` samples of the stream `x`: the
last 16384 samples are in their cells, the cells never written hold zero. -/
structure InputInv (x : Nat → α) (t : Nat) (s : OverlapAddFftProcessor α) : Prop where
  inPtr : s.gInputBufferPointer = t % gBufferSize
  inRecent : ∀ i, i < t → t ≤ i + gBufferSize → s.gInputBuffer.data 0 (i % gBufferSize) = x i
  inFresh : ∀ c, t ≤ c → c < gBufferSize → s.gInputBuffer.data 0 c = 0

/-- The state of a single-channel run after `t` iterations, before its first frame
cycle: nothing has been scattered yet. -/
structure Quiet (t : Nat) (s : OverlapAddFftProcessor α) : Prop where
  hop : s.gHopCounter = t
  readPtr : s.gOutputBufferReadPointer = t
  writePtr : s.gOutputBufferWritePointer = s.fftSize + 2 * s.hopSize
  out_zero : ∀ j, s.gOutputBuffer.data 0 j = 0

/-- The input of the run of C18: the sample 1 followed by 8192 zeros, in one
single-channel block. -/
def impulseBlock : AudioBuffer ℚ := monoBlock (1 :: List.replicate 8192 0)

/-- Two optional results are both faults, or both values related by `R`. -/
def OptRel {β γ : Type} (R : β → γ → Prop) : Option β → Option γ → Prop
  | some a, some b => R a b
  | none, none => True
  | _, _ => False

/-- Two buffers of the same shape that hold the same samples on channel `c`. -/
def AudioBuffer.SameOn (c : Nat) (a b : AudioBuffer α) : Prop :=
  a.numChannels = b.numChannels ∧ a.numSamples = b.numSamples ∧
    ∀ j, j < a.numSamples → a.data c j = b.data c j

/-- Two states of the processor with the same sizes, window, cursors and counters,
whose buffers have the same shape and hold the same samples on channel `c`. -/
structure Agree (c : Nat) (s t : OverlapAddFftProcessor α) : Prop where
  fftSize : s.fftSize = t.fftSize
  hopSize : s.hopSize = t.hopSize
  gScaleFactor : s.gScaleFactor = t.gScaleFactor
  window : s.window = t.window
  inPtr : s.gInputBufferPointer = t.gInputBufferPointer
  hop : s.gHopCounter = t.gHopCounter
  writePtr : s.gOutputBufferWritePointer = t.gOutputBufferWritePointer
  readPtr : s.gOutputBufferReadPointer = t.gOutputBufferReadPointer
  cached : s.gCachedInputBufferPointer = t.gCachedInputBufferPointer
  cycles : s.frameCycles = t.frameCycles
  inBuf : s.gInputBuffer.SameOn c t.gInputBuffer
  outBuf : s.gOutputBuffer.SameOn c t.gOutputBuffer
  fftBuf : s.fftInOutBuffer.SameOn c t.fftInOutBuffer

/-- What a run shows of channel `c`: its output samples, and the three cursors, the
write pointer and the hop counter. -/
def observe (c : Nat) (r : OverlapAddFftProcessor α × List (AudioBuffer α)) :
    List α × Nat × Nat × Nat × Nat :=
  (channelStream r.2 c, r.1.gInputBufferPointer, r.1.gOutputBufferReadPointer,
    r.1.gOutputBufferWritePointer, r.1.gHopCounter)

/-- Three optional results are all faults, or all values related by `R`. -/
def OptRel3 {β γ δ : Type} (R : β → γ → δ → Prop) : Option β → Option γ → Option δ → Prop
  | some a, some b, some c => R a b c
  | none, none, none => True
  | _, _, _ => False

/-- The block `a * x + b * y`, sample by sample, with the shape of `x`. -/
def AudioBuffer.combine (a b : α) (x y : AudioBuffer α) : AudioBuffer α :=
  ⟨x.numChannels, x.numSamples, fun c j => a * x.data c j + b * y.data c j⟩

/-- The block `x + y`, sample by sample, with the shape of `x`. -/
def AudioBuffer.add (x y : AudioBuffer α) : AudioBuffer α :=
  ⟨x.numChannels, x.numSamples, fun c j => x.data c j + y.data c j⟩

/-- The block `a * x`, sample by sample. -/
def AudioBuffer.scale (a : α) (x : AudioBuffer α) : AudioBuffer α :=
  ⟨x.numChannels, x.numSamples, fun c j => a * x.data c j⟩

/-- Three buffers of one shape, the third holding `a * x + b * y`. -/
def AudioBuffer.Combo (a b : α) (x y z : AudioBuffer α) : Prop :=
  x.numChannels = z.numChannels ∧ x.numSamples = z.numSamples ∧
    y.numChannels = z.numChannels ∧ y.numSamples = z.numSamples ∧
    ∀ c j, z.data c j = a * x.data c j + b * y.data c j

/-- Three lists of buffers of the same length, related by `Combo` one by one. -/
def ComboList (a b : α) : List (AudioBuffer α) → List (AudioBuffer α) → List (AudioBuffer α) → Prop
  | [], [], [] => True
  | x :: xs, y :: ys, z :: zs => AudioBuffer.Combo a b x y z ∧ ComboList a b xs ys zs
  | _, _, _ => False

/-- Two states of the processor with the same sizes, scale factor, window, cursors
and counters. -/
structure SameControl (s t : OverlapAddFftProcessor α) : Prop where
  fftSize : s.fftSize = t.fftSize
  hopSize : s.hopSize = t.hopSize
  gScaleFactor : s.gScaleFactor = t.gScaleFactor
  window : s.window = t.window
  inPtr : s.gInputBufferPointer = t.gInputBufferPointer
  hop : s.gHopCounter = t.gHopCounter
  writePtr : s.gOutputBufferWritePointer = t.gOutputBufferWritePointer
  readPtr : s.gOutputBufferReadPointer = t.gOutputBufferReadPointer
  cached : s.gCachedInputBufferPointer = t.gCachedInputBufferPointer
  cycles : s.frameCycles = t.frameCycles

/-- Three states with the same sizes and cursors whose buffers are related by
`Combo`: the third holds `a` times the first plus `b` times the second. -/
structure Combined (a b : α) (s1 s2 s3 : OverlapAddFftProcessor α) : Prop where
  left : SameControl s1 s3
  right : SameControl s2 s3
  inBuf : AudioBuffer.Combo a b s1.gInputBuffer s2.gInputBuffer s3.gInputBuffer
  outBuf : AudioBuffer.Combo a b s1.gOutputBuffer s2.gOutputBuffer s3.gOutputBuffer
  fftBuf : AudioBuffer.Combo a b s1.fftInOutBuffer s2.fftInOutBuffer s3.fftInOutBuffer

end ClosedForms

/-! ## Facts that do not depend on the sample arithmetic -/

section Basics

variable {α : Type}

theorem AudioBuffer.getSample_natCast (b : AudioBuffer α) (ch i : Nat)
    (hc : ch < b.numChannels) (hi : i < b.numSamples) :
    b.getSample ch (i : Int) = some (b.data ch i) := by
  have h : b.inRange ch (i : Int) := ⟨hc, Int.natCast_nonneg i, by exact_mod_cast hi⟩
  simp [AudioBuffer.getSample, h]

theorem AudioBuffer.setSample_natCast (b : AudioBuffer α) (ch i : Nat) (v : α)
    (hc : ch < b.numChannels) (hi : i < b.numSamples) :
    b.setSample ch (i : Int) v =
      some { b with data := fun c j => if c = ch ∧ j = i then v else b.data c j } := by
  have h : b.inRange ch (i : Int) := ⟨hc, Int.natCast_nonneg i, by exact_mod_cast hi⟩
  simp [AudioBuffer.setSample, h]

theorem mod_gBufferSize_lt (a : Nat) : a % gBufferSize < gBufferSize :=
  Nat.mod_lt _ (by decide)

theorem nextCursor_eq_mod (p : Nat) (h : p < gBufferSize) :
    nextCursor p = (p + 1) % gBufferSize := by
  unfold nextCursor
  simp only [gBufferSize] at *
  split <;> omega

theorem channelIterations_succ (b : AudioBuffer α) (ch k : Nat) :
    channelIterations b ch (k + 1) = channelIterations b ch k ++ [(ch, b.data ch k)] := by
  simp [channelIterations, List.range_succ]

@[simp] theorem channelIterations_length (b : AudioBuffer α) (ch k : Nat) :
    (channelIterations b ch k).length = k := by
  simp [channelIterations]

theorem blockPrefix_succ (b : AudioBuffer α) (m : Nat) :
    blockPrefix b (m + 1) = blockPrefix b m ++ channelIterations b m b.numSamples := by
  simp [blockPrefix, List.range_succ, List.flatMap_append]

@[simp] theorem blockPrefix_length (b : AudioBuffer α) (m : Nat) :
    (blockPrefix b m).length = m * b.numSamples := by
  induction m with
  | zero => simp [blockPrefix]
  | succ m ih => rw [blockPrefix_succ, List.length_append, ih, channelIterations_length]; ring

theorem runIterations_cons (b : AudioBuffer α) (bs : List (AudioBuffer α)) :
    runIterations (b :: bs) = blockIterations b ++ runIterations bs := by
  simp [runIterations]

theorem monoIterations_succ (x : Nat → α) (t : Nat) :
    monoIterations x (t + 1) = monoIterations x t ++ [(0, x t)] := by
  simp [monoIterations, List.range_succ]

theorem monoIterations_take (x : Nat → α) (t j : Nat) (h : j ≤ t) :
    monoIterations x t = monoIterations x j ++ (List.range (t - j)).map (fun i => (0, x (j + i))) := by
  obtain ⟨d, rfl⟩ := Nat.exists_eq_add_of_le h
  simp only [monoIterations, Nat.add_sub_cancel_left]
  rw [List.range_add, List.map_append, List.map_map]
  rfl

theorem blockIterations_mono (b : AudioBuffer α) (h : b.numChannels = 1) :
    blockIterations b = (channelSamples b 0).map (fun v => (0, v)) := by
  have h1 : List.range 1 = [0] := rfl
  simp [blockIterations, blockPrefix, h, h1, channelIterations, channelSamples]

/-- For single-channel blocks the iterations are the samples of the stream, in
order. -/
theorem runIterations_mono (bs : List (AudioBuffer α)) (h : ∀ b ∈ bs, b.numChannels = 1) :
    runIterations bs = (channelStream bs 0).map (fun v => (0, v)) := by
  induction bs with
  | nil => rfl
  | cons b bs ih =>
    rw [runIterations_cons, ih (fun b' hb' => h b' (List.mem_cons_of_mem _ hb')),
      blockIterations_mono b (h b (List.mem_cons_self _ _))]
    simp [channelStream]

theorem channelSamples_split (b : AudioBuffer α) (ch k : Nat) (hk : k ≤ b.numSamples) :
    channelSamples b ch
      = channelSamples (b.takeSamples k) ch ++ channelSamples (b.dropSamples k) ch := by
  obtain ⟨d, hd⟩ := Nat.exists_eq_add_of_le hk
  simp only [channelSamples, AudioBuffer.takeSamples, AudioBuffer.dropSamples, hd,
    Nat.add_sub_cancel_left]
  rw [List.range_add, List.map_append, List.map_map]
  rfl

theorem blockIterations_two_by_one (b : AudioBuffer α) (hc : b.numChannels = 2)
    (hn : b.numSamples = 1) : blockIterations b = [(0, b.data 0 0), (1, b.data 1 0)] := by
  have h2 : List.range 2 = [0, 1] := rfl
  have h1 : List.range 1 = [0] := rfl
  simp [blockIterations, blockPrefix, channelIterations, hc, hn, h1, h2]

theorem mem_blockPrefix (b : AudioBuffer α) (m : Nat) (p : Nat × α)
    (hp : p ∈ blockPrefix b m) : ∃ i, i < b.numSamples ∧ p.1 < m ∧ p.2 = b.data p.1 i := by
  simp only [blockPrefix, channelIterations, List.mem_flatMap, List.mem_range, List.mem_map]
    at hp
  obtain ⟨ch, hch, i, hi, rfl⟩ := hp
  exact ⟨i, hi, hch, rfl⟩

theorem blockPrefix_le (b : AudioBuffer α) (m d : Nat) :
    ∃ rest, blockPrefix b (m + d) = blockPrefix b m ++ rest := by
  induction d with
  | zero => exact ⟨[], by simp⟩
  | succ d ih =>
    obtain ⟨rest, hrest⟩ := ih
    refine ⟨rest ++ channelIterations b (m + d) b.numSamples, ?_⟩
    rw [← Nat.add_assoc, blockPrefix_succ, hrest, List.append_assoc]

/-- The lead of the write pointer over the read pointer, from the cursors. -/
theorem clock_lead (n : Nat) (s : OverlapAddFftProcessor α) (h : Clock n s) :
    s.gOutputBufferWritePointer % gBufferSize
      = (s.gOutputBufferReadPointer + (s.fftSize + 2 * s.hopSize - s.gHopCounter))
          % gBufferSize := by
  obtain ⟨_, hrd, hhop, htime, hW⟩ := h
  have hC : gBufferSize = 16384 := rfl
  rw [hW, hrd, hC]
  omega

/-- When the frame is not longer than the buffer, `circularBufferIndex` is the
natural-number remainder. -/
theorem circularBufferIndex_eq (pointer n fftSize : Nat) (h : fftSize ≤ gBufferSize) :
    circularBufferIndex pointer n fftSize
      = ((pointer + n + gBufferSize - fftSize) % gBufferSize : Nat) := by
  unfold circularBufferIndex
  have h0 : (0 : Int) ≤ (pointer : Int) + (n : Int) - (fftSize : Int) + (gBufferSize : Int) := by
    omega
  rw [Int.tmod_eq_emod h0 (Int.natCast_nonneg _)]
  have h1 : (pointer : Int) + (n : Int) - (fftSize : Int) + (gBufferSize : Int)
      = ((pointer + n + gBufferSize - fftSize : Nat) : Int) := by omega
  rw [h1]
  norm_cast

theorem circularBufferIndex_range (pointer n fftSize : Nat) (h : fftSize ≤ gBufferSize) :
    0 ≤ circularBufferIndex pointer n fftSize ∧
      circularBufferIndex pointer n fftSize < (gBufferSize : Int) := by
  rw [circularBufferIndex_eq pointer n fftSize h]
  exact ⟨Int.natCast_nonneg _, by exact_mod_cast mod_gBufferSize_lt _⟩

/-- A read faults exactly when its channel or its sample index is out of range. -/
theorem AudioBuffer.getSample_eq_none_iff (b : AudioBuffer α) (ch : Nat) (i : Int) :
    b.getSample ch i = none ↔ ¬ b.inRange ch i := by
  unfold AudioBuffer.getSample
  split <;> simp [*]

/-- A write faults exactly when its channel or its sample index is out of range. -/
theorem AudioBuffer.setSample_eq_none_iff (b : AudioBuffer α) (ch : Nat) (i : Int) (v : α) :
    b.setSample ch i v = none ↔ ¬ b.inRange ch i := by
  unfold AudioBuffer.setSample
  split <;> simp [*]

theorem fftSizeOf_eq (p : Int) (hp : p ≤ 30) :
    fftSizeOf p = ((2 ^ p.toNat : Nat) : Int) := by
  unfold fftSizeOf wrapInt32
  rw [Nat.one_shiftLeft]
  have h1 : (2 : Nat) ^ p.toNat ≤ 2 ^ 30 := Nat.pow_le_pow_right (by decide) (by omega)
  have h2 : 0 < (2 : Nat) ^ p.toNat := Nat.two_pow_pos _
  omega

theorem hopSizeOf_eq (p d : Int) (hp : p ≤ 30) (hdp : d ≤ p) :
    hopSizeOf p d = ((2 ^ (p.toNat - d.toNat) : Nat) : Int) := by
  unfold hopSizeOf
  rw [fftSizeOf_eq p hp, Int.shiftRight_eq_div_pow]
  have : (2 : Nat) ^ p.toNat / 2 ^ d.toNat = 2 ^ (p.toNat - d.toNat) :=
    Nat.pow_div (by omega) (by decide)
  rw [← this]
  norm_cast

theorem getD_replicate_of_lt (a d : α) (n k : Nat) (h : k < n) :
    (List.replicate n a).getD k d = a := by
  simp [List.getD_eq_getElem?_getD, List.getElem?_replicate, h]

theorem tmod_nonpos_of_neg (a b : Int) (h : a < 0) : Int.tmod a b ≤ 0 := by
  cases a with
  | ofNat k => exact absurd h (by simp)
  | negSucc m =>
    cases b with
    | ofNat n =>
      exact Int.neg_nonpos_of_nonneg (Int.ofNat_nonneg _)
    | negSucc n =>
      exact Int.neg_nonpos_of_nonneg (Int.ofNat_nonneg _)

/-- Whenever `circularBufferIndex` is not negative it is the natural-number
remainder, whatever the frame length is. -/
theorem circularBufferIndex_toNat (pointer n fftSize : Nat)
    (h : 0 ≤ circularBufferIndex pointer n fftSize) :
    (circularBufferIndex pointer n fftSize).toNat
      = (pointer + n + gBufferSize - fftSize) % gBufferSize := by
  unfold circularBufferIndex at h ⊢
  by_cases h0 : (0 : Int) ≤ (pointer : Int) + (n : Int) - (fftSize : Int) + (gBufferSize : Int)
  · rw [Int.tmod_eq_emod h0 (Int.natCast_nonneg _)]
    have h1 : (pointer : Int) + (n : Int) - (fftSize : Int) + (gBufferSize : Int)
        = ((pointer + n + gBufferSize - fftSize : Nat) : Int) := by omega
    rw [h1]
    norm_cast
  · have hneg := tmod_nonpos_of_neg _ (gBufferSize : Int) (not_le.mp h0)
    have hz : pointer + n + gBufferSize - fftSize = 0 := by omega
    rw [hz, Nat.zero_mod]
    omega

theorem AudioBuffer.getSample_eq_some (b : AudioBuffer α) (ch : Nat) (i : Int) (v : α)
    (h : b.getSample ch i = some v) : b.inRange ch i ∧ v = b.data ch i.toNat := by
  unfold AudioBuffer.getSample at h
  split at h
  · rename_i hr
    exact ⟨hr, (Option.some.inj h).symm⟩
  · exact absurd h (by simp)

theorem AudioBuffer.setSample_eq_some (b : AudioBuffer α) (ch : Nat) (i : Int) (v : α)
    (r : AudioBuffer α) (h : b.setSample ch i v = some r) :
    b.inRange ch i ∧
      r = { b with data := fun c j => if c = ch ∧ j = i.toNat then v else b.data c j } := by
  unfold AudioBuffer.setSample at h
  split at h
  · rename_i hr
    exact ⟨hr, (Option.some.inj h).symm⟩
  · exact absurd h (by simp)

theorem totalIterations_two_by_one (bs : List (AudioBuffer α))
    (hbs : ∀ b ∈ bs, b.numChannels = 2 ∧ b.numSamples = 1) :
    totalIterations bs = 2 * bs.length := by
  induction bs with
  | nil => rfl
  | cons b bs ih =>
    obtain ⟨hc, hn⟩ := hbs b (List.mem_cons_self _ _)
    have := ih (fun b' hb' => hbs b' (List.mem_cons_of_mem _ hb'))
    simp only [totalIterations, List.map_cons, List.sum_cons, List.length_cons] at this ⊢
    rw [this, hc, hn]; omega

theorem AudioBuffer.sameOn_refl (c : Nat) (a : AudioBuffer α) : a.SameOn c a :=
  ⟨rfl, rfl, fun _ _ => rfl⟩

theorem AudioBuffer.getSample_rel (c : Nat) (a b : AudioBuffer α) (h : a.SameOn c b)
    (ch : Nat) (i : Int) :
    OptRel (fun x y => ch = c → x = y) (a.getSample ch i) (b.getSample ch i) := by
  obtain ⟨h1, h2, h3⟩ := h
  have hiff : a.inRange ch i ↔ b.inRange ch i := by
    unfold AudioBuffer.inRange; rw [h1, h2]
  unfold AudioBuffer.getSample
  by_cases hr : a.inRange ch i
  · rw [if_pos hr, if_pos (hiff.mp hr)]
    intro hc
    subst hc
    have := hr.2.1
    have := hr.2.2
    exact h3 _ (by omega)
  · rw [if_neg hr, if_neg (fun hb => hr (hiff.mpr hb))]
    exact True.intro

theorem AudioBuffer.setSample_rel (c : Nat) (a b : AudioBuffer α) (h : a.SameOn c b)
    (ch : Nat) (i : Int) (x y : α) (hv : ch = c → x = y) :
    OptRel (AudioBuffer.SameOn c) (a.setSample ch i x) (b.setSample ch i y) := by
  obtain ⟨h1, h2, h3⟩ := h
  have hiff : a.inRange ch i ↔ b.inRange ch i := by
    unfold AudioBuffer.inRange; rw [h1, h2]
  unfold AudioBuffer.setSample
  by_cases hr : a.inRange ch i
  · rw [if_pos hr, if_pos (hiff.mp hr)]
    refine ⟨h1, h2, ?_⟩
    intro j hj
    show (if c = ch ∧ j = i.toNat then x else a.data c j)
      = (if c = ch ∧ j = i.toNat then y else b.data c j)
    by_cases hc : c = ch ∧ j = i.toNat
    · rw [if_pos hc, if_pos hc]; exact hv hc.1.symm
    · rw [if_neg hc, if_neg hc]; exact h3 j hj
  · rw [if_neg hr, if_neg (fun hb => hr (hiff.mpr hb))]
    exact True.intro

theorem channelStream_sameOn (c : Nat) (bs1 bs2 : List (AudioBuffer α))
    (hbs : List.Forall₂ (AudioBuffer.SameOn c) bs1 bs2) :
    channelStream bs1 c = channelStream bs2 c := by
  induction hbs with
  | nil => rfl
  | cons hb _ ih =>
    simp only [channelStream, List.flatMap_cons] at ih ⊢
    rw [ih]
    congr 1
    unfold channelSamples
    rw [← hb.2.1]
    exact List.map_congr_left (fun i hi => hb.2.2 i (List.mem_range.mp hi))

theorem agree_refl (c : Nat) (s : OverlapAddFftProcessor α) : Agree c s s :=
  ⟨rfl, rfl, rfl, rfl, rfl, rfl, rfl, rfl, rfl, rfl, AudioBuffer.sameOn_refl c _,
    AudioBuffer.sameOn_refl c _, AudioBuffer.sameOn_refl c _⟩


theorem forall2_same_shape (xs : List (AudioBuffer α)) :
    List.Forall₂ (fun x y : AudioBuffer α =>
      x.numChannels = y.numChannels ∧ x.numSamples = y.numSamples) xs xs := by
  induction xs with
  | nil => exact List.Forall₂.nil
  | cons x xs ih => exact List.Forall₂.cons ⟨rfl, rfl⟩ ih

end Basics

/-! ## The fault-free step, runs, and the properties of the processor -/

section Properties

variable {α : Type} [CommRing α]

theorem extractLoop_eq (s : OverlapAddFftProcessor α) (ch : Nat)
    (hF : s.fftSize ≤ gBufferSize) (hw : s.window.length = s.fftSize)
    (hin : s.gInputBuffer.numSamples = gBufferSize) (hic : ch < s.gInputBuffer.numChannels)
    (hfs : s.fftInOutBuffer.numSamples = s.fftSize) (hfc : ch < s.fftInOutBuffer.numChannels)
    (k : Nat) (hk : k ≤ s.fftSize) :
    (List.range k).foldlM (extractStep s ch) s.fftInOutBuffer = some (extractedUpTo s ch k) := by
  induction k with
  | zero =>
    simp [extractedUpTo]
  | succ k ih =>
    rw [List.range_succ, List.foldlM_append, ih (by omega)]
    have hkw : k < s.window.length := by omega
    have hidx := circularBufferIndex_eq s.gCachedInputBufferPointer k s.fftSize hF
    have hget := AudioBuffer.getSample_natCast s.gInputBuffer ch
      ((s.gCachedInputBufferPointer + k + gBufferSize - s.fftSize) % gBufferSize) hic
      (by rw [hin]; exact mod_gBufferSize_lt _)
    have hset := fun v => AudioBuffer.setSample_natCast (extractedUpTo s ch k) ch k v
      (by simpa [extractedUpTo] using hfc) (by simp only [extractedUpTo]; omega)
    simp only [List.foldlM_cons, List.foldlM_nil, Option.some_bind, Option.bind_eq_bind,
      extractStep, hidx, hget, List.getElem?_eq_getElem hkw, hset, bind_pure]
    congr 1
    simp only [extractedUpTo, AudioBuffer.mk.injEq, true_and]
    funext c n
    by_cases hc : c = ch
    · by_cases hn : n = k
      · subst hn; simp [hc, List.getElem?_eq_getElem hkw]
      · have : (n < k + 1) = (n < k) := by
          apply propext; omega
        simp [hc, hn, this]
    · simp [hc]

theorem extractFrame_eq (s : OverlapAddFftProcessor α) (ch : Nat)
    (hF : s.fftSize ≤ gBufferSize) (hw : s.window.length = s.fftSize)
    (hin : s.gInputBuffer.numSamples = gBufferSize) (hic : ch < s.gInputBuffer.numChannels)
    (hfs : s.fftInOutBuffer.numSamples = s.fftSize) (hfc : ch < s.fftInOutBuffer.numChannels) :
    extractFrame s ch = some (extractedUpTo s ch s.fftSize) :=
  extractLoop_eq s ch hF hw hin hic hfs hfc s.fftSize le_rfl

theorem scatterLoop_eq (s : OverlapAddFftProcessor α) (ch : Nat)
    (hF : s.fftSize ≤ gBufferSize) (hw : s.window.length = s.fftSize)
    (hos : s.gOutputBuffer.numSamples = gBufferSize) (hoc : ch < s.gOutputBuffer.numChannels)
    (hfs : s.fftInOutBuffer.numSamples = s.fftSize) (hfc : ch < s.fftInOutBuffer.numChannels)
    (k : Nat) (hk : k ≤ s.fftSize) :
    (List.range k).foldlM (scatterStep s ch) s.gOutputBuffer = some (scatteredUpTo s ch k) := by
  induction k with
  | zero =>
    simp [scatteredUpTo]
  | succ k ih =>
    rw [List.range_succ, List.foldlM_append, ih (by omega)]
    have hkw : k < s.window.length := by omega
    have hidx := circularBufferIndex_eq s.gOutputBufferWritePointer k s.fftSize hF
    have hlt := mod_gBufferSize_lt (s.gOutputBufferWritePointer + k + gBufferSize - s.fftSize)
    have hget := AudioBuffer.getSample_natCast (scatteredUpTo s ch k) ch
      ((s.gOutputBufferWritePointer + k + gBufferSize - s.fftSize) % gBufferSize)
      (by simpa [scatteredUpTo] using hoc) (by simp only [scatteredUpTo]; omega)
    have hgetf := AudioBuffer.getSample_natCast s.fftInOutBuffer ch k hfc (by omega)
    have hset := fun v => AudioBuffer.setSample_natCast (scatteredUpTo s ch k) ch
      ((s.gOutputBufferWritePointer + k + gBufferSize - s.fftSize) % gBufferSize) v
      (by simpa [scatteredUpTo] using hoc) (by simp only [scatteredUpTo]; omega)
    simp only [List.foldlM_cons, List.foldlM_nil, Option.some_bind, Option.bind_eq_bind,
      scatterStep, hidx, hget, hgetf, List.getElem?_eq_getElem hkw, hset, bind_pure]
    congr 1
    simp only [scatteredUpTo, AudioBuffer.mk.injEq, true_and]
    funext c j
    by_cases hc : c = ch
    · subst hc
      rw [Finset.sum_range_succ]
      by_cases hj :
          j = (s.gOutputBufferWritePointer + k + gBufferSize - s.fftSize) % gBufferSize
      · subst hj
        have hgd : s.window.getD k 0 = s.window[k] := by
          simp [List.getD, List.getElem?_eq_getElem hkw]
        simp only [and_self, if_true, hgd, add_assoc]
      · have hj2 :
            ¬ (s.gOutputBufferWritePointer + k + gBufferSize - s.fftSize) % gBufferSize = j :=
          fun h => hj h.symm
        simp [hj, hj2]
    · simp [hc]

theorem scatterAdd_eq (s : OverlapAddFftProcessor α) (ch : Nat)
    (hF : s.fftSize ≤ gBufferSize) (hw : s.window.length = s.fftSize)
    (hos : s.gOutputBuffer.numSamples = gBufferSize) (hoc : ch < s.gOutputBuffer.numChannels)
    (hfs : s.fftInOutBuffer.numSamples = s.fftSize) (hfc : ch < s.fftInOutBuffer.numChannels) :
    scatterAdd s ch = some (scatteredUpTo s ch s.fftSize) :=
  scatterLoop_eq s ch hF hw hos hoc hfs hfc s.fftSize le_rfl

theorem frameCycle_eq (s : OverlapAddFftProcessor α) (m ch : Nat)
    (hF : s.fftSize ≤ gBufferSize) (hw : s.window.length = s.fftSize)
    (hin : s.gInputBuffer.numSamples = gBufferSize) (hic : ch < s.gInputBuffer.numChannels)
    (hos : s.gOutputBuffer.numSamples = gBufferSize) (hoc : ch < s.gOutputBuffer.numChannels)
    (hfs : s.fftInOutBuffer.numSamples = s.fftSize) (hfc : ch < s.fftInOutBuffer.numChannels) :
    frameCycle s m ch = some (pureFrameCycle s ch) := by
  have he := extractFrame_eq
    { s with gHopCounter := 0, gCachedInputBufferPointer := s.gInputBufferPointer }
    ch hF hw hin hic hfs hfc
  have hsc := scatterAdd_eq
    { s with
      gHopCounter := 0
      gCachedInputBufferPointer := s.gInputBufferPointer
      fftInOutBuffer := extractedUpTo
        { s with gHopCounter := 0, gCachedInputBufferPointer := s.gInputBufferPointer }
        ch s.fftSize }
    ch hF hw hos hoc (by simpa [extractedUpTo] using hfs) (by simpa [extractedUpTo] using hfc)
  simp only [frameCycle, he, processFrameInBuffer, hsc, Option.some_bind, Option.bind_eq_bind]
  rfl

theorem processSample_eq (s : OverlapAddFftProcessor α) (m ch : Nat) (inp : α)
    (hs : WellFormed s) (hch : ch < s.gInputBuffer.numChannels) :
    processSample s m ch inp = some (pureSample s ch inp) := by
  have hoc : ch < s.gOutputBuffer.numChannels := by rw [hs.out_channels]; exact hch
  have hfc : ch < s.fftInOutBuffer.numChannels := lt_of_lt_of_le hch hs.fft_channels
  have h1 := AudioBuffer.setSample_natCast s.gInputBuffer ch s.gInputBufferPointer inp hch
    (by rw [hs.in_samples]; exact hs.in_ptr)
  have h2 := AudioBuffer.getSample_natCast s.gOutputBuffer ch s.gOutputBufferReadPointer hoc
    (by rw [hs.out_samples]; exact hs.read_ptr)
  have h3 := AudioBuffer.setSample_natCast s.gOutputBuffer ch s.gOutputBufferReadPointer 0 hoc
    (by rw [hs.out_samples]; exact hs.read_ptr)
  unfold processSample
  simp only [h1, h2, h3, Option.some_bind, Option.bind_eq_bind]
  by_cases hfire : s.gHopCounter + 1 ≥ s.hopSize
  · have hcyc := frameCycle_eq (afterCursors s ch inp) m ch hs.fft_le hs.window_length
      hs.in_samples hch hs.out_samples hoc hs.fft_samples hfc
    have hfire2 : (afterCursors s ch inp).gHopCounter ≥ (afterCursors s ch inp).hopSize := hfire
    simp only [pureSample, if_pos hfire2]
    simp only [afterCursors] at hcyc
    simp only [if_pos hfire, hcyc, Option.some_bind]
    rfl
  · have hfire2 : ¬ (afterCursors s ch inp).gHopCounter ≥ (afterCursors s ch inp).hopSize :=
      hfire
    simp only [pureSample, if_neg hfire2]
    simp only [if_neg hfire]
    rfl

theorem wellFormed_pureSample (s : OverlapAddFftProcessor α) (ch : Nat) (inp : α)
    (hs : WellFormed s) : WellFormed (pureSample s ch inp).1 := by
  have hp : (if s.gInputBufferPointer + 1 ≥ gBufferSize then 0 else s.gInputBufferPointer + 1)
      < gBufferSize := by
    split <;> simp only [gBufferSize] at * <;> omega
  have hr : (if s.gOutputBufferReadPointer + 1 ≥ gBufferSize then 0
      else s.gOutputBufferReadPointer + 1) < gBufferSize := by
    split <;> simp only [gBufferSize] at * <;> omega
  unfold pureSample
  split
  · exact ⟨hs.fft_le, hs.window_length, hs.in_samples, hs.out_samples, hs.out_channels,
      hs.fft_samples, hs.fft_channels, hp, hr⟩
  · exact ⟨hs.fft_le, hs.window_length, hs.in_samples, hs.out_samples, hs.out_channels,
      hs.fft_samples, hs.fft_channels, hp, hr⟩

@[simp] theorem pureSample_fftSize (s : OverlapAddFftProcessor α) (ch : Nat) (inp : α) :
    (pureSample s ch inp).1.fftSize = s.fftSize := by
  unfold pureSample; split <;> rfl

@[simp] theorem pureSample_hopSize (s : OverlapAddFftProcessor α) (ch : Nat) (inp : α) :
    (pureSample s ch inp).1.hopSize = s.hopSize := by
  unfold pureSample; split <;> rfl

@[simp] theorem pureSample_window (s : OverlapAddFftProcessor α) (ch : Nat) (inp : α) :
    (pureSample s ch inp).1.window = s.window := by
  unfold pureSample; split <;> rfl

@[simp] theorem pureSample_gScaleFactor (s : OverlapAddFftProcessor α) (ch : Nat) (inp : α) :
    (pureSample s ch inp).1.gScaleFactor = s.gScaleFactor := by
  unfold pureSample; split <;> rfl

@[simp] theorem pureSample_in_numChannels (s : OverlapAddFftProcessor α) (ch : Nat) (inp : α) :
    (pureSample s ch inp).1.gInputBuffer.numChannels = s.gInputBuffer.numChannels := by
  unfold pureSample; split <;> rfl

theorem pureSample_out (s : OverlapAddFftProcessor α) (ch : Nat) (inp : α) :
    (pureSample s ch inp).2
      = s.gOutputBuffer.data ch s.gOutputBufferReadPointer * s.gScaleFactor := rfl

theorem pureSample_inPtr (s : OverlapAddFftProcessor α) (ch : Nat) (inp : α) :
    (pureSample s ch inp).1.gInputBufferPointer = nextCursor s.gInputBufferPointer := by
  unfold pureSample; split <;> rfl

theorem pureSample_readPtr (s : OverlapAddFftProcessor α) (ch : Nat) (inp : α) :
    (pureSample s ch inp).1.gOutputBufferReadPointer
      = nextCursor s.gOutputBufferReadPointer := by
  unfold pureSample; split <;> rfl

theorem pureSample_hop (s : OverlapAddFftProcessor α) (ch : Nat) (inp : α) :
    (pureSample s ch inp).1.gHopCounter = if fires s then 0 else s.gHopCounter + 1 := by
  unfold pureSample fires
  by_cases h : (afterCursors s ch inp).gHopCounter ≥ (afterCursors s ch inp).hopSize
  · rw [if_pos h, if_pos (show s.gHopCounter + 1 ≥ s.hopSize from h)]; rfl
  · rw [if_neg h, if_neg (show ¬ s.gHopCounter + 1 ≥ s.hopSize from h)]; rfl

theorem pureSample_writePtr (s : OverlapAddFftProcessor α) (ch : Nat) (inp : α) :
    (pureSample s ch inp).1.gOutputBufferWritePointer
      = if fires s then (s.gOutputBufferWritePointer + s.hopSize) % gBufferSize
        else s.gOutputBufferWritePointer := by
  unfold pureSample fires
  by_cases h : (afterCursors s ch inp).gHopCounter ≥ (afterCursors s ch inp).hopSize
  · rw [if_pos h, if_pos (show s.gHopCounter + 1 ≥ s.hopSize from h)]; rfl
  · rw [if_neg h, if_neg (show ¬ s.gHopCounter + 1 ≥ s.hopSize from h)]; rfl

theorem pureSample_frameCycles (s : OverlapAddFftProcessor α) (ch : Nat) (inp : α) :
    (pureSample s ch inp).1.frameCycles
      = if fires s then s.frameCycles + 1 else s.frameCycles := by
  unfold pureSample fires
  by_cases h : (afterCursors s ch inp).gHopCounter ≥ (afterCursors s ch inp).hopSize
  · rw [if_pos h, if_pos (show s.gHopCounter + 1 ≥ s.hopSize from h)]; rfl
  · rw [if_neg h, if_neg (show ¬ s.gHopCounter + 1 ≥ s.hopSize from h)]; rfl

theorem pureSample_in_data (s : OverlapAddFftProcessor α) (ch : Nat) (inp : α) (c j : Nat) :
    (pureSample s ch inp).1.gInputBuffer.data c j
      = if c = ch ∧ j = s.gInputBufferPointer then inp else s.gInputBuffer.data c j := by
  unfold pureSample; split <;> rfl

theorem pureSample_out_data (s : OverlapAddFftProcessor α) (ch : Nat) (inp : α) (c j : Nat) :
    (pureSample s ch inp).1.gOutputBuffer.data c j
      = (if c = ch ∧ j = s.gOutputBufferReadPointer then 0 else s.gOutputBuffer.data c j)
        + (if fires s ∧ c = ch then
            ∑ n ∈ Finset.range s.fftSize,
              (if (s.gOutputBufferWritePointer + n + gBufferSize - s.fftSize) % gBufferSize = j
                then frameInput s ch inp n * s.window.getD n 0 * s.window.getD n 0 else 0)
          else 0) := by
  unfold pureSample fires
  by_cases h : (afterCursors s ch inp).gHopCounter ≥ (afterCursors s ch inp).hopSize
  · rw [if_pos h]
    have h2 : s.gHopCounter + 1 ≥ s.hopSize := h
    by_cases hc : c = ch
    · subst hc
      simp only [h2, and_self, if_true, true_and]
      simp only [pureFrameCycle, scatteredUpTo, afterCursors, extractedUpTo, if_true, true_and]
      congr 1
      apply Finset.sum_congr rfl
      intro n hn
      have hn2 : n < s.fftSize := Finset.mem_range.mp hn
      simp only [hn2, if_true, frameInput, nextCursor]
    · simp only [hc, and_false, false_and, if_false, add_zero]
      simp only [pureFrameCycle, scatteredUpTo, afterCursors, hc, if_false, false_and]
  · rw [if_neg h]
    have h2 : ¬ s.gHopCounter + 1 ≥ s.hopSize := h
    simp only [h2, false_and, if_false, add_zero]
    rfl

theorem wellFormed_prepare (s : OverlapAddFftProcessor α) (numIn numOut : Nat)
    (hF : s.fftSize ≤ gBufferSize) (hw : s.window.length = s.fftSize)
    (hp : s.gInputBufferPointer < gBufferSize) (hr : s.gOutputBufferReadPointer < gBufferSize) :
    WellFormed (s.prepare numIn numOut) :=
  ⟨hF, hw, rfl, rfl, rfl, rfl, le_max_left _ _, hp, hr⟩

theorem pureState_nil (s : OverlapAddFftProcessor α) : pureState s [] = s := rfl

theorem pureState_cons (s : OverlapAddFftProcessor α) (p : Nat × α) (l : List (Nat × α)) :
    pureState s (p :: l) = pureState (pureSample s p.1 p.2).1 l := rfl

theorem pureState_append (s : OverlapAddFftProcessor α) (l l' : List (Nat × α)) :
    pureState s (l ++ l') = pureState (pureState s l) l' := by
  simp [pureState, List.foldl_append]

theorem pureState_snoc (s : OverlapAddFftProcessor α) (l : List (Nat × α)) (p : Nat × α) :
    pureState s (l ++ [p]) = (pureSample (pureState s l) p.1 p.2).1 := by
  rw [pureState_append]; rfl

theorem pureOutputs_append (s : OverlapAddFftProcessor α) (l l' : List (Nat × α)) :
    pureOutputs s (l ++ l') = pureOutputs s l ++ pureOutputs (pureState s l) l' := by
  induction l generalizing s with
  | nil => rfl
  | cons p l ih => simp [pureOutputs, pureState_cons, ih]

theorem pureOutputs_length (s : OverlapAddFftProcessor α) (l : List (Nat × α)) :
    (pureOutputs s l).length = l.length := by
  induction l generalizing s with
  | nil => rfl
  | cons p l ih => simp [pureOutputs, ih]

theorem wellFormed_pureState (s : OverlapAddFftProcessor α) (l : List (Nat × α))
    (hs : WellFormed s) : WellFormed (pureState s l) := by
  induction l generalizing s with
  | nil => exact hs
  | cons p l ih => exact ih _ (wellFormed_pureSample s p.1 p.2 hs)

@[simp] theorem pureState_in_numChannels (s : OverlapAddFftProcessor α) (l : List (Nat × α)) :
    (pureState s l).gInputBuffer.numChannels = s.gInputBuffer.numChannels := by
  induction l generalizing s with
  | nil => rfl
  | cons p l ih => rw [pureState_cons, ih, pureSample_in_numChannels]

@[simp] theorem pureState_fftSize (s : OverlapAddFftProcessor α) (l : List (Nat × α)) :
    (pureState s l).fftSize = s.fftSize := by
  induction l generalizing s with
  | nil => rfl
  | cons p l ih => rw [pureState_cons, ih, pureSample_fftSize]

@[simp] theorem pureState_hopSize (s : OverlapAddFftProcessor α) (l : List (Nat × α)) :
    (pureState s l).hopSize = s.hopSize := by
  induction l generalizing s with
  | nil => rfl
  | cons p l ih => rw [pureState_cons, ih, pureSample_hopSize]

@[simp] theorem pureState_window (s : OverlapAddFftProcessor α) (l : List (Nat × α)) :
    (pureState s l).window = s.window := by
  induction l generalizing s with
  | nil => rfl
  | cons p l ih => rw [pureState_cons, ih, pureSample_window]

@[simp] theorem pureState_gScaleFactor (s : OverlapAddFftProcessor α) (l : List (Nat × α)) :
    (pureState s l).gScaleFactor = s.gScaleFactor := by
  induction l generalizing s with
  | nil => rfl
  | cons p l ih => rw [pureState_cons, ih, pureSample_gScaleFactor]

/-- The inner loop of `process` over the first `k` samples of channel `ch`. -/
theorem sampleLoop_eq (b o : AudioBuffer α) (m ch : Nat) (s : OverlapAddFftProcessor α)
    (hs : WellFormed s) (hch : ch < s.gInputBuffer.numChannels) (hb : ch < b.numChannels)
    (ho : ch < o.numChannels) (hN : b.numSamples ≤ o.numSamples)
    (k : Nat) (hk : k ≤ b.numSamples) :
    (List.range k).foldlM (sampleLoopBody b m ch) (s, o)
      = some (pureState s (channelIterations b ch k),
          { o with
            data := fun c i =>
              if c = ch ∧ i < k then (pureOutputs s (channelIterations b ch k)).getD i 0
              else o.data c i }) := by
  induction k with
  | zero => simp [channelIterations, pureState_nil]
  | succ k ih =>
    rw [List.range_succ, List.foldlM_append, ih (by omega)]
    have hget := AudioBuffer.getSample_natCast b ch k hb (by omega)
    have hproc := processSample_eq (pureState s (channelIterations b ch k)) m ch (b.data ch k)
      (wellFormed_pureState s _ hs) (by simpa using hch)
    have hset := fun v => AudioBuffer.setSample_natCast
      ({ o with
          data := fun c i =>
            if c = ch ∧ i < k then (pureOutputs s (channelIterations b ch k)).getD i 0
            else o.data c i } : AudioBuffer α) ch k v ho (by show k < o.numSamples; omega)
    simp only [List.foldlM_cons, List.foldlM_nil, Option.some_bind, Option.bind_eq_bind,
      sampleLoopBody, hget, hproc, hset, bind_pure]
    rw [channelIterations_succ, pureState_snoc, pureOutputs_append]
    congr 2
    simp only [AudioBuffer.mk.injEq, true_and]
    funext c i
    have hlen : (pureOutputs s (channelIterations b ch k)).length = k := by
      rw [pureOutputs_length, channelIterations_length]
    by_cases hc : c = ch
    · by_cases hi : i = k
      · subst hi
        simp only [hc, and_self, if_true, Nat.lt_succ_self]
        rw [List.getD_eq_getElem?_getD, List.getElem?_append_right (by omega)]
        simp [hlen, pureOutputs]
      · by_cases hik : i < k
        · have h1 : i < k + 1 := by omega
          simp only [hc, hi, hik, h1, and_false, and_self, if_true, if_false]
          rw [List.getD_append _ _ _ _ (by omega)]
        · have h1 : ¬ i < k + 1 := by omega
          simp only [hc, hi, hik, h1, and_false, if_false]
    · simp only [hc, false_and, if_false]

/-- The outer loop of `process` over the first `m` channels. -/
theorem channelLoop_eq (b o : AudioBuffer α) (s : OverlapAddFftProcessor α)
    (hs : WellFormed s) (hch : b.numChannels ≤ s.gInputBuffer.numChannels)
    (ho : b.numChannels ≤ o.numChannels) (hN : b.numSamples ≤ o.numSamples)
    (m : Nat) (hm : m ≤ b.numChannels) :
    (List.range m).foldlM (channelLoopBody b) (s, o)
      = some (pureState s (blockPrefix b m),
          outputsBlock o m b.numSamples (pureOutputs s (blockPrefix b m))) := by
  induction m with
  | zero => simp [blockPrefix, pureState_nil, outputsBlock]
  | succ m ih =>
    rw [List.range_succ, List.foldlM_append, ih (by omega)]
    have hloop := sampleLoop_eq b
      (outputsBlock o m b.numSamples (pureOutputs s (blockPrefix b m))) b.numChannels m
      (pureState s (blockPrefix b m)) (wellFormed_pureState s _ hs)
      (by simp only [pureState_in_numChannels]; omega) (by omega)
      (by show m < o.numChannels; omega) (by show b.numSamples ≤ o.numSamples; exact hN)
      b.numSamples le_rfl
    simp only [List.foldlM_cons, List.foldlM_nil, Option.some_bind, Option.bind_eq_bind,
      channelLoopBody, hloop, bind_pure]
    rw [blockPrefix_succ, pureState_append, pureOutputs_append]
    congr 2
    simp only [outputsBlock, AudioBuffer.mk.injEq, true_and]
    funext c i
    have hlen : (pureOutputs s (blockPrefix b m)).length = m * b.numSamples := by
      rw [pureOutputs_length, blockPrefix_length]
    by_cases hi : i < b.numSamples
    · by_cases hc : c = m
      · subst hc
        have h1 : c < c + 1 := by omega
        simp only [hi, h1, and_self, if_true]
        rw [List.getD_eq_getElem?_getD (pureOutputs s (blockPrefix b c) ++ _),
          List.getElem?_append_right (by omega), hlen, Nat.add_sub_cancel_left,
          List.getD_eq_getElem?_getD]
      · by_cases hcm : c < m
        · have h1 : c < m + 1 := by omega
          have h2 : c * b.numSamples + i < m * b.numSamples := by
            calc c * b.numSamples + i < c * b.numSamples + b.numSamples := by omega
              _ = (c + 1) * b.numSamples := by ring
              _ ≤ m * b.numSamples := Nat.mul_le_mul_right _ (by omega)
          simp only [hc, hi, hcm, h1, and_self, false_and, if_true, if_false]
          rw [List.getD_append _ _ _ _ (by omega)]
        · have h1 : ¬ c < m + 1 := by omega
          simp only [hc, hi, hcm, h1, false_and, if_false]
    · simp only [hi, and_false, if_false]

/-- A call of `process` that cannot fault is the sequence of its iterations. -/
theorem process_eq (s : OverlapAddFftProcessor α) (b o : AudioBuffer α)
    (hs : WellFormed s) (hch : b.numChannels ≤ s.gInputBuffer.numChannels)
    (ho : b.numChannels ≤ o.numChannels) (hN : b.numSamples ≤ o.numSamples) :
    s.process b o
      = some (pureState s (blockIterations b),
          outputsBlock o b.numChannels b.numSamples (pureOutputs s (blockIterations b))) :=
  channelLoop_eq b o s hs hch ho hN b.numChannels le_rfl

/-- A sequence of calls of `process` that cannot fault is the sequence of all its
iterations. -/
theorem runBlocks_eq (s : OverlapAddFftProcessor α) (bs : List (AudioBuffer α))
    (hs : WellFormed s) (hch : ∀ b ∈ bs, b.numChannels ≤ s.gInputBuffer.numChannels) :
    runBlocks s bs = some (pureState s (runIterations bs), pureBlocks s bs) := by
  induction bs generalizing s with
  | nil => rfl
  | cons b bs ih =>
    have hb := hch b (List.mem_cons_self _ _)
    have hrest := ih (pureState s (blockIterations b)) (wellFormed_pureState s _ hs)
      (fun b' hb' => by
        rw [pureState_in_numChannels]; exact hch b' (List.mem_cons_of_mem _ hb'))
    simp only [runBlocks, process_eq s b b hs hb le_rfl le_rfl, hrest, Option.some_bind,
      Option.bind_eq_bind, runIterations, List.flatMap_cons, pureState_append, pureBlocks]

theorem range_map_getD (l : List α) :
    (List.range l.length).map (fun i => l.getD i 0) = l := by
  apply List.ext_getElem
  · simp
  · intro n h1 h2
    simp [List.getD_eq_getElem?_getD, List.getElem?_eq_getElem h2]

/-- For single-channel blocks the output stream is the sequence of the values of
`out`. -/
theorem channelStream_pureBlocks_mono (s : OverlapAddFftProcessor α)
    (bs : List (AudioBuffer α)) (h : ∀ b ∈ bs, b.numChannels = 1) :
    channelStream (pureBlocks s bs) 0 = pureOutputs s (runIterations bs) := by
  induction bs generalizing s with
  | nil => rfl
  | cons b bs ih =>
    have hb := h b (List.mem_cons_self _ _)
    rw [runIterations_cons, pureOutputs_append, pureBlocks]
    simp only [channelStream, List.flatMap_cons]
    congr 1
    · have hlen : (pureOutputs s (blockIterations b)).length = b.numSamples := by
        rw [pureOutputs_length, blockIterations, blockPrefix_length, hb, one_mul]
      have hmap := range_map_getD (pureOutputs s (blockIterations b))
      rw [hlen] at hmap
      rw [← hmap]
      simp only [channelSamples, outputsBlock, hb]
      apply List.map_congr_left
      intro i hi
      have hi2 : i < b.numSamples := List.mem_range.mp hi
      simp [hi2, hmap]
    · exact ih _ (fun b' hb' => h b' (List.mem_cons_of_mem _ hb'))

theorem monoIterations_of_list (xs : List α) :
    monoIterations (fun i => xs.getD i 0) xs.length = xs.map (fun v => (0, v)) := by
  have := congrArg (List.map (fun v : α => ((0 : Nat), v))) (range_map_getD xs)
  simpa [monoIterations, List.map_map, Function.comp_def] using this

/-- The value of `out` of iteration `j` of a single-channel stream. -/
theorem pureOutputs_mono_getD (s : OverlapAddFftProcessor α) (x : Nat → α) (t j : Nat)
    (h : j < t) :
    (pureOutputs s (monoIterations x t)).getD j 0
      = (pureSample (pureState s (monoIterations x j)) 0 (x j)).2 := by
  rw [monoIterations_take x t j (by omega), pureOutputs_append]
  have hlen : (pureOutputs s (monoIterations x j)).length = j := by
    simp [pureOutputs_length, monoIterations]
  rw [List.getD_eq_getElem?_getD, List.getElem?_append_right (by omega), hlen, Nat.sub_self]
  obtain ⟨d, hd⟩ : ∃ d, t - j = d + 1 := ⟨t - j - 1, by omega⟩
  rw [hd, List.range_succ_eq_map]
  simp [pureOutputs]

theorem overlapWeight_succ (w : List α) (F H k u : Nat) :
    overlapWeight w F H (k + 1) u = overlapWeight w F H k u +
      (if (k + 1) * H + H ≤ u ∧ u < (k + 1) * H + H + F then
        w.getD (u - ((k + 1) * H + H)) 0 * w.getD (u - ((k + 1) * H + H)) 0
      else 0) := by
  simp [overlapWeight, Finset.sum_range_succ]

/-- No frame cycle fired so far reaches the position one buffer length ahead. -/
theorem overlapWeight_far (w : List α) (F H k u : Nat) (h : k * H + H + F ≤ u) :
    overlapWeight w F H k u = 0 := by
  apply Finset.sum_eq_zero
  intro j hj
  have hjk : j + 1 ≤ k := Finset.mem_range.mp hj
  have hmul : (j + 1) * H ≤ k * H := Nat.mul_le_mul_right H hjk
  rw [if_neg]
  omega

theorem frameInput_eq (s : OverlapAddFftProcessor α) (inp : α) (n : Nat) :
    frameInput s 0 inp n = (pureSample s 0 inp).1.gInputBuffer.data 0
      ((nextCursor s.gInputBufferPointer + n + gBufferSize - s.fftSize) % gBufferSize) := by
  rw [pureSample_in_data]
  simp [frameInput]

theorem monoInv_step (x : Nat → α) (t : Nat) (s : OverlapAddFftProcessor α)
    (hF : s.fftSize + s.hopSize ≤ gBufferSize) (h : MonoInv x t s) :
    MonoInv x (t + 1) (pureSample s 0 (x t)).1 := by
  obtain ⟨hin, hrd, hhop, htime, hW, hrec, hfresh, hout⟩ := h
  have hC : gBufferSize = 16384 := rfl
  have hp : s.gInputBufferPointer < gBufferSize := by rw [hin]; exact mod_gBufferSize_lt _
  have hr : s.gOutputBufferReadPointer < gBufferSize := by rw [hrd]; exact mod_gBufferSize_lt _
  have hrec' : ∀ i, i < t + 1 → t + 1 ≤ i + gBufferSize →
      (pureSample s 0 (x t)).1.gInputBuffer.data 0 (i % gBufferSize) = x i := by
    intro i hi1 hi2
    rw [pureSample_in_data]
    by_cases hit : i = t
    · subst hit; simp [hin]
    · have hne : ¬ (i % gBufferSize = s.gInputBufferPointer) := by
        rw [hin]; rw [hC] at hi2 ⊢; omega
      simp only [hne, and_false, if_false]
      exact hrec i (by omega) (by omega)
  have hfresh' : ∀ c, t + 1 ≤ c → c < gBufferSize →
      (pureSample s 0 (x t)).1.gInputBuffer.data 0 c = 0 := by
    intro c hc1 hc2
    rw [pureSample_in_data]
    have hne : ¬ (c = s.gInputBufferPointer) := by
      rw [hin]; rw [hC] at hc2 ⊢; omega
    simp only [hne, and_false, if_false]
    exact hfresh c (by omega) hc2
  have hzero : ∀ u, t + 1 ≤ u → u < t + 1 + gBufferSize →
      (if (0 : Nat) = 0 ∧ u % gBufferSize = s.gOutputBufferReadPointer then (0 : α)
        else s.gOutputBuffer.data 0 (u % gBufferSize))
      = delayed x (s.fftSize + s.hopSize) u
        * overlapWeight s.window s.fftSize s.hopSize s.frameCycles u := by
    intro u hu1 hu2
    by_cases hu : u = t + gBufferSize
    · have h1 : u % gBufferSize = s.gOutputBufferReadPointer := by
        rw [hrd, hu, hC]; omega
      rw [if_pos ⟨rfl, h1⟩, overlapWeight_far _ _ _ _ _ (by omega), mul_zero]
    · have h1 : ¬ (u % gBufferSize = s.gOutputBufferReadPointer) := by
        rw [hrd]; rw [hC] at hu hu2 ⊢; omega
      simp only [h1, and_false, if_false]
      exact hout u (by omega) (by omega)
  by_cases hfire : fires s
  · have hf : s.gHopCounter + 1 ≥ s.hopSize := hfire
    have hk : (s.frameCycles + 1) * s.hopSize = t + 1 := by
      rw [Nat.succ_mul]; omega
    refine ⟨?_, ?_, ?_, ?_, ?_, ?_, ?_, ?_⟩
    · rw [pureSample_inPtr, nextCursor_eq_mod _ hp, hin, hC]; omega
    · rw [pureSample_readPtr, nextCursor_eq_mod _ hr, hrd, hC]; omega
    · rw [pureSample_hop, if_pos hfire, pureSample_hopSize]; omega
    · rw [pureSample_hop, if_pos hfire, pureSample_frameCycles, if_pos hfire,
        pureSample_hopSize, hk]
    · rw [pureSample_writePtr, if_pos hfire, pureSample_frameCycles, if_pos hfire,
        pureSample_fftSize, pureSample_hopSize, hk]
      have hkk : s.frameCycles * s.hopSize + s.hopSize = t + 1 := by
        rw [← hk, Nat.succ_mul]
      rw [hC] at hW ⊢; omega
    · exact hrec'
    · exact hfresh'
    · intro u hu1 hu2
      rw [pureSample_out_data, hzero u hu1 hu2, pureSample_frameCycles, if_pos hfire,
        pureSample_fftSize, pureSample_hopSize, pureSample_window, overlapWeight_succ,
        if_pos ⟨hfire, rfl⟩, mul_add, hk]
      congr 1
      have hkk : s.frameCycles * s.hopSize + s.hopSize = t + 1 := by
        rw [← hk, Nat.succ_mul]
      have hidx : ∀ n, n < s.fftSize →
          (s.gOutputBufferWritePointer + n + gBufferSize - s.fftSize) % gBufferSize
            = (t + 1 + s.hopSize + n) % gBufferSize := by
        intro n hn
        rw [hC] at hW hF ⊢; omega
      by_cases hcond : t + 1 + s.hopSize ≤ u ∧ u < t + 1 + s.hopSize + s.fftSize
      · rw [if_pos hcond]
        have hn0 : u - (t + 1 + s.hopSize) < s.fftSize := by omega
        rw [Finset.sum_eq_single (u - (t + 1 + s.hopSize))]
        · have h1 : (s.gOutputBufferWritePointer + (u - (t + 1 + s.hopSize)) + gBufferSize
              - s.fftSize) % gBufferSize = u % gBufferSize := by
            rw [hidx _ hn0]; congr 1; omega
          rw [if_pos h1, frameInput_eq, mul_assoc]
          congr 1
          rw [nextCursor_eq_mod _ hp, hin]
          unfold delayed
          by_cases hd : s.fftSize + s.hopSize ≤ u
          · rw [if_pos hd]
            have := hrec' (u - (s.fftSize + s.hopSize)) (by omega) (by rw [hC] at hF ⊢; omega)
            rw [← this]
            congr 1
            rw [hC] at hF ⊢; omega
          · rw [if_neg hd]
            apply hfresh'
            · rw [hC] at hF hu2 ⊢; omega
            · exact mod_gBufferSize_lt _
        · intro n hn hne
          have hn2 : n < s.fftSize := Finset.mem_range.mp hn
          rw [if_neg]
          rw [hidx n hn2]
          rw [hC] at hF hu2 ⊢; omega
        · intro hnot
          exact absurd (Finset.mem_range.mpr hn0) hnot
      · rw [if_neg hcond, mul_zero]
        apply Finset.sum_eq_zero
        intro n hn
        have hn2 : n < s.fftSize := Finset.mem_range.mp hn
        rw [if_neg]
        rw [hidx n hn2]
        rw [hC] at hF hu2 ⊢; omega
  · have hf : ¬ s.gHopCounter + 1 ≥ s.hopSize := hfire
    refine ⟨?_, ?_, ?_, ?_, ?_, ?_, ?_, ?_⟩
    · rw [pureSample_inPtr, nextCursor_eq_mod _ hp, hin, hC]; omega
    · rw [pureSample_readPtr, nextCursor_eq_mod _ hr, hrd, hC]; omega
    · rw [pureSample_hop, if_neg hfire, pureSample_hopSize]; omega
    · rw [pureSample_hop, if_neg hfire, pureSample_frameCycles, if_neg hfire,
        pureSample_hopSize]; omega
    · rw [pureSample_writePtr, if_neg hfire, pureSample_frameCycles, if_neg hfire,
        pureSample_fftSize, pureSample_hopSize]; exact hW
    · exact hrec'
    · exact hfresh'
    · intro u hu1 hu2
      rw [pureSample_out_data, hzero u hu1 hu2, pureSample_frameCycles, if_neg hfire,
        pureSample_fftSize, pureSample_hopSize, pureSample_window]
      simp [hfire]

theorem wellFormed_fresh (F H : Nat) (g : α) (w : List α) (numIn numOut : Nat)
    (hF : F ≤ gBufferSize) (hw : w.length = F) :
    WellFormed (freshProcessor F H g w numIn numOut) :=
  wellFormed_prepare _ numIn numOut hF hw (show 0 < gBufferSize by decide)
    (show 0 < gBufferSize by decide)

@[simp] theorem freshProcessor_fftSize (F H : Nat) (g : α) (w : List α) (numIn numOut : Nat) :
    (freshProcessor F H g w numIn numOut).fftSize = F := rfl

@[simp] theorem freshProcessor_hopSize (F H : Nat) (g : α) (w : List α) (numIn numOut : Nat) :
    (freshProcessor F H g w numIn numOut).hopSize = H := rfl

@[simp] theorem freshProcessor_window (F H : Nat) (g : α) (w : List α) (numIn numOut : Nat) :
    (freshProcessor F H g w numIn numOut).window = w := rfl

@[simp] theorem freshProcessor_gScaleFactor (F H : Nat) (g : α) (w : List α)
    (numIn numOut : Nat) : (freshProcessor F H g w numIn numOut).gScaleFactor = g := rfl

@[simp] theorem freshProcessor_in_numChannels (F H : Nat) (g : α) (w : List α)
    (numIn numOut : Nat) :
    (freshProcessor F H g w numIn numOut).gInputBuffer.numChannels = numIn := rfl

theorem monoInv_fresh (x : Nat → α) (F H : Nat) (g : α) (w : List α) (numIn numOut : Nat)
    (hH : 0 < H) : MonoInv x 0 (freshProcessor F H g w numIn numOut) := by
  refine ⟨rfl, rfl, hH, ?_, ?_, ?_, ?_, ?_⟩
  · show 0 * H + 0 = 0
    simp
  · show (F + 2 * H) % gBufferSize = (F + 2 * H + 0 * H) % gBufferSize
    rw [Nat.zero_mul, Nat.add_zero]
  · intro i hi; omega
  · intro c _ _; rfl
  · intro u _ _
    show (0 : α) = delayed x (F + H) u * overlapWeight w F H 0 u
    simp [overlapWeight]

/-- The invariant of single-channel runs holds after every number of samples. -/
theorem monoInv_run (x : Nat → α) (F H : Nat) (g : α) (w : List α) (numIn numOut : Nat)
    (hH : 0 < H) (hF : F + H ≤ gBufferSize) (t : Nat) :
    MonoInv x t (pureState (freshProcessor F H g w numIn numOut) (monoIterations x t)) := by
  induction t with
  | zero => exact monoInv_fresh x F H g w numIn numOut hH
  | succ t ih =>
    rw [monoIterations_succ, pureState_snoc]
    apply monoInv_step x t _ _ ih
    simp only [pureState_fftSize, pureState_hopSize]
    exact hF

/-- Every frame cycle that can reach position `u` has fired once `u` samples are
in. -/
theorem overlapWeight_mono (w : List α) (F H k k' u : Nat) (hk : u < (k + 1) * H)
    (hkk : k ≤ k') : overlapWeight w F H k' u = overlapWeight w F H k u := by
  obtain ⟨d, rfl⟩ := Nat.exists_eq_add_of_le hkk
  induction d with
  | zero => rfl
  | succ d ih =>
    rw [← Nat.add_assoc, overlapWeight_succ, ih (by omega), if_neg, add_zero]
    have h1 : (k + 1) * H ≤ (k + d + 1) * H := Nat.mul_le_mul_right H (by omega)
    omega

/-- The output sample number `j` of a single-channel run from a fresh processor. -/
theorem mono_output (x : Nat → α) (F H : Nat) (g : α) (w : List α) (numIn numOut : Nat)
    (hH : 0 < H) (hF : F + H ≤ gBufferSize) (t j : Nat) (hj : j < t) :
    (pureOutputs (freshProcessor F H g w numIn numOut) (monoIterations x t)).getD j 0
      = delayed x (F + H) j * overlapWeight w F H (j / H) j * g := by
  rw [pureOutputs_mono_getD _ x t j hj, pureSample_out]
  have hinv := monoInv_run x F H g w numIn numOut hH hF j
  have hout := hinv.out j le_rfl (by simp [gBufferSize])
  have hrd := hinv.readPtr
  have htime := hinv.time
  have hhop := hinv.hop_lt
  simp only [pureState_fftSize, pureState_hopSize, pureState_window, pureState_gScaleFactor,
    freshProcessor_fftSize, freshProcessor_hopSize, freshProcessor_window,
    freshProcessor_gScaleFactor] at hout htime hhop ⊢
  rw [hrd, hout]
  have hdiv : j / H = (pureState (freshProcessor F H g w numIn numOut)
      (monoIterations x j)).frameCycles := by
    apply Nat.div_eq_of_lt_le
    · omega
    · rw [Nat.succ_mul]; omega
  rw [hdiv]

/-- At the position `i + F + H` the frame cycles fired so far have laid down exactly
the squared window coefficients whose index is congruent to `i` modulo the hop. -/
theorem overlapWeight_eq_filter (w : List α) (F H i : Nat) (hH : 0 < H) (hdvd : H ∣ F) :
    overlapWeight w F H ((i + F + H) / H) (i + F + H)
      = ∑ n ∈ (Finset.range F).filter (fun n => n % H = i % H), w.getD n 0 ^ 2 := by
  obtain ⟨q, hq⟩ := hdvd
  have hk1 : (i + F + H) / H * H ≤ i + F + H := Nat.div_mul_le_self _ _
  have hk2 : i + F + H < (i + F + H) / H * H + H := Nat.lt_div_mul_add hH
  unfold overlapWeight
  rw [← Finset.sum_filter]
  apply Finset.sum_bij (fun j _ => i + F - (j + 1) * H)
  · intro j hj
    simp only [Finset.mem_filter, Finset.mem_range] at hj ⊢
    obtain ⟨_, hj1, hj2⟩ := hj
    refine ⟨by omega, ?_⟩
    have h1 : i + F - (j + 1) * H + (j + 1) * H = i + H * q := by omega
    have h2 := congrArg (fun v => v % H) h1
    simp only [Nat.add_mul_mod_self_right, Nat.add_mul_mod_self_left] at h2
    exact h2
  · intro j1 hj1 j2 hj2 heq
    simp only [Finset.mem_filter, Finset.mem_range] at hj1 hj2
    have h3 : (j1 + 1) * H = (j2 + 1) * H := by omega
    have := Nat.eq_of_mul_eq_mul_right hH h3
    omega
  · intro n hn
    simp only [Finset.mem_filter, Finset.mem_range] at hn
    obtain ⟨hn1, hn2⟩ := hn
    have h1 : (i + F) % H = n % H := by
      rw [hq, Nat.add_mul_mod_self_left, hn2]
    have h2 : (i + F - n) % H = 0 := Nat.sub_mod_eq_zero_of_mod_eq h1
    obtain ⟨m, hm⟩ := Nat.dvd_of_mod_eq_zero h2
    have hm0 : m ≠ 0 := by
      intro h0; rw [h0, Nat.mul_zero] at hm; omega
    obtain ⟨j, rfl⟩ : ∃ j, m = j + 1 := ⟨m - 1, by omega⟩
    have hmul : (j + 1) * H = i + F - n := by rw [hm, Nat.mul_comm]
    refine ⟨j, ?_, by omega⟩
    simp only [Finset.mem_filter, Finset.mem_range]
    refine ⟨?_, by omega, by omega⟩
    have h4 : (j + 1) * H < (i + F + H) / H * H := by omega
    have := Nat.lt_of_mul_lt_mul_right h4
    omega
  · intro j hj
    simp only [Finset.mem_filter, Finset.mem_range] at hj
    have h5 : i + F + H - ((j + 1) * H + H) = i + F - (j + 1) * H := by omega
    rw [h5, pow_two]

theorem getElem?_eq_some_getD (l : List α) (j : Nat) (h : j < l.length) :
    l[j]? = some (l.getD j 0) := by
  rw [List.getD_eq_getElem?_getD, List.getElem?_eq_getElem h]; rfl

/-- A single-channel run from a fresh processor: it does not fault, and its output
stream is given by the delayed input and the window overlap. -/
theorem runBlocks_mono (F H : Nat) (g : α) (w : List α) (numIn numOut : Nat)
    (bs : List (AudioBuffer α)) (hH : 0 < H) (hF : F + H ≤ gBufferSize) (hw : w.length = F)
    (hnum : 1 ≤ numIn) (hmono : ∀ b ∈ bs, b.numChannels = 1) :
    runBlocks (freshProcessor F H g w numIn numOut) bs
        = some (pureState (freshProcessor F H g w numIn numOut) (runIterations bs),
            pureBlocks (freshProcessor F H g w numIn numOut) bs) ∧
      (channelStream (pureBlocks (freshProcessor F H g w numIn numOut) bs) 0).length
        = (channelStream bs 0).length ∧
      ∀ j, j < (channelStream bs 0).length →
        (channelStream (pureBlocks (freshProcessor F H g w numIn numOut) bs) 0)[j]?
          = some (delayed (fun i => (channelStream bs 0).getD i 0) (F + H) j
              * overlapWeight w F H (j / H) j * g) := by
  have hwf := wellFormed_fresh F H g w numIn numOut (by omega) hw
  have hrun := runBlocks_eq (freshProcessor F H g w numIn numOut) bs hwf (by
    intro b hb
    rw [hmono b hb, freshProcessor_in_numChannels]
    exact hnum)
  have hstream := channelStream_pureBlocks_mono (freshProcessor F H g w numIn numOut) bs hmono
  have hit : runIterations bs
      = monoIterations (fun i => (channelStream bs 0).getD i 0) (channelStream bs 0).length := by
    rw [runIterations_mono bs hmono, monoIterations_of_list]
  have hlen : (channelStream (pureBlocks (freshProcessor F H g w numIn numOut) bs) 0).length
      = (channelStream bs 0).length := by
    rw [hstream, pureOutputs_length, runIterations_mono bs hmono, List.length_map]
  refine ⟨hrun, hlen, ?_⟩
  intro j hj
  rw [getElem?_eq_some_getD _ _ (by omega), hstream, hit,
    mono_output _ F H g w numIn numOut hH hF _ j hj]

/-- For a single channel the cut of a block into two calls changes neither the final
state nor the output stream. -/
theorem runBlocks_split_mono (s : OverlapAddFftProcessor α) (b : AudioBuffer α) (k : Nat)
    (hs : WellFormed s) (hb : b.numChannels = 1) (hch : 1 ≤ s.gInputBuffer.numChannels)
    (hk : k ≤ b.numSamples) :
    ∃ s' whole parts,
      runBlocks s [b] = some (s', whole) ∧
      runBlocks s [b.takeSamples k, b.dropSamples k] = some (s', parts) ∧
      channelStream whole 0 = channelStream parts 0 := by
  have h1 : ∀ b' ∈ [b], b'.numChannels = 1 := by
    intro b' hb'
    rw [List.mem_singleton] at hb'
    rw [hb', hb]
  have h2 : ∀ b' ∈ [b.takeSamples k, b.dropSamples k], b'.numChannels = 1 := by
    intro b' hb'
    simp only [List.mem_cons, List.mem_singleton, List.not_mem_nil, or_false] at hb'
    rcases hb' with rfl | rfl <;> exact hb
  have hit : runIterations [b] = runIterations [b.takeSamples k, b.dropSamples k] := by
    rw [runIterations_mono _ h1, runIterations_mono _ h2]
    simp only [channelStream, List.flatMap_cons, List.flatMap_nil, List.append_nil]
    rw [channelSamples_split b 0 k hk]
  have hr1 := runBlocks_eq s [b] hs (fun b' hb' => by rw [h1 b' hb']; exact hch)
  have hr2 := runBlocks_eq s [b.takeSamples k, b.dropSamples k] hs
    (fun b' hb' => by rw [h2 b' hb']; exact hch)
  rw [← hit] at hr2
  refine ⟨_, _, _, hr1, hr2, ?_⟩
  rw [channelStream_pureBlocks_mono s _ h1, channelStream_pureBlocks_mono s _ h2, hit]

/-- One call with a block of one sample on each of two channels: the iteration of
channel 0 does not fire and reads silence, the iteration of channel 1 may fire but
writes nothing to channel 0. -/
theorem starved_step (s : OverlapAddFftProcessor α) (a c : α) (h : Starved s) :
    (pureSample s 0 a).2 = 0 ∧ Starved (pureState s [(0, a), (1, c)]) := by
  obtain ⟨hz, he, hl, hs⟩ := h
  have hnf : ¬ fires s := by
    unfold fires; omega
  refine ⟨?_, ?_⟩
  · rw [pureSample_out, hz, zero_mul]
  · have hz1 : ∀ j, (pureSample s 0 a).1.gOutputBuffer.data 0 j = 0 := by
      intro j
      rw [pureSample_out_data]
      simp [hnf, hz]
    have hh1 : (pureSample s 0 a).1.gHopCounter = s.gHopCounter + 1 := by
      rw [pureSample_hop, if_neg hnf]
    show Starved (pureSample (pureSample s 0 a).1 1 c).1
    refine ⟨?_, ?_, ?_, ?_⟩
    · intro j
      rw [pureSample_out_data]
      simp [hz1]
    · simp only [pureSample_hop, fires, pureSample_hopSize]
      split_ifs <;> omega
    · simp only [pureSample_hop, fires, pureSample_hopSize]
      split_ifs <;> omega
    · rw [pureSample_hopSize, pureSample_hopSize]; exact hs

/-- With two channels and one sample per channel and call, channel 0 of the output
is silent whatever the input is. -/
theorem starved_stream (s : OverlapAddFftProcessor α) (bs : List (AudioBuffer α))
    (h : Starved s) (hbs : ∀ b ∈ bs, b.numChannels = 2 ∧ b.numSamples = 1) :
    channelStream (pureBlocks s bs) 0 = List.replicate bs.length 0 := by
  induction bs generalizing s with
  | nil => rfl
  | cons b bs ih =>
    obtain ⟨hc, hn⟩ := hbs b (List.mem_cons_self _ _)
    have hstep := starved_step s (b.data 0 0) (b.data 1 0) h
    have hit := blockIterations_two_by_one b hc hn
    have h1 : List.range 1 = [0] := rfl
    simp only [pureBlocks, channelStream, List.flatMap_cons, List.length_cons,
      List.replicate_succ]
    rw [hit]
    have hrest := ih (pureState s [(0, b.data 0 0), (1, b.data 1 0)]) hstep.2
      (fun b' hb' => hbs b' (List.mem_cons_of_mem _ hb'))
    simp only [channelStream] at hrest
    rw [hrest]
    simp [channelSamples, outputsBlock, hc, hn, h1, pureOutputs, hstep.1]

theorem starved_fresh (F H : Nat) (g : α) (w : List α) (numIn numOut : Nat)
    (hH : 0 < H) (heven : H % 2 = 0) : Starved (freshProcessor F H g w numIn numOut) :=
  ⟨fun _ => rfl, rfl, hH, heven⟩

theorem silent_step (c : Nat) (s : OverlapAddFftProcessor α) (ch : Nat) (inp : α)
    (h : SilentChannel c s) (hinp : ch = c → inp = 0) :
    SilentChannel c (pureSample s ch inp).1 := by
  intro j
  constructor
  · rw [pureSample_in_data]
    split
    · rename_i hc; exact hinp hc.1.symm
    · exact (h j).1
  · rw [pureSample_out_data]
    have h1 : (if c = ch ∧ j = s.gOutputBufferReadPointer then (0 : α)
        else s.gOutputBuffer.data c j) = 0 := by
      split
      · rfl
      · exact (h j).2
    rw [h1, zero_add]
    split
    · rename_i hc
      apply Finset.sum_eq_zero
      intro n _
      have hf : frameInput s ch inp n = 0 := by
        unfold frameInput
        split
        · exact hinp hc.2.symm
        · rw [← hc.2]; exact (h _).1
      rw [hf]
      simp
    · rfl

theorem silent_out (c : Nat) (s : OverlapAddFftProcessor α) (inp : α)
    (h : SilentChannel c s) : (pureSample s c inp).2 = 0 := by
  rw [pureSample_out, (h _).2, zero_mul]

theorem silent_pureState (c : Nat) (s : OverlapAddFftProcessor α) (l : List (Nat × α))
    (h : SilentChannel c s) (hl : ∀ p ∈ l, p.1 = c → p.2 = 0) :
    SilentChannel c (pureState s l) := by
  induction l generalizing s with
  | nil => exact h
  | cons p l ih =>
    rw [pureState_cons]
    exact ih _ (silent_step c s p.1 p.2 h (hl p (List.mem_cons_self _ _)))
      (fun q hq => hl q (List.mem_cons_of_mem _ hq))

theorem silent_outputs (c : Nat) (s : OverlapAddFftProcessor α) (l : List (Nat × α))
    (h : SilentChannel c s) (hl : ∀ p ∈ l, p.1 = c ∧ p.2 = 0) :
    ∀ v ∈ pureOutputs s l, v = 0 := by
  induction l generalizing s with
  | nil => intro v hv; simp [pureOutputs] at hv
  | cons p l ih =>
    intro v hv
    have hp := hl p (List.mem_cons_self _ _)
    simp only [pureOutputs, List.mem_cons] at hv
    rcases hv with rfl | hv
    · rw [hp.1]; exact silent_out c s _ h
    · exact ih _ (silent_step c s p.1 p.2 h (fun _ => hp.2))
        (fun q hq => hl q (List.mem_cons_of_mem _ hq)) v hv

/-- The samples stored to channel `c` of the output block by one call are the values
of `out` of the iterations of the inner loop for that channel. -/
theorem channelSamples_outputsBlock (s : OverlapAddFftProcessor α) (b : AudioBuffer α)
    (c : Nat) (hc : c < b.numChannels) :
    channelSamples
        (outputsBlock b b.numChannels b.numSamples (pureOutputs s (blockIterations b))) c
      = pureOutputs (pureState s (blockPrefix b c)) (channelIterations b c b.numSamples) := by
  obtain ⟨d, hd⟩ := Nat.exists_eq_add_of_le (Nat.succ_le_of_lt hc)
  obtain ⟨rest, hrest⟩ := blockPrefix_le b (c + 1) d
  have hsplit : blockIterations b
      = blockPrefix b c ++ (channelIterations b c b.numSamples ++ rest) := by
    rw [blockIterations, hd, hrest, blockPrefix_succ, List.append_assoc]
  have hlen : (pureOutputs (pureState s (blockPrefix b c))
      (channelIterations b c b.numSamples)).length = b.numSamples := by
    rw [pureOutputs_length, channelIterations_length]
  have hmap := range_map_getD
    (pureOutputs (pureState s (blockPrefix b c)) (channelIterations b c b.numSamples))
  rw [hlen] at hmap
  rw [← hmap]
  simp only [channelSamples, outputsBlock]
  apply List.map_congr_left
  intro i hi
  have hi2 : i < b.numSamples := List.mem_range.mp hi
  simp only [hc, hi2, and_self, if_true]
  rw [hsplit, pureOutputs_append, pureOutputs_append]
  have hl1 : (pureOutputs s (blockPrefix b c)).length = c * b.numSamples := by
    rw [pureOutputs_length, blockPrefix_length]
  rw [List.getD_eq_getElem?_getD, List.getElem?_append_right (by omega), hl1,
    Nat.add_sub_cancel_left, List.getElem?_append_left (by omega),
    ← List.getD_eq_getElem?_getD]

/-- A channel whose input is zero in every block that carries it keeps empty buffers,
and its output is silent, whatever the other channels carry. -/
theorem silent_channel_run (c : Nat) (s : OverlapAddFftProcessor α)
    (bs : List (AudioBuffer α)) (h : SilentChannel c s)
    (hin : ∀ b ∈ bs, c < b.numChannels → ∀ i, i < b.numSamples → b.data c i = 0) :
    SilentChannel c (pureState s (runIterations bs)) ∧
      ((∀ b ∈ bs, c < b.numChannels) → ∀ v ∈ channelStream (pureBlocks s bs) c, v = 0) := by
  induction bs generalizing s with
  | nil =>
    refine ⟨h, ?_⟩
    intro _ v hv
    simp [channelStream, pureBlocks] at hv
  | cons b bs ih =>
    have hb := hin b (List.mem_cons_self _ _)
    have hzero : ∀ m, m ≤ b.numChannels → ∀ p ∈ blockPrefix b m, p.1 = c → p.2 = 0 := by
      intro m hm p hp hpc
      obtain ⟨i, hi, hlt, hval⟩ := mem_blockPrefix b m p hp
      rw [hval, hpc]
      exact hb (by omega) i hi
    have hstate := silent_pureState c s (blockIterations b) h (hzero _ le_rfl)
    obtain ⟨ih1, ih2⟩ := ih (pureState s (blockIterations b)) hstate
      (fun b' hb' => hin b' (List.mem_cons_of_mem _ hb'))
    rw [runIterations_cons, pureState_append]
    refine ⟨ih1, ?_⟩
    intro hall v hv
    have hc : c < b.numChannels := hall b (List.mem_cons_self _ _)
    simp only [pureBlocks, channelStream, List.flatMap_cons, List.mem_append] at hv
    rcases hv with hv | hv
    · rw [channelSamples_outputsBlock s b c hc] at hv
      refine silent_outputs c _ _ (silent_pureState c s _ h (hzero c (by omega))) ?_ v hv
      intro p hp
      simp only [channelIterations, List.mem_map, List.mem_range] at hp
      obtain ⟨i, hi, rfl⟩ := hp
      exact ⟨rfl, hb hc i hi⟩
    · exact ih2 (fun b' hb' => hall b' (List.mem_cons_of_mem _ hb')) v hv

theorem silent_fresh (c F H : Nat) (g : α) (w : List α) (numIn numOut : Nat) :
    SilentChannel c (freshProcessor F H g w numIn numOut) :=
  fun _ => ⟨rfl, rfl⟩

theorem construct_eq_some (p d : Int) (g : α) (w : List α) (proc : OverlapAddFftProcessor α)
    (h : OverlapAddFftProcessor.construct p d g w = some proc) :
    (constructorChecks p d = true ∧ p ≤ 30) ∧
      proc = OverlapAddFftProcessor.init (fftSizeOf p).toNat (hopSizeOf p d).toNat g w := by
  unfold OverlapAddFftProcessor.construct at h
  split at h
  · rename_i hc
    split at h
    · rename_i hp
      exact ⟨⟨hc, hp⟩, (Option.some.inj h).symm⟩
    · exact absurd h (by simp)
  · exact absurd h (by simp)

theorem foldlM_indexed {β γ : Type} (f : β → γ → Option β) (Q : Nat → β → Prop)
    (hf : ∀ n b a b', Q n b → f b a = some b' → Q (n + 1) b') (l : List γ) :
    ∀ n b b', Q n b → l.foldlM f b = some b' → Q (n + l.length) b' := by
  induction l with
  | nil =>
    intro n b b' hq h
    simp only [List.foldlM_nil, Option.pure_def, Option.some.injEq] at h
    subst h
    exact hq
  | cons a l ih =>
    intro n b b' hq h
    simp only [List.foldlM_cons, Option.bind_eq_bind, Option.bind_eq_some] at h
    obtain ⟨b1, h1, h2⟩ := h
    have := ih (n + 1) b1 b' (hf n b a b1 hq h1) h2
    rw [List.length_cons]
    rw [Nat.add_assoc, Nat.add_comm 1] at this
    exact this

/-- What a successful frame cycle does to the cursors and counters. -/
theorem frameCycle_cursors (s s' : OverlapAddFftProcessor α) (m ch : Nat)
    (h : frameCycle s m ch = some s') :
    s'.gInputBufferPointer = s.gInputBufferPointer ∧
    s'.gOutputBufferReadPointer = s.gOutputBufferReadPointer ∧
    s'.gHopCounter = 0 ∧
    s'.gOutputBufferWritePointer = (s.gOutputBufferWritePointer + s.hopSize) % gBufferSize ∧
    s'.frameCycles = s.frameCycles + 1 ∧
    s'.fftSize = s.fftSize ∧ s'.hopSize = s.hopSize := by
  simp only [frameCycle, Option.bind_eq_bind, Option.bind_eq_some, Option.some.injEq] at h
  obtain ⟨fftBuf, _, outBuf, _, rfl⟩ := h
  exact ⟨rfl, rfl, rfl, rfl, rfl, rfl, rfl⟩

/-- What a successful iteration does to the cursors and counters, whatever the sizes
and the contents of the buffers are. -/
theorem processSample_cursors (s : OverlapAddFftProcessor α) (m ch : Nat) (inp : α)
    (r : OverlapAddFftProcessor α × α) (h : processSample s m ch inp = some r) :
    r.1.gInputBufferPointer = nextCursor s.gInputBufferPointer ∧
    r.1.gOutputBufferReadPointer = nextCursor s.gOutputBufferReadPointer ∧
    r.1.gHopCounter = (if fires s then 0 else s.gHopCounter + 1) ∧
    r.1.gOutputBufferWritePointer
      = (if fires s then (s.gOutputBufferWritePointer + s.hopSize) % gBufferSize
          else s.gOutputBufferWritePointer) ∧
    r.1.frameCycles = (if fires s then s.frameCycles + 1 else s.frameCycles) ∧
    r.1.fftSize = s.fftSize ∧ r.1.hopSize = s.hopSize := by
  simp only [processSample, Option.bind_eq_bind, Option.bind_eq_some] at h
  obtain ⟨gIn, _, out, _, gOut, _, h4⟩ := h
  by_cases hf : fires s
  · have hf2 : s.gHopCounter + 1 ≥ s.hopSize := hf
    simp only [hf2, if_true, Option.bind_eq_some, Option.some.injEq] at h4
    obtain ⟨s2, hcyc, rfl⟩ := h4
    obtain ⟨h1, h2, h3, h5, h6, h7, h8⟩ := frameCycle_cursors _ _ _ _ hcyc
    simp only [if_pos hf]
    exact ⟨h1, h2, h3, h5, h6, h7, h8⟩
  · have hf2 : ¬ s.gHopCounter + 1 ≥ s.hopSize := hf
    simp only [hf2, if_false, Option.some.injEq] at h4
    subst h4
    simp [hf, nextCursor]

theorem clock_step (n : Nat) (s : OverlapAddFftProcessor α) (m ch : Nat) (inp : α)
    (r : OverlapAddFftProcessor α × α) (hc : Clock n s)
    (h : processSample s m ch inp = some r) : Clock (n + 1) r.1 := by
  obtain ⟨h1, h2, h3, h4, h5, h6, h7⟩ := processSample_cursors s m ch inp r h
  obtain ⟨hin, hrd, hhop, htime, hW⟩ := hc
  have hC : gBufferSize = 16384 := rfl
  have hp : s.gInputBufferPointer < gBufferSize := by rw [hin]; exact mod_gBufferSize_lt _
  have hr : s.gOutputBufferReadPointer < gBufferSize := by rw [hrd]; exact mod_gBufferSize_lt _
  by_cases hf : fires s
  · have hf2 : s.gHopCounter + 1 ≥ s.hopSize := hf
    rw [if_pos hf] at h3 h4 h5
    have hk : (s.frameCycles + 1) * s.hopSize = n + 1 := by
      rw [Nat.succ_mul]; omega
    refine ⟨?_, ?_, ?_, ?_, ?_⟩
    · rw [h1, nextCursor_eq_mod _ hp, hin, hC]; omega
    · rw [h2, nextCursor_eq_mod _ hr, hrd, hC]; omega
    · rw [h3, h7]; omega
    · rw [h3, h5, h7, hk]
    · rw [h4, h5, h6, h7, hk]
      have hkk : s.frameCycles * s.hopSize + s.hopSize = n + 1 := by
        rw [← hk, Nat.succ_mul]
      rw [hC] at hW ⊢; omega
  · have hf2 : ¬ s.gHopCounter + 1 ≥ s.hopSize := hf
    rw [if_neg hf] at h3 h4 h5
    refine ⟨?_, ?_, ?_, ?_, ?_⟩
    · rw [h1, nextCursor_eq_mod _ hp, hin, hC]; omega
    · rw [h2, nextCursor_eq_mod _ hr, hrd, hC]; omega
    · rw [h3, h7]; omega
    · rw [h3, h5, h7]; omega
    · rw [h4, h5, h6, h7]; exact hW

/-- An indexed property of the state that every successful iteration carries from
`n` to `n + 1` is carried by a successful call of `process` over all iterations of
the call. -/
theorem process_indexed (P : Nat → OverlapAddFftProcessor α → Prop)
    (hstep : ∀ n s m ch inp r, P n s → processSample s m ch inp = some r → P (n + 1) r.1)
    (n : Nat) (s : OverlapAddFftProcessor α) (b o : AudioBuffer α)
    (r : OverlapAddFftProcessor α × AudioBuffer α) (hP : P n s) (h : s.process b o = some r) :
    P (n + b.numChannels * b.numSamples) r.1 := by
  have hinner : ∀ ch k st st', P k st.1 → channelLoopBody b st ch = some st' →
      P (k + b.numSamples) st'.1 := by
    intro ch k st st' hk hloop
    have := foldlM_indexed (sampleLoopBody b b.numChannels ch)
      (fun k (st : OverlapAddFftProcessor α × AudioBuffer α) => P k st.1)
      (fun k st i st' hk hbody => by
        simp only [sampleLoopBody, Option.bind_eq_bind, Option.bind_eq_some,
          Option.some.injEq] at hbody
        obtain ⟨inp, _, r, hr, outB, _, rfl⟩ := hbody
        exact hstep k st.1 _ ch inp r hk hr)
      (List.range b.numSamples) k st st' hk hloop
    rw [List.length_range] at this
    exact this
  have houter := foldlM_indexed (channelLoopBody b)
    (fun j (st : OverlapAddFftProcessor α × AudioBuffer α) => P (n + j * b.numSamples) st.1)
    (fun j st ch st' hj hloop => by
      have := hinner ch _ st st' hj hloop
      show P (n + (j + 1) * b.numSamples) st'.1
      rw [Nat.succ_mul, ← Nat.add_assoc]
      exact this)
    (List.range b.numChannels) 0 (s, o) r (by simpa using hP) h
  rw [List.length_range, Nat.zero_add] at houter
  exact houter

theorem runBlocks_indexed (P : Nat → OverlapAddFftProcessor α → Prop)
    (hstep : ∀ n s m ch inp r, P n s → processSample s m ch inp = some r → P (n + 1) r.1)
    (bs : List (AudioBuffer α)) :
    ∀ (n : Nat) (s : OverlapAddFftProcessor α) (r : OverlapAddFftProcessor α × List (AudioBuffer α)),
      P n s → runBlocks s bs = some r → P (n + totalIterations bs) r.1 := by
  induction bs with
  | nil =>
    intro n s r hP h
    simp only [runBlocks, Option.some.injEq] at h
    subst h
    exact hP
  | cons b bs ih =>
    intro n s r hP h
    simp only [runBlocks, Option.bind_eq_bind, Option.bind_eq_some, Option.some.injEq] at h
    obtain ⟨r1, h1, rest, h2, rfl⟩ := h
    have := ih _ r1.1 rest (process_indexed P hstep n s b b r1 hP h1) h2
    simp only [totalIterations, List.map_cons, List.sum_cons] at this ⊢
    rw [← Nat.add_assoc]
    exact this

theorem clock_fresh (F H : Nat) (g : α) (w : List α) (numIn numOut : Nat) (hH : 0 < H) :
    Clock 0 (freshProcessor F H g w numIn numOut) := by
  refine ⟨rfl, rfl, hH, ?_, ?_⟩
  · show 0 * H + 0 = 0
    simp
  · show (F + 2 * H) % gBufferSize = (F + 2 * H + 0 * H) % gBufferSize
    rw [Nat.zero_mul, Nat.add_zero]

/-- A configuration that passes the constructor's checks, with an exponent of at most
30, has a hop of at least one sample. -/
theorem hopSize_pos_of_checks (p d : Int) (h : constructorChecks p d = true ∧ p ≤ 30) :
    0 < (hopSizeOf p d).toNat := by
  obtain ⟨hc, hp⟩ := h
  simp only [constructorChecks, Bool.and_eq_true, decide_eq_true_eq] at hc
  rw [hopSizeOf_eq p d hp hc.2, Int.toNat_ofNat]
  exact Nat.two_pow_pos _

theorem clockOf_step (F H n : Nat) (s : OverlapAddFftProcessor α) (m ch : Nat) (inp : α)
    (r : OverlapAddFftProcessor α × α) (hc : ClockOf F H n s)
    (h : processSample s m ch inp = some r) : ClockOf F H (n + 1) r.1 := by
  obtain ⟨_, _, _, _, _, h6, h7⟩ := processSample_cursors s m ch inp r h
  exact ⟨clock_step n s m ch inp r hc.1 h, h6.trans hc.2.1, h7.trans hc.2.2⟩

/-- The cursors of every state reached from a freshly prepared processor. -/
theorem clock_reachable (F H : Nat) (g : α) (w : List α) (numIn numOut : Nat) (hH : 0 < H)
    (bs : List (AudioBuffer α)) (r : OverlapAddFftProcessor α × List (AudioBuffer α))
    (h : runBlocks (freshProcessor F H g w numIn numOut) bs = some r) :
    ClockOf F H (totalIterations bs) r.1 := by
  have := runBlocks_indexed (ClockOf F H) (clockOf_step F H) bs 0 _ r
    ⟨clock_fresh F H g w numIn numOut hH, rfl, rfl⟩ h
  rw [Nat.zero_add] at this
  exact this

/-- The frame cycle of a well-formed state in terms of the previous output buffer:
cell by cell. -/
theorem pureFrameCycle_out_data (s : OverlapAddFftProcessor α) (ch c j : Nat) :
    (pureFrameCycle s ch).gOutputBuffer.data c j
      = s.gOutputBuffer.data c j
        + (if c = ch then
            ∑ n ∈ Finset.range s.fftSize,
              (if (s.gOutputBufferWritePointer + n + gBufferSize - s.fftSize) % gBufferSize = j
                then (pureFrameCycle s ch).fftInOutBuffer.data ch n * s.window.getD n 0 else 0)
          else 0) := by
  by_cases hc : c = ch
  · subst hc
    simp only [pureFrameCycle, scatteredUpTo, if_true]
  · simp only [pureFrameCycle, scatteredUpTo, hc, if_false, add_zero]

/-- The number of frame cycles fired by a run from a freshly prepared processor is the
number of iterations of the inner loop, over all channels, divided by the hop size. -/
theorem frameCycles_eq_div (F H : Nat) (g : α) (w : List α) (numIn numOut : Nat) (hH : 0 < H)
    (bs : List (AudioBuffer α)) (r : OverlapAddFftProcessor α × List (AudioBuffer α))
    (h : runBlocks (freshProcessor F H g w numIn numOut) bs = some r) :
    r.1.frameCycles = totalIterations bs / H := by
  obtain ⟨hc, _, hHs⟩ := clock_reachable F H g w numIn numOut hH bs r h
  have htime := hc.time
  have hhop := hc.hop_lt
  rw [hHs] at htime hhop
  symm
  apply Nat.div_eq_of_lt_le
  · omega
  · rw [Nat.succ_mul]; omega

/-- The sizes of a processor that the constructor returns. -/
theorem construct_sizes (p d : Int) (g : α) (w : List α) (proc : OverlapAddFftProcessor α)
    (h : OverlapAddFftProcessor.construct p d g w = some proc) :
    proc.fftSize = 2 ^ p.toNat ∧ proc.hopSize = 2 ^ (p.toNat - d.toNat) := by
  obtain ⟨⟨hc, hp⟩, hproc⟩ := construct_eq_some p d g w proc h
  simp only [constructorChecks, Bool.and_eq_true, decide_eq_true_eq] at hc
  have hF : (fftSizeOf p).toNat = 2 ^ p.toNat := by
    rw [fftSizeOf_eq p hp, Int.toNat_ofNat]
  have hH : (hopSizeOf p d).toNat = 2 ^ (p.toNat - d.toNat) := by
    rw [hopSizeOf_eq p d hp hc.2, Int.toNat_ofNat]
  rw [hF, hH] at hproc
  subst hproc
  exact ⟨rfl, rfl⟩

/-- The state after a successful call of `process` is reachable. -/
theorem reachable_process (s0 s : OverlapAddFftProcessor α) (b o : AudioBuffer α)
    (r : OverlapAddFftProcessor α × AudioBuffer α) (hs : Reachable s0 s)
    (h : s.process b o = some r) : Reachable s0 r.1 :=
  process_indexed (fun _ t => Reachable s0 t)
    (fun _ t m ch inp r' ht hr => Reachable.iteration t m ch inp r' ht hr) 0 s b o r hs h

/-- The state after a sequence of host calls is reachable. -/
theorem reachable_runCalls (s0 : OverlapAddFftProcessor α) (cs : List (Call α)) :
    ∀ s s', Reachable s0 s → runCalls s cs = some s' → Reachable s0 s' := by
  induction cs with
  | nil =>
    intro s s' hs h
    simp only [runCalls, Option.some.injEq] at h
    subst h
    exact hs
  | cons c cs ih =>
    intro s s' hs h
    cases c with
    | prepare numIn numOut =>
      exact ih _ s' (Reachable.prepare s numIn numOut hs) h
    | process b =>
      simp only [runCalls, Option.bind_eq_bind, Option.bind_eq_some] at h
      obtain ⟨r, hr, hrest⟩ := h
      exact ih _ s' (reachable_process s0 s b b r hs hr) hrest

/-- The hop counter stays below the hop size in every reachable state. -/
theorem reachable_hop (F H : Nat) (g : α) (w : List α) (hH : 0 < H)
    (s : OverlapAddFftProcessor α) (h : Reachable (OverlapAddFftProcessor.init F H g w) s) :
    s.hopSize = H ∧ s.gHopCounter < H := by
  induction h with
  | start => exact ⟨rfl, hH⟩
  | prepare s numIn numOut _ ih => exact ih
  | iteration s m ch inp r _ hr ih =>
    obtain ⟨_, _, h3, _, _, _, h7⟩ := processSample_cursors s m ch inp r hr
    refine ⟨h7.trans ih.1, ?_⟩
    rw [h3]
    unfold fires
    split <;> omega

/-- The frame cycle leaves the frame buffer and the output buffer of every other
channel as they are. -/
theorem pureFrameCycle_other_channel (s : OverlapAddFftProcessor α) (ch c : Nat) (hc : c ≠ ch)
    (j : Nat) :
    (pureFrameCycle s ch).fftInOutBuffer.data c j = s.fftInOutBuffer.data c j ∧
      (pureFrameCycle s ch).gOutputBuffer.data c j = s.gOutputBuffer.data c j := by
  simp [pureFrameCycle, extractedUpTo, scatteredUpTo, hc]

theorem inputInv_step (x : Nat → α) (t : Nat) (s : OverlapAddFftProcessor α)
    (h : InputInv x t s) : InputInv x (t + 1) (pureSample s 0 (x t)).1 := by
  obtain ⟨hin, hrec, hfresh⟩ := h
  have hC : gBufferSize = 16384 := rfl
  have hp : s.gInputBufferPointer < gBufferSize := by rw [hin]; exact mod_gBufferSize_lt _
  refine ⟨?_, ?_, ?_⟩
  · rw [pureSample_inPtr, nextCursor_eq_mod _ hp, hin, hC]; omega
  · intro i hi1 hi2
    rw [pureSample_in_data]
    by_cases hit : i = t
    · subst hit; simp [hin]
    · have hne : ¬ (i % gBufferSize = s.gInputBufferPointer) := by
        rw [hin]; rw [hC] at hi2 ⊢; omega
      simp only [hne, and_false, if_false]
      exact hrec i (by omega) (by omega)
  · intro c hc1 hc2
    rw [pureSample_in_data]
    have hne : ¬ (c = s.gInputBufferPointer) := by
      rw [hin]; rw [hC] at hc2 ⊢; omega
    simp only [hne, and_false, if_false]
    exact hfresh c (by omega) hc2

theorem inputInv_run (x : Nat → α) (F H : Nat) (g : α) (w : List α) (numIn numOut : Nat)
    (t : Nat) :
    InputInv x t (pureState (freshProcessor F H g w numIn numOut) (monoIterations x t)) := by
  induction t with
  | zero => exact ⟨rfl, fun i hi => by omega, fun c _ _ => rfl⟩
  | succ t ih =>
    rw [monoIterations_succ, pureState_snoc]
    exact inputInv_step x t _ ih

/-- The cursors of a single-channel run from a fresh processor that cannot fault. -/
theorem clock_mono (x : Nat → α) (F H : Nat) (g : α) (w : List α) (numIn numOut : Nat)
    (hH : 0 < H) (hF : F ≤ gBufferSize) (hw : w.length = F) (hnum : 1 ≤ numIn) (t : Nat) :
    Clock t (pureState (freshProcessor F H g w numIn numOut) (monoIterations x t)) := by
  induction t with
  | zero => exact clock_fresh F H g w numIn numOut hH
  | succ t ih =>
    rw [monoIterations_succ, pureState_snoc]
    have hwf := wellFormed_pureState _ (monoIterations x t)
      (wellFormed_fresh F H g w numIn numOut hF hw)
    exact clock_step t _ 0 0 (x t) _ ih
      (processSample_eq _ 0 0 (x t) hwf (by
        rw [pureState_in_numChannels, freshProcessor_in_numChannels]; omega))

/-- The frame buffer after an iteration: the windowed frame if a frame cycle fired for
the channel, else as before. -/
theorem pureSample_fft_data (s : OverlapAddFftProcessor α) (ch : Nat) (inp : α) (c n : Nat) :
    (pureSample s ch inp).1.fftInOutBuffer.data c n
      = if fires s ∧ c = ch ∧ n < s.fftSize then frameInput s ch inp n * s.window.getD n 0
        else s.fftInOutBuffer.data c n := by
  unfold pureSample fires
  by_cases h : (afterCursors s ch inp).gHopCounter ≥ (afterCursors s ch inp).hopSize
  · rw [if_pos h]
    have h2 : s.gHopCounter + 1 ≥ s.hopSize := h
    simp only [h2, true_and]
    simp only [pureFrameCycle, extractedUpTo, afterCursors, frameInput, nextCursor]
    by_cases hc : c = ch ∧ n < s.fftSize
    · obtain ⟨rfl, hn⟩ := hc
      simp only [hn, and_self, if_true, true_and]
    · simp only [hc, if_false]
  · rw [if_neg h]
    have h2 : ¬ s.gHopCounter + 1 ≥ s.hopSize := h
    simp only [h2, false_and, if_false]
    rfl

/-- The frame of the cycle that fires after `k * H` samples of a single-channel
stream: the last `F` input samples, windowed, zero where there is no input yet. -/
theorem mono_frame (x : Nat → α) (F H : Nat) (g : α) (w : List α) (numIn numOut : Nat)
    (hH : 0 < H) (hF : F ≤ gBufferSize) (hw : w.length = F) (hnum : 1 ≤ numIn)
    (k : Nat) (hk : 1 ≤ k) (n : Nat) (hn : n < F) :
    (pureState (freshProcessor F H g w numIn numOut)
        (monoIterations x (k * H))).fftInOutBuffer.data 0 n
      = delayed x F (k * H + n) * w.getD n 0 := by
  obtain ⟨t, ht⟩ : ∃ t, k * H = t + 1 := by
    have : 1 * H ≤ k * H := Nat.mul_le_mul_right H hk
    exact ⟨k * H - 1, by omega⟩
  have hclock := clock_mono x F H g w numIn numOut hH hF hw hnum t
  have hinv := inputInv_run x F H g w numIn numOut (t + 1)
  have htime := hclock.time
  have hhop := hclock.hop_lt
  simp only [pureState_hopSize, freshProcessor_hopSize] at htime hhop
  have hfire : fires (pureState (freshProcessor F H g w numIn numOut) (monoIterations x t)) := by
    unfold fires
    simp only [pureState_hopSize, freshProcessor_hopSize]
    by_contra hnot
    have hq : (pureState (freshProcessor F H g w numIn numOut) (monoIterations x t)).frameCycles
        * H < k * H := by omega
    have hq2 := Nat.lt_of_mul_lt_mul_right hq
    have hq3 : ((pureState (freshProcessor F H g w numIn numOut)
        (monoIterations x t)).frameCycles + 1) * H ≤ k * H :=
      Nat.mul_le_mul_right H hq2
    rw [Nat.succ_mul] at hq3
    omega
  have hC : gBufferSize = 16384 := rfl
  have hp : (pureState (freshProcessor F H g w numIn numOut)
      (monoIterations x t)).gInputBufferPointer < gBufferSize := by
    rw [hclock.inPtr]; exact mod_gBufferSize_lt _
  rw [ht]
  rw [monoIterations_succ, pureState_snoc] at hinv ⊢
  rw [pureSample_fft_data, if_pos ⟨hfire, rfl, by simpa using hn⟩, frameInput_eq]
  simp only [pureState_fftSize, pureState_window, freshProcessor_fftSize,
    freshProcessor_window]
  congr 1
  rw [nextCursor_eq_mod _ hp, hclock.inPtr]
  unfold delayed
  by_cases hd : F ≤ t + 1 + n
  · rw [if_pos hd]
    have := hinv.inRecent (t + 1 + n - F) (by omega) (by rw [hC] at hF ⊢; omega)
    rw [← this]
    congr 1
    rw [hC] at hF ⊢; omega
  · rw [if_neg hd]
    apply hinv.inFresh
    · rw [hC] at hF ⊢; omega
    · exact mod_gBufferSize_lt _

theorem quiet_step (t : Nat) (s : OverlapAddFftProcessor α) (inp : α) (h : Quiet t s)
    (ht : t + 1 < s.hopSize) (hC : t + 1 < gBufferSize) :
    Quiet (t + 1) (pureSample s 0 inp).1 := by
  obtain ⟨hhop, hrd, hwr, hz⟩ := h
  have hnf : ¬ fires s := by unfold fires; omega
  refine ⟨?_, ?_, ?_, ?_⟩
  · rw [pureSample_hop, if_neg hnf, hhop]
  · rw [pureSample_readPtr, nextCursor_eq_mod _ (by omega), hrd, Nat.mod_eq_of_lt hC]
  · rw [pureSample_writePtr, if_neg hnf, hwr, pureSample_fftSize, pureSample_hopSize]
  · intro j
    rw [pureSample_out_data]
    simp [hnf, hz]

theorem quiet_run (x : Nat → α) (F H : Nat) (g : α) (w : List α) (numIn numOut : Nat)
    (t : Nat) (ht : t < H) (hC : t < gBufferSize) :
    Quiet t (pureState (freshProcessor F H g w numIn numOut) (monoIterations x t)) := by
  induction t with
  | zero => exact ⟨rfl, rfl, rfl, fun _ => rfl⟩
  | succ t ih =>
    rw [monoIterations_succ, pureState_snoc]
    exact quiet_step t _ (x t) (ih (by omega) (by omega))
      (by simpa using ht) hC

/-- With `fftSize = gBufferSize` and `hopSize` half of it, the first frame is
scattered over the whole output buffer, the cell under the read cursor included: the
sample `x 0` comes out at index `hopSize`, after one hop. -/
theorem undersized_first_output (x : Nat → α) (F H : Nat) (g : α) (w : List α)
    (numIn numOut : Nat) (hF : F = gBufferSize) (hH : H + H = F) :
    (pureSample
        (pureState (freshProcessor F H g w numIn numOut) (monoIterations x H))
        0 (x H)).2
      = x 0 * w.getD H 0 * w.getD H 0 * g := by
  have hC : gBufferSize = 16384 := rfl
  obtain ⟨t, rfl⟩ : ∃ t, H = t + 1 := ⟨H - 1, by rw [hC] at hF; omega⟩
  have hq := quiet_run x F (t + 1) g w numIn numOut t (by omega) (by rw [hC] at hF ⊢; omega)
  have hin := inputInv_run x F (t + 1) g w numIn numOut t
  rw [monoIterations_succ, pureState_snoc, pureSample_out, pureSample_readPtr,
    pureSample_out_data, pureSample_gScaleFactor, pureState_gScaleFactor,
    freshProcessor_gScaleFactor]
  have hf : fires (pureState (freshProcessor F (t + 1) g w numIn numOut)
      (monoIterations x t)) := by
    unfold fires
    rw [hq.hop, pureState_hopSize, freshProcessor_hopSize]
  rw [hq.readPtr, hq.writePtr]
  simp only [hf, true_and, if_true, hq.out_zero, ite_self, zero_add, pureState_fftSize,
    pureState_hopSize, pureState_window, freshProcessor_fftSize, freshProcessor_hopSize,
    freshProcessor_window]
  have hcell : nextCursor t = t + 1 := by
    rw [nextCursor_eq_mod _ (by rw [hC] at hF ⊢; omega), hC]
    rw [hC] at hF; omega
  rw [hcell]
  have hcond : ∀ n ∈ Finset.range F,
      (if (F + 2 * (t + 1) + n + gBufferSize - F) % gBufferSize = t + 1 then
          frameInput (pureState (freshProcessor F (t + 1) g w numIn numOut)
            (monoIterations x t)) 0 (x t) n * w.getD n 0 * w.getD n 0
        else 0)
      = (if t + 1 = n then
          frameInput (pureState (freshProcessor F (t + 1) g w numIn numOut)
            (monoIterations x t)) 0 (x t) n * w.getD n 0 * w.getD n 0
        else 0) := by
    intro n hn
    have hn2 : n < F := Finset.mem_range.mp hn
    have : ((F + 2 * (t + 1) + n + gBufferSize - F) % gBufferSize = t + 1) ↔ (t + 1 = n) := by
      rw [hC] at hF ⊢; omega
    simp only [this]
  rw [Finset.sum_congr rfl hcond, Finset.sum_ite_eq, if_pos (Finset.mem_range.mpr (by omega))]
  congr 3
  unfold frameInput
  rw [hin.inPtr, pureState_fftSize, freshProcessor_fftSize]
  have hidx : (nextCursor (t % gBufferSize) + (t + 1) + gBufferSize - F) % gBufferSize
      = 0 := by
    have ht : t % gBufferSize = t := Nat.mod_eq_of_lt (by rw [hC] at hF ⊢; omega)
    rw [ht, hcell]
    rw [hC] at hF ⊢; omega
  rw [hidx, if_neg (by rw [hC] at hF ⊢; omega)]
  exact hin.inRecent 0 (by rw [hC] at hF; omega) (by rw [hC] at hF ⊢; omega)

theorem channelStream_monoBlock (xs : List α) : channelStream [monoBlock xs] 0 = xs := by
  simp only [channelStream, List.flatMap_cons, List.flatMap_nil, List.append_nil,
    channelSamples, monoBlock]
  exact range_map_getD xs

/-- An extraction loop that does not fault computes `extractedUpTo`, whatever the
sizes are. -/
theorem extractLoop_some (s : OverlapAddFftProcessor α) (ch : Nat) (k : Nat) :
    ∀ r, (List.range k).foldlM (extractStep s ch) s.fftInOutBuffer = some r →
      r = extractedUpTo s ch k := by
  induction k with
  | zero =>
    intro r h
    simp only [List.range_zero, List.foldlM_nil, Option.pure_def, Option.some.injEq] at h
    subst h
    simp [extractedUpTo]
  | succ k ih =>
    intro r h
    rw [List.range_succ, List.foldlM_append] at h
    simp only [List.foldlM_cons, List.foldlM_nil, Option.bind_eq_bind, Option.bind_eq_some,
      Option.pure_def, Option.some.injEq, extractStep] at h
    obtain ⟨r', hr', r'', ⟨v, hv, w, hw, hset⟩, rfl⟩ := h
    have := ih r' hr'
    subst this
    obtain ⟨hrange, rfl⟩ := AudioBuffer.getSample_eq_some _ _ _ _ hv
    obtain ⟨_, rfl⟩ := AudioBuffer.setSample_eq_some _ _ _ _ _ hset
    rw [circularBufferIndex_toNat _ _ _ hrange.2.1]
    have hkw : k < s.window.length := by
      by_contra hlt
      rw [List.getElem?_eq_none (by omega)] at hw
      exact absurd hw (by simp)
    rw [List.getElem?_eq_getElem hkw] at hw
    have hw2 : w = s.window.getD k 0 := by
      rw [← Option.some.inj hw]
      simp [List.getD, List.getElem?_eq_getElem hkw]
    subst hw2
    simp only [extractedUpTo, AudioBuffer.mk.injEq, true_and, Int.toNat_ofNat]
    funext c n
    by_cases hc : c = ch
    · by_cases hn : n = k
      · subst hn; simp [hc]
      · have : (n < k + 1) = (n < k) := by
          apply propext; omega
        simp [hc, hn, this]
    · simp [hc]

/-- A scatter loop that does not fault computes `scatteredUpTo`, whatever the sizes
are. -/
theorem scatterLoop_some (s : OverlapAddFftProcessor α) (ch : Nat) (k : Nat) :
    ∀ r, (List.range k).foldlM (scatterStep s ch) s.gOutputBuffer = some r →
      r = scatteredUpTo s ch k := by
  induction k with
  | zero =>
    intro r h
    simp only [List.range_zero, List.foldlM_nil, Option.pure_def, Option.some.injEq] at h
    subst h
    simp [scatteredUpTo]
  | succ k ih =>
    intro r h
    rw [List.range_succ, List.foldlM_append] at h
    simp only [List.foldlM_cons, List.foldlM_nil, Option.bind_eq_bind, Option.bind_eq_some,
      Option.pure_def, Option.some.injEq, scatterStep] at h
    obtain ⟨r', hr', r'', ⟨o, ho, f, hf, w, hw, hset⟩, rfl⟩ := h
    have := ih r' hr'
    subst this
    obtain ⟨hrange, rfl⟩ := AudioBuffer.getSample_eq_some _ _ _ _ ho
    obtain ⟨_, rfl⟩ := AudioBuffer.getSample_eq_some _ _ _ _ hf
    obtain ⟨_, rfl⟩ := AudioBuffer.setSample_eq_some _ _ _ _ _ hset
    rw [circularBufferIndex_toNat _ _ _ hrange.2.1]
    have hkw : k < s.window.length := by
      by_contra hlt
      rw [List.getElem?_eq_none (by omega)] at hw
      exact absurd hw (by simp)
    rw [List.getElem?_eq_getElem hkw] at hw
    have hw2 : w = s.window.getD k 0 := by
      rw [← Option.some.inj hw]
      simp [List.getD, List.getElem?_eq_getElem hkw]
    subst hw2
    simp only [scatteredUpTo, AudioBuffer.mk.injEq, true_and, Int.toNat_ofNat]
    funext c j
    by_cases hc : c = ch
    · subst hc
      rw [Finset.sum_range_succ]
      by_cases hj :
          j = (s.gOutputBufferWritePointer + k + gBufferSize - s.fftSize) % gBufferSize
      · subst hj
        simp only [and_self, if_true, add_assoc]
      · have hj2 :
            ¬ (s.gOutputBufferWritePointer + k + gBufferSize - s.fftSize) % gBufferSize = j :=
          fun h => hj h.symm
        simp [hj, hj2]
    · simp [hc]

/-- A frame cycle that does not fault is `pureFrameCycle`. -/
theorem frameCycle_some (s r : OverlapAddFftProcessor α) (m ch : Nat)
    (h : frameCycle s m ch = some r) : r = pureFrameCycle s ch := by
  simp only [frameCycle, extractFrame, scatterAdd, processFrameInBuffer, Option.bind_eq_bind,
    Option.bind_eq_some, Option.some.injEq] at h
  obtain ⟨fftBuf, hf, outBuf, ho, rfl⟩ := h
  have h1 := extractLoop_some
    { s with gHopCounter := 0, gCachedInputBufferPointer := s.gInputBufferPointer }
    ch s.fftSize fftBuf hf
  subst h1
  have h2 := scatterLoop_some
    { s with
      gHopCounter := 0
      gCachedInputBufferPointer := s.gInputBufferPointer
      fftInOutBuffer := extractedUpTo
        { s with gHopCounter := 0, gCachedInputBufferPointer := s.gInputBufferPointer }
        ch s.fftSize }
    ch s.fftSize outBuf ho
  subst h2
  rfl

/-- An iteration that does not fault is `pureSample`, whatever the sizes and the
cursors are. -/
theorem processSample_some (s : OverlapAddFftProcessor α) (m ch : Nat) (inp : α)
    (r : OverlapAddFftProcessor α × α) (h : processSample s m ch inp = some r) :
    r = pureSample s ch inp := by
  simp only [processSample, Option.bind_eq_bind, Option.bind_eq_some] at h
  obtain ⟨gIn, h1, out, h2, gOut, h3, h4⟩ := h
  obtain ⟨_, rfl⟩ := AudioBuffer.setSample_eq_some _ _ _ _ _ h1
  obtain ⟨_, rfl⟩ := AudioBuffer.getSample_eq_some _ _ _ _ h2
  obtain ⟨_, rfl⟩ := AudioBuffer.setSample_eq_some _ _ _ _ _ h3
  by_cases hfire : s.gHopCounter + 1 ≥ s.hopSize
  · have hfire2 : (afterCursors s ch inp).gHopCounter ≥ (afterCursors s ch inp).hopSize := hfire
    simp only [hfire, if_true, Option.bind_eq_some, Option.some.injEq] at h4
    obtain ⟨s2, hcyc, rfl⟩ := h4
    have := frameCycle_some _ _ _ _ hcyc
    subst this
    simp only [pureSample, if_pos hfire2, Int.toNat_ofNat]
    rfl
  · have hfire2 : ¬ (afterCursors s ch inp).gHopCounter ≥ (afterCursors s ch inp).hopSize :=
      hfire
    simp only [hfire, if_false, Option.some.injEq] at h4
    subst h4
    simp only [pureSample, if_neg hfire2, Int.toNat_ofNat]
    rfl

/-- One call of `process` on a block of one sample on each of two channels, in a
starved state: if it does not fault, channel 0 gets the output sample 0 and the state
is starved again. -/
theorem starved_process (s : OverlapAddFftProcessor α) (b : AudioBuffer α)
    (r : OverlapAddFftProcessor α × AudioBuffer α) (h : Starved s)
    (hc : b.numChannels = 2) (hn : b.numSamples = 1) (hrun : s.process b b = some r) :
    Starved r.1 ∧ channelSamples r.2 0 = [0] := by
  have h2 : List.range 2 = [0, 1] := rfl
  have h1 : List.range 1 = [0] := rfl
  simp only [OverlapAddFftProcessor.process, channelLoopBody, hc, hn, h1, h2,
    List.foldlM_cons, List.foldlM_nil, sampleLoopBody, Option.bind_eq_bind,
    Option.bind_eq_some, Option.pure_def, Option.some.injEq] at hrun
  obtain ⟨st1, ⟨st1', ⟨i0, hi0, r0, hr0, o1, ho1, rfl⟩, rfl⟩,
    st2, ⟨st2', ⟨i1, hi1, r1, hr1, o2, ho2, rfl⟩, rfl⟩, rfl⟩ := hrun
  have e0 := processSample_some _ _ _ _ _ hr0
  subst e0
  have e1 := processSample_some _ _ _ _ _ hr1
  subst e1
  obtain ⟨hout, hst⟩ := starved_step s i0 i1 h
  obtain ⟨_, rfl⟩ := AudioBuffer.setSample_eq_some _ _ _ _ _ ho1
  obtain ⟨_, rfl⟩ := AudioBuffer.setSample_eq_some _ _ _ _ _ ho2
  refine ⟨hst, ?_⟩
  simp [channelSamples, hn, h1, hout]

/-- Any run of calls with one sample on each of two channels that starts in a starved
state and does not fault. -/
theorem starved_run (s : OverlapAddFftProcessor α) (bs : List (AudioBuffer α))
    (r : OverlapAddFftProcessor α × List (AudioBuffer α)) (h : Starved s)
    (hbs : ∀ b ∈ bs, b.numChannels = 2 ∧ b.numSamples = 1) (hrun : runBlocks s bs = some r) :
    Starved r.1 ∧ channelStream r.2 0 = List.replicate bs.length 0 := by
  induction bs generalizing s r with
  | nil =>
    simp only [runBlocks, Option.some.injEq] at hrun
    subst hrun
    exact ⟨h, rfl⟩
  | cons b bs ih =>
    obtain ⟨hc, hn⟩ := hbs b (List.mem_cons_self _ _)
    simp only [runBlocks, Option.bind_eq_bind, Option.bind_eq_some, Option.some.injEq] at hrun
    obtain ⟨r1, hr1, rest, hrest, rfl⟩ := hrun
    obtain ⟨hst, hout⟩ := starved_process s b r1 h hc hn hr1
    obtain ⟨hst2, hout2⟩ := ih r1.1 rest hst
      (fun b' hb' => hbs b' (List.mem_cons_of_mem _ hb')) hrest
    refine ⟨hst2, ?_⟩
    simp only [channelStream, List.flatMap_cons, List.length_cons, List.replicate_succ] at hout2 ⊢
    rw [hout, hout2]; rfl

theorem optRel_bind {β γ β' γ' : Type} (R : β → γ → Prop) (S : β' → γ' → Prop)
    (x : Option β) (y : Option γ) (f : β → Option β') (k : γ → Option γ')
    (h : OptRel R x y) (hf : ∀ a b, R a b → OptRel S (f a) (k b)) :
    OptRel S (x.bind f) (y.bind k) := by
  cases x with
  | none =>
    cases y with
    | none => exact h
    | some b => exact h.elim
  | some a =>
    cases y with
    | none => exact h.elim
    | some b => exact hf a b h

theorem optRel_refl {β : Type} (x : Option β) : OptRel (fun a b => a = b) x x := by
  cases x with
  | none => exact True.intro
  | some a => exact rfl

theorem foldlM_rel {β γ δ : Type} (R : β → γ → Prop) (f : β → δ → Option β)
    (k : γ → δ → Option γ) (hf : ∀ a b x, R a b → OptRel R (f a x) (k b x)) (l : List δ) :
    ∀ a b, R a b → OptRel R (l.foldlM f a) (l.foldlM k b) := by
  induction l with
  | nil => intro a b h; exact h
  | cons x l ih =>
    intro a b h
    simp only [List.foldlM_cons, Option.bind_eq_bind]
    exact optRel_bind R R _ _ _ _ (hf a b x h) ih

theorem extractStep_rel (c : Nat) (s t : OverlapAddFftProcessor α) (h : Agree c s t)
    (ch : Nat) (f1 f2 : AudioBuffer α) (hf : f1.SameOn c f2) (n : Nat) :
    OptRel (AudioBuffer.SameOn c) (extractStep s ch f1 n) (extractStep t ch f2 n) := by
  unfold extractStep
  simp only [Option.bind_eq_bind]
  rw [h.cached, h.fftSize, h.window]
  refine optRel_bind _ _ _ _ _ _ (AudioBuffer.getSample_rel c _ _ h.inBuf ch _) ?_
  intro v1 v2 hv
  refine optRel_bind _ _ _ _ _ _ (optRel_refl _) ?_
  intro w1 w2 hw
  subst hw
  exact AudioBuffer.setSample_rel c _ _ hf ch _ _ _ (fun hc => by rw [hv hc])

theorem extractFrame_rel (c : Nat) (s t : OverlapAddFftProcessor α) (h : Agree c s t)
    (ch : Nat) :
    OptRel (AudioBuffer.SameOn c) (extractFrame s ch) (extractFrame t ch) := by
  unfold extractFrame
  rw [h.fftSize]
  exact foldlM_rel _ _ _ (fun f1 f2 n hf => extractStep_rel c s t h ch f1 f2 hf n) _ _ _
    h.fftBuf

theorem scatterStep_rel (c : Nat) (s t : OverlapAddFftProcessor α) (h : Agree c s t)
    (ch : Nat) (o1 o2 : AudioBuffer α) (ho : o1.SameOn c o2) (n : Nat) :
    OptRel (AudioBuffer.SameOn c) (scatterStep s ch o1 n) (scatterStep t ch o2 n) := by
  unfold scatterStep
  simp only [Option.bind_eq_bind]
  rw [h.writePtr, h.fftSize, h.window]
  refine optRel_bind _ _ _ _ _ _ (AudioBuffer.getSample_rel c _ _ ho ch _) ?_
  intro v1 v2 hv
  refine optRel_bind _ _ _ _ _ _ (AudioBuffer.getSample_rel c _ _ h.fftBuf ch _) ?_
  intro u1 u2 hu
  refine optRel_bind _ _ _ _ _ _ (optRel_refl _) ?_
  intro w1 w2 hw
  subst hw
  exact AudioBuffer.setSample_rel c _ _ ho ch _ _ _ (fun hc => by rw [hv hc, hu hc])

theorem scatterAdd_rel (c : Nat) (s t : OverlapAddFftProcessor α) (h : Agree c s t)
    (ch : Nat) :
    OptRel (AudioBuffer.SameOn c) (scatterAdd s ch) (scatterAdd t ch) := by
  unfold scatterAdd
  rw [h.fftSize]
  exact foldlM_rel _ _ _ (fun o1 o2 n ho => scatterStep_rel c s t h ch o1 o2 ho n) _ _ _
    h.outBuf

theorem frameCycle_rel (c : Nat) (s t : OverlapAddFftProcessor α) (h : Agree c s t)
    (m ch : Nat) : OptRel (Agree c) (frameCycle s m ch) (frameCycle t m ch) := by
  unfold frameCycle
  simp only [Option.bind_eq_bind]
  have h1 : Agree c
      { s with gHopCounter := 0, gCachedInputBufferPointer := s.gInputBufferPointer }
      { t with gHopCounter := 0, gCachedInputBufferPointer := t.gInputBufferPointer } :=
    ⟨h.fftSize, h.hopSize, h.gScaleFactor, h.window, h.inPtr, rfl, h.writePtr, h.readPtr,
      h.inPtr, h.cycles, h.inBuf, h.outBuf, h.fftBuf⟩
  refine optRel_bind _ _ _ _ _ _ (extractFrame_rel c _ _ h1 ch) ?_
  intro f1 f2 hf
  have h2 : Agree c
      { s with
        gHopCounter := 0
        gCachedInputBufferPointer := s.gInputBufferPointer
        fftInOutBuffer := processFrameInBuffer m f1 }
      { t with
        gHopCounter := 0
        gCachedInputBufferPointer := t.gInputBufferPointer
        fftInOutBuffer := processFrameInBuffer m f2 } :=
    ⟨h.fftSize, h.hopSize, h.gScaleFactor, h.window, h.inPtr, rfl, h.writePtr, h.readPtr,
      h.inPtr, h.cycles, h.inBuf, h.outBuf, hf⟩
  refine optRel_bind _ _ _ _ _ _ (scatterAdd_rel c _ _ h2 ch) ?_
  intro o1 o2 ho
  exact ⟨h.fftSize, h.hopSize, h.gScaleFactor, h.window, h.inPtr, rfl,
    by show (_ + _) % _ = (_ + _) % _; rw [h.writePtr, h.hopSize], h.readPtr, h.inPtr,
    by show _ + 1 = _ + 1; rw [h.cycles], h.inBuf, ho, hf⟩
theorem processSample_rel (c : Nat) (s t : OverlapAddFftProcessor α) (h : Agree c s t)
    (m ch : Nat) (x y : α) (hxy : ch = c → x = y) :
    OptRel (fun r1 r2 => Agree c r1.1 r2.1 ∧ (ch = c → r1.2 = r2.2))
      (processSample s m ch x) (processSample t m ch y) := by
  unfold processSample
  simp only [Option.bind_eq_bind]
  rw [h.inPtr, h.readPtr, h.hop]
  refine optRel_bind _ _ _ _ _ _
    (AudioBuffer.setSample_rel c _ _ h.inBuf ch _ x y hxy) ?_
  intro gIn1 gIn2 hIn
  refine optRel_bind _ _ _ _ _ _ (AudioBuffer.getSample_rel c _ _ h.outBuf ch _) ?_
  intro out1 out2 hout
  refine optRel_bind _ _ _ _ _ _
    (AudioBuffer.setSample_rel c _ _ h.outBuf ch _ 0 0 (fun _ => rfl)) ?_
  intro gOut1 gOut2 hOut
  have h1 : Agree c
      { s with
        gInputBuffer := gIn1
        gInputBufferPointer :=
          if t.gInputBufferPointer + 1 ≥ gBufferSize then 0 else t.gInputBufferPointer + 1
        gOutputBuffer := gOut1
        gOutputBufferReadPointer :=
          if t.gOutputBufferReadPointer + 1 ≥ gBufferSize then 0
          else t.gOutputBufferReadPointer + 1
        gHopCounter := t.gHopCounter + 1 }
      { t with
        gInputBuffer := gIn2
        gInputBufferPointer :=
          if t.gInputBufferPointer + 1 ≥ gBufferSize then 0 else t.gInputBufferPointer + 1
        gOutputBuffer := gOut2
        gOutputBufferReadPointer :=
          if t.gOutputBufferReadPointer + 1 ≥ gBufferSize then 0
          else t.gOutputBufferReadPointer + 1
        gHopCounter := t.gHopCounter + 1 } :=
    ⟨h.fftSize, h.hopSize, h.gScaleFactor, h.window, rfl, rfl, h.writePtr, rfl, h.cached,
      h.cycles, hIn, hOut, h.fftBuf⟩
  by_cases hf : t.gHopCounter + 1 ≥ t.hopSize
  · have hf2 : t.gHopCounter + 1 ≥ s.hopSize := by rw [h.hopSize]; exact hf
    simp only [hf, hf2, if_true]
    refine optRel_bind _ _ _ _ _ _ (frameCycle_rel c _ _ h1 m ch) ?_
    intro s2 t2 h2
    exact ⟨h2, fun hc => by rw [hout hc, h.gScaleFactor]⟩
  · have hf2 : ¬ t.gHopCounter + 1 ≥ s.hopSize := by rw [h.hopSize]; exact hf
    simp only [hf, hf2, if_false]
    exact ⟨h1, fun hc => by rw [hout hc, h.gScaleFactor]⟩

theorem sampleLoopBody_rel (c : Nat) (b1 b2 : AudioBuffer α) (hb : b1.SameOn c b2)
    (m ch : Nat) (st1 st2 : OverlapAddFftProcessor α × AudioBuffer α)
    (h : Agree c st1.1 st2.1 ∧ st1.2.SameOn c st2.2) (i : Nat) :
    OptRel (fun r1 r2 => Agree c r1.1 r2.1 ∧ r1.2.SameOn c r2.2)
      (sampleLoopBody b1 m ch st1 i) (sampleLoopBody b2 m ch st2 i) := by
  unfold sampleLoopBody
  simp only [Option.bind_eq_bind]
  refine optRel_bind _ _ _ _ _ _ (AudioBuffer.getSample_rel c _ _ hb ch _) ?_
  intro x y hxy
  refine optRel_bind _ _ _ _ _ _ (processSample_rel c _ _ h.1 m ch x y hxy) ?_
  intro r1 r2 hr
  refine optRel_bind _ _ _ _ _ _
    (AudioBuffer.setSample_rel c _ _ h.2 ch _ r1.2 r2.2 hr.2) ?_
  intro o1 o2 ho
  exact ⟨hr.1, ho⟩

theorem process_rel (c : Nat) (s t : OverlapAddFftProcessor α) (h : Agree c s t)
    (b1 b2 o1 o2 : AudioBuffer α) (hb : b1.SameOn c b2) (ho : o1.SameOn c o2) :
    OptRel (fun r1 r2 => Agree c r1.1 r2.1 ∧ r1.2.SameOn c r2.2)
      (s.process b1 o1) (t.process b2 o2) := by
  unfold OverlapAddFftProcessor.process
  rw [hb.1]
  refine foldlM_rel _ _ _ ?_ _ _ _ ⟨h, ho⟩
  intro st1 st2 ch hst
  unfold channelLoopBody
  rw [hb.1, hb.2.1]
  exact foldlM_rel _ _ _ (fun a1 a2 i ha => sampleLoopBody_rel c b1 b2 hb _ ch a1 a2 ha i)
    _ _ _ hst

theorem runBlocks_rel (c : Nat) (bs1 bs2 : List (AudioBuffer α))
    (hbs : List.Forall₂ (AudioBuffer.SameOn c) bs1 bs2) :
    ∀ s t : OverlapAddFftProcessor α, Agree c s t →
      OptRel (fun r1 r2 => Agree c r1.1 r2.1 ∧ List.Forall₂ (AudioBuffer.SameOn c) r1.2 r2.2)
        (runBlocks s bs1) (runBlocks t bs2) := by
  induction hbs with
  | nil =>
    intro s t h
    exact ⟨h, List.Forall₂.nil⟩
  | cons hb _ ih =>
    intro s t h
    simp only [runBlocks, Option.bind_eq_bind]
    refine optRel_bind _ _ _ _ _ _ (process_rel c s t h _ _ _ _ hb hb) ?_
    intro r1 r2 hr
    refine optRel_bind _ _ _ _ _ _ (ih r1.1 r2.1 hr.1) ?_
    intro q1 q2 hq
    exact ⟨hq.1, List.Forall₂.cons hr.2 hq.2⟩

/-- Two runs from the same state over blocks that agree on channel `c`: both fault,
or both return, with the same observations of channel `c`. -/
theorem observe_rel (c : Nat) (s : OverlapAddFftProcessor α) (bs1 bs2 : List (AudioBuffer α))
    (hbs : List.Forall₂ (AudioBuffer.SameOn c) bs1 bs2) :
    (runBlocks s bs1).map (observe c) = (runBlocks s bs2).map (observe c) := by
  have h := runBlocks_rel c bs1 bs2 hbs s s (agree_refl c s)
  cases h1 : runBlocks s bs1 with
  | none =>
    cases h2 : runBlocks s bs2 with
    | none => rfl
    | some r2 => rw [h1, h2] at h; exact h.elim
  | some r1 =>
    cases h2 : runBlocks s bs2 with
    | none => rw [h1, h2] at h; exact h.elim
    | some r2 =>
      rw [h1, h2] at h
      obtain ⟨ha, hs⟩ := h
      simp only [Option.map_some', observe, Option.some.injEq, Prod.mk.injEq]
      exact ⟨channelStream_sameOn c _ _ hs, ha.inPtr, ha.readPtr, ha.writePtr, ha.hop⟩

/-- The read step of an iteration started in a state that a freshly prepared
processor reaches without a second `prepare`: the value of `out`, the new read
cursor, and the cell under the read cursor, which no frame cycle of that iteration
writes to when `fftSize + 2 * hopSize < gBufferSize`. -/
theorem read_step_clock (n : Nat) (s : OverlapAddFftProcessor α) (m ch : Nat) (inp : α)
    (r : OverlapAddFftProcessor α × α) (hc : Clock n s)
    (hcap : s.fftSize + 2 * s.hopSize < gBufferSize)
    (hr : processSample s m ch inp = some r) :
    r.2 = s.gOutputBuffer.data ch s.gOutputBufferReadPointer * s.gScaleFactor ∧
    r.1.gOutputBufferReadPointer = (s.gOutputBufferReadPointer + 1) % gBufferSize ∧
    r.1.gOutputBuffer.data ch s.gOutputBufferReadPointer = 0 := by
  have e := processSample_some _ _ _ _ _ hr
  subst e
  obtain ⟨_, hrd, hhop, htime, hW⟩ := hc
  have hC : gBufferSize = 16384 := rfl
  have hlt : s.gOutputBufferReadPointer < gBufferSize := by
    rw [hrd]; exact mod_gBufferSize_lt _
  refine ⟨pureSample_out s ch inp, ?_, ?_⟩
  · rw [pureSample_readPtr, nextCursor_eq_mod _ hlt]
  · rw [pureSample_out_data]
    simp only [and_self, if_true, zero_add]
    by_cases hf : fires s
    · simp only [hf, true_and, if_true]
      apply Finset.sum_eq_zero
      intro k hk
      have hk2 : k < s.fftSize := Finset.mem_range.mp hk
      have hne : ¬ (s.gOutputBufferWritePointer + k + gBufferSize - s.fftSize) % gBufferSize
          = s.gOutputBufferReadPointer := by
        unfold fires at hf
        rw [hrd]
        rw [hC] at hW hcap ⊢
        omega
      rw [if_neg hne]
    · simp only [hf, false_and, if_false]

theorem reachableAfter_process (s0 s : OverlapAddFftProcessor α) (n : Nat)
    (b o : AudioBuffer α) (r : OverlapAddFftProcessor α × AudioBuffer α)
    (hs : ReachableAfter s0 n s) (h : s.process b o = some r) :
    ReachableAfter s0 (n + b.numChannels * b.numSamples) r.1 :=
  process_indexed (fun k t => ReachableAfter s0 k t)
    (fun k t m ch inp r' ht hr => ReachableAfter.iteration k t m ch inp r' ht hr) n s b o r hs h

/-- The state after a sequence of host calls is reachable, after as many iterations
as the calls of `process` execute. -/
theorem reachableAfter_runCalls (s0 : OverlapAddFftProcessor α) (cs : List (Call α)) :
    ∀ n s s', ReachableAfter s0 n s → runCalls s cs = some s' →
      ReachableAfter s0 (n + callIterations cs) s' := by
  induction cs with
  | nil =>
    intro n s s' hs h
    simp only [runCalls, Option.some.injEq] at h
    subst h
    exact hs
  | cons c cs ih =>
    intro n s s' hs h
    cases c with
    | prepare numIn numOut =>
      exact ih n _ s' (ReachableAfter.prepare n s numIn numOut hs) h
    | process b =>
      simp only [runCalls, Option.bind_eq_bind, Option.bind_eq_some] at h
      obtain ⟨r, hr, hrest⟩ := h
      have := ih _ _ s' (reachableAfter_process s0 s n b b r hs hr) hrest
      simp only [callIterations]
      rw [← Nat.add_assoc]
      exact this

/-- Both cursors count the iterations modulo the buffer size, across calls of
`prepare` as well. -/
theorem reachableAfter_cursors (F H : Nat) (g : α) (w : List α) (n : Nat)
    (s : OverlapAddFftProcessor α)
    (h : ReachableAfter (OverlapAddFftProcessor.init F H g w) n s) :
    s.gInputBufferPointer = n % gBufferSize ∧ s.gOutputBufferReadPointer = n % gBufferSize := by
  induction h with
  | start => exact ⟨rfl, rfl⟩
  | prepare n s numIn numOut _ ih => exact ih
  | iteration n s m ch inp r _ hr ih =>
    obtain ⟨h1, h2, _⟩ := processSample_cursors s m ch inp r hr
    have hC : gBufferSize = 16384 := rfl
    rw [h1, h2, ih.1, ih.2, nextCursor_eq_mod _ (mod_gBufferSize_lt _), hC]
    omega

theorem optRel3_bind {β γ δ β' γ' δ' : Type} (R : β → γ → δ → Prop) (S : β' → γ' → δ' → Prop)
    (x : Option β) (y : Option γ) (z : Option δ) (f : β → Option β') (k : γ → Option γ')
    (l : δ → Option δ') (h : OptRel3 R x y z)
    (hf : ∀ a b c, R a b c → OptRel3 S (f a) (k b) (l c)) :
    OptRel3 S (x.bind f) (y.bind k) (z.bind l) := by
  cases x <;> cases y <;> cases z <;> first | exact h.elim | exact hf _ _ _ h | exact h

theorem optRel3_refl {β : Type} (x : Option β) :
    OptRel3 (fun a b c => a = c ∧ b = c) x x x := by
  cases x with
  | none => exact True.intro
  | some a => exact ⟨rfl, rfl⟩

theorem foldlM_rel3 {β γ δ ε : Type} (R : β → γ → δ → Prop) (f : β → ε → Option β)
    (k : γ → ε → Option γ) (l : δ → ε → Option δ)
    (hf : ∀ a b c x, R a b c → OptRel3 R (f a x) (k b x) (l c x)) (xs : List ε) :
    ∀ a b c, R a b c → OptRel3 R (xs.foldlM f a) (xs.foldlM k b) (xs.foldlM l c) := by
  induction xs with
  | nil => intro a b c h; exact h
  | cons x xs ih =>
    intro a b c h
    simp only [List.foldlM_cons, Option.bind_eq_bind]
    exact optRel3_bind R R _ _ _ _ _ _ (hf a b c x h) ih

theorem AudioBuffer.getSample_combo (a b : α) (x y z : AudioBuffer α)
    (h : AudioBuffer.Combo a b x y z) (ch : Nat) (i : Int) :
    OptRel3 (fun u v w => w = a * u + b * v)
      (x.getSample ch i) (y.getSample ch i) (z.getSample ch i) := by
  obtain ⟨h1, h2, h3, h4, h5⟩ := h
  have hx : x.inRange ch i ↔ z.inRange ch i := by
    unfold AudioBuffer.inRange; rw [h1, h2]
  have hy : y.inRange ch i ↔ z.inRange ch i := by
    unfold AudioBuffer.inRange; rw [h3, h4]
  unfold AudioBuffer.getSample
  by_cases hr : z.inRange ch i
  · rw [if_pos hr, if_pos (hx.mpr hr), if_pos (hy.mpr hr)]
    exact h5 _ _
  · rw [if_neg hr, if_neg (fun hb => hr (hx.mp hb)), if_neg (fun hb => hr (hy.mp hb))]
    exact True.intro

theorem AudioBuffer.setSample_combo (a b : α) (x y z : AudioBuffer α)
    (h : AudioBuffer.Combo a b x y z) (ch : Nat) (i : Int) (u v w : α)
    (hv : w = a * u + b * v) :
    OptRel3 (AudioBuffer.Combo a b)
      (x.setSample ch i u) (y.setSample ch i v) (z.setSample ch i w) := by
  obtain ⟨h1, h2, h3, h4, h5⟩ := h
  have hx : x.inRange ch i ↔ z.inRange ch i := by
    unfold AudioBuffer.inRange; rw [h1, h2]
  have hy : y.inRange ch i ↔ z.inRange ch i := by
    unfold AudioBuffer.inRange; rw [h3, h4]
  unfold AudioBuffer.setSample
  by_cases hr : z.inRange ch i
  · rw [if_pos hr, if_pos (hx.mpr hr), if_pos (hy.mpr hr)]
    refine ⟨h1, h2, h3, h4, ?_⟩
    intro c j
    show (if c = ch ∧ j = i.toNat then w else z.data c j)
      = a * (if c = ch ∧ j = i.toNat then u else x.data c j)
        + b * (if c = ch ∧ j = i.toNat then v else y.data c j)
    by_cases hc : c = ch ∧ j = i.toNat
    · rw [if_pos hc, if_pos hc, if_pos hc]; exact hv
    · rw [if_neg hc, if_neg hc, if_neg hc]; exact h5 c j
  · rw [if_neg hr, if_neg (fun hb => hr (hx.mp hb)), if_neg (fun hb => hr (hy.mp hb))]
    exact True.intro

theorem extractStep_combo (a b : α) (s1 s2 s3 : OverlapAddFftProcessor α)
    (h : Combined a b s1 s2 s3) (ch : Nat) (f1 f2 f3 : AudioBuffer α)
    (hf : AudioBuffer.Combo a b f1 f2 f3) (n : Nat) :
    OptRel3 (AudioBuffer.Combo a b)
      (extractStep s1 ch f1 n) (extractStep s2 ch f2 n) (extractStep s3 ch f3 n) := by
  unfold extractStep
  simp only [Option.bind_eq_bind]
  rw [h.left.cached, h.left.fftSize, h.left.window, h.right.cached, h.right.fftSize,
    h.right.window]
  refine optRel3_bind _ _ _ _ _ _ _ _ (AudioBuffer.getSample_combo a b _ _ _ h.inBuf ch _) ?_
  intro v1 v2 v3 hv
  refine optRel3_bind _ _ _ _ _ _ _ _ (optRel3_refl _) ?_
  intro w1 w2 w3 hw
  obtain ⟨rfl, rfl⟩ := hw
  exact AudioBuffer.setSample_combo a b _ _ _ hf ch _ _ _ _ (by rw [hv]; ring)

theorem extractFrame_combo (a b : α) (s1 s2 s3 : OverlapAddFftProcessor α)
    (h : Combined a b s1 s2 s3) (ch : Nat) :
    OptRel3 (AudioBuffer.Combo a b)
      (extractFrame s1 ch) (extractFrame s2 ch) (extractFrame s3 ch) := by
  unfold extractFrame
  rw [h.left.fftSize, h.right.fftSize]
  exact foldlM_rel3 _ _ _ _
    (fun f1 f2 f3 n hf => extractStep_combo a b s1 s2 s3 h ch f1 f2 f3 hf n) _ _ _ _ h.fftBuf

theorem scatterStep_combo (a b : α) (s1 s2 s3 : OverlapAddFftProcessor α)
    (h : Combined a b s1 s2 s3) (ch : Nat) (o1 o2 o3 : AudioBuffer α)
    (ho : AudioBuffer.Combo a b o1 o2 o3) (n : Nat) :
    OptRel3 (AudioBuffer.Combo a b)
      (scatterStep s1 ch o1 n) (scatterStep s2 ch o2 n) (scatterStep s3 ch o3 n) := by
  unfold scatterStep
  simp only [Option.bind_eq_bind]
  rw [h.left.writePtr, h.left.fftSize, h.left.window, h.right.writePtr, h.right.fftSize,
    h.right.window]
  refine optRel3_bind _ _ _ _ _ _ _ _ (AudioBuffer.getSample_combo a b _ _ _ ho ch _) ?_
  intro v1 v2 v3 hv
  refine optRel3_bind _ _ _ _ _ _ _ _ (AudioBuffer.getSample_combo a b _ _ _ h.fftBuf ch _) ?_
  intro u1 u2 u3 hu
  refine optRel3_bind _ _ _ _ _ _ _ _ (optRel3_refl _) ?_
  intro w1 w2 w3 hw
  obtain ⟨rfl, rfl⟩ := hw
  exact AudioBuffer.setSample_combo a b _ _ _ ho ch _ _ _ _ (by rw [hv, hu]; ring)

theorem scatterAdd_combo (a b : α) (s1 s2 s3 : OverlapAddFftProcessor α)
    (h : Combined a b s1 s2 s3) (ch : Nat) :
    OptRel3 (AudioBuffer.Combo a b)
      (scatterAdd s1 ch) (scatterAdd s2 ch) (scatterAdd s3 ch) := by
  unfold scatterAdd
  rw [h.left.fftSize, h.right.fftSize]
  exact foldlM_rel3 _ _ _ _
    (fun o1 o2 o3 n ho => scatterStep_combo a b s1 s2 s3 h ch o1 o2 o3 ho n) _ _ _ _ h.outBuf
theorem frameCycle_combo (a b : α) (s1 s2 s3 : OverlapAddFftProcessor α)
    (h : Combined a b s1 s2 s3) (m ch : Nat) :
    OptRel3 (Combined a b) (frameCycle s1 m ch) (frameCycle s2 m ch) (frameCycle s3 m ch) := by
  unfold frameCycle
  simp only [Option.bind_eq_bind]
  have h1 : Combined a b
      { s1 with gHopCounter := 0, gCachedInputBufferPointer := s1.gInputBufferPointer }
      { s2 with gHopCounter := 0, gCachedInputBufferPointer := s2.gInputBufferPointer }
      { s3 with gHopCounter := 0, gCachedInputBufferPointer := s3.gInputBufferPointer } :=
    ⟨⟨h.left.fftSize, h.left.hopSize, h.left.gScaleFactor, h.left.window, h.left.inPtr, rfl,
        h.left.writePtr, h.left.readPtr, h.left.inPtr, h.left.cycles⟩,
      ⟨h.right.fftSize, h.right.hopSize, h.right.gScaleFactor, h.right.window, h.right.inPtr,
        rfl, h.right.writePtr, h.right.readPtr, h.right.inPtr, h.right.cycles⟩,
      h.inBuf, h.outBuf, h.fftBuf⟩
  refine optRel3_bind _ _ _ _ _ _ _ _ (extractFrame_combo a b _ _ _ h1 ch) ?_
  intro f1 f2 f3 hf
  have h2 : Combined a b
      { s1 with
        gHopCounter := 0
        gCachedInputBufferPointer := s1.gInputBufferPointer
        fftInOutBuffer := processFrameInBuffer m f1 }
      { s2 with
        gHopCounter := 0
        gCachedInputBufferPointer := s2.gInputBufferPointer
        fftInOutBuffer := processFrameInBuffer m f2 }
      { s3 with
        gHopCounter := 0
        gCachedInputBufferPointer := s3.gInputBufferPointer
        fftInOutBuffer := processFrameInBuffer m f3 } :=
    ⟨⟨h.left.fftSize, h.left.hopSize, h.left.gScaleFactor, h.left.window, h.left.inPtr, rfl,
        h.left.writePtr, h.left.readPtr, h.left.inPtr, h.left.cycles⟩,
      ⟨h.right.fftSize, h.right.hopSize, h.right.gScaleFactor, h.right.window, h.right.inPtr,
        rfl, h.right.writePtr, h.right.readPtr, h.right.inPtr, h.right.cycles⟩,
      h.inBuf, h.outBuf, hf⟩
  refine optRel3_bind _ _ _ _ _ _ _ _ (scatterAdd_combo a b _ _ _ h2 ch) ?_
  intro o1 o2 o3 ho
  exact ⟨⟨h.left.fftSize, h.left.hopSize, h.left.gScaleFactor, h.left.window, h.left.inPtr,
      rfl, by show (_ + _) % _ = (_ + _) % _; rw [h.left.writePtr, h.left.hopSize],
      h.left.readPtr, h.left.inPtr, by show _ + 1 = _ + 1; rw [h.left.cycles]⟩,
    ⟨h.right.fftSize, h.right.hopSize, h.right.gScaleFactor, h.right.window, h.right.inPtr,
      rfl, by show (_ + _) % _ = (_ + _) % _; rw [h.right.writePtr, h.right.hopSize],
      h.right.readPtr, h.right.inPtr, by show _ + 1 = _ + 1; rw [h.right.cycles]⟩,
    h.inBuf, ho, hf⟩

theorem processSample_combo (a b : α) (s1 s2 s3 : OverlapAddFftProcessor α)
    (h : Combined a b s1 s2 s3) (m ch : Nat) (x y z : α) (hz : z = a * x + b * y) :
    OptRel3 (fun r1 r2 r3 => Combined a b r1.1 r2.1 r3.1 ∧ r3.2 = a * r1.2 + b * r2.2)
      (processSample s1 m ch x) (processSample s2 m ch y) (processSample s3 m ch z) := by
  unfold processSample
  simp only [Option.bind_eq_bind]
  rw [h.left.inPtr, h.left.readPtr, h.left.hop, h.right.inPtr, h.right.readPtr, h.right.hop]
  refine optRel3_bind _ _ _ _ _ _ _ _
    (AudioBuffer.setSample_combo a b _ _ _ h.inBuf ch _ x y z hz) ?_
  intro gIn1 gIn2 gIn3 hIn
  refine optRel3_bind _ _ _ _ _ _ _ _ (AudioBuffer.getSample_combo a b _ _ _ h.outBuf ch _) ?_
  intro out1 out2 out3 hout
  refine optRel3_bind _ _ _ _ _ _ _ _
    (AudioBuffer.setSample_combo a b _ _ _ h.outBuf ch _ 0 0 0 (by ring)) ?_
  intro gOut1 gOut2 gOut3 hOut
  have h1 : Combined a b
      { s1 with
        gInputBuffer := gIn1
        gInputBufferPointer :=
          if s3.gInputBufferPointer + 1 ≥ gBufferSize then 0 else s3.gInputBufferPointer + 1
        gOutputBuffer := gOut1
        gOutputBufferReadPointer :=
          if s3.gOutputBufferReadPointer + 1 ≥ gBufferSize then 0
          else s3.gOutputBufferReadPointer + 1
        gHopCounter := s3.gHopCounter + 1 }
      { s2 with
        gInputBuffer := gIn2
        gInputBufferPointer :=
          if s3.gInputBufferPointer + 1 ≥ gBufferSize then 0 else s3.gInputBufferPointer + 1
        gOutputBuffer := gOut2
        gOutputBufferReadPointer :=
          if s3.gOutputBufferReadPointer + 1 ≥ gBufferSize then 0
          else s3.gOutputBufferReadPointer + 1
        gHopCounter := s3.gHopCounter + 1 }
      { s3 with
        gInputBuffer := gIn3
        gInputBufferPointer :=
          if s3.gInputBufferPointer + 1 ≥ gBufferSize then 0 else s3.gInputBufferPointer + 1
        gOutputBuffer := gOut3
        gOutputBufferReadPointer :=
          if s3.gOutputBufferReadPointer + 1 ≥ gBufferSize then 0
          else s3.gOutputBufferReadPointer + 1
        gHopCounter := s3.gHopCounter + 1 } :=
    ⟨⟨h.left.fftSize, h.left.hopSize, h.left.gScaleFactor, h.left.window, rfl, rfl,
        h.left.writePtr, rfl, h.left.cached, h.left.cycles⟩,
      ⟨h.right.fftSize, h.right.hopSize, h.right.gScaleFactor, h.right.window, rfl, rfl,
        h.right.writePtr, rfl, h.right.cached, h.right.cycles⟩,
      hIn, hOut, h.fftBuf⟩
  have hval : out3 * s3.gScaleFactor
      = a * (out1 * s1.gScaleFactor) + b * (out2 * s2.gScaleFactor) := by
    rw [hout, h.left.gScaleFactor, h.right.gScaleFactor]; ring
  by_cases hf : s3.gHopCounter + 1 ≥ s3.hopSize
  · have hf1 : s3.gHopCounter + 1 ≥ s1.hopSize := by rw [h.left.hopSize]; exact hf
    have hf2 : s3.gHopCounter + 1 ≥ s2.hopSize := by rw [h.right.hopSize]; exact hf
    simp only [hf, hf1, hf2, if_true]
    refine optRel3_bind _ _ _ _ _ _ _ _ (frameCycle_combo a b _ _ _ h1 m ch) ?_
    intro t1 t2 t3 ht
    exact ⟨ht, hval⟩
  · have hf1 : ¬ s3.gHopCounter + 1 ≥ s1.hopSize := by rw [h.left.hopSize]; exact hf
    have hf2 : ¬ s3.gHopCounter + 1 ≥ s2.hopSize := by rw [h.right.hopSize]; exact hf
    simp only [hf, hf1, hf2, if_false]
    exact ⟨h1, hval⟩

theorem sampleLoopBody_combo (a b : α) (b1 b2 b3 : AudioBuffer α)
    (hb : AudioBuffer.Combo a b b1 b2 b3) (m ch : Nat)
    (st1 st2 st3 : OverlapAddFftProcessor α × AudioBuffer α)
    (h : Combined a b st1.1 st2.1 st3.1 ∧ AudioBuffer.Combo a b st1.2 st2.2 st3.2) (i : Nat) :
    OptRel3 (fun r1 r2 r3 => Combined a b r1.1 r2.1 r3.1 ∧ AudioBuffer.Combo a b r1.2 r2.2 r3.2)
      (sampleLoopBody b1 m ch st1 i) (sampleLoopBody b2 m ch st2 i)
      (sampleLoopBody b3 m ch st3 i) := by
  unfold sampleLoopBody
  simp only [Option.bind_eq_bind]
  refine optRel3_bind _ _ _ _ _ _ _ _ (AudioBuffer.getSample_combo a b _ _ _ hb ch _) ?_
  intro x y z hz
  refine optRel3_bind _ _ _ _ _ _ _ _ (processSample_combo a b _ _ _ h.1 m ch x y z hz) ?_
  intro r1 r2 r3 hr
  refine optRel3_bind _ _ _ _ _ _ _ _
    (AudioBuffer.setSample_combo a b _ _ _ h.2 ch _ r1.2 r2.2 r3.2 hr.2) ?_
  intro o1 o2 o3 ho
  exact ⟨hr.1, ho⟩

theorem process_combo (a b : α) (s1 s2 s3 : OverlapAddFftProcessor α)
    (h : Combined a b s1 s2 s3) (b1 b2 b3 o1 o2 o3 : AudioBuffer α)
    (hb : AudioBuffer.Combo a b b1 b2 b3) (ho : AudioBuffer.Combo a b o1 o2 o3) :
    OptRel3 (fun r1 r2 r3 => Combined a b r1.1 r2.1 r3.1 ∧ AudioBuffer.Combo a b r1.2 r2.2 r3.2)
      (s1.process b1 o1) (s2.process b2 o2) (s3.process b3 o3) := by
  unfold OverlapAddFftProcessor.process
  rw [hb.1, hb.2.2.1]
  refine foldlM_rel3 _ _ _ _ ?_ _ _ _ _ ⟨h, ho⟩
  intro st1 st2 st3 ch hst
  unfold channelLoopBody
  rw [hb.1, hb.2.1, hb.2.2.1, hb.2.2.2.1]
  exact foldlM_rel3 _ _ _ _
    (fun a1 a2 a3 i ha => sampleLoopBody_combo a b b1 b2 b3 hb _ ch a1 a2 a3 ha i) _ _ _ _ hst

theorem runBlocks_combo (a b : α) (bs1 : List (AudioBuffer α)) :
    ∀ (bs2 bs3 : List (AudioBuffer α)) (s1 s2 s3 : OverlapAddFftProcessor α),
      ComboList a b bs1 bs2 bs3 → Combined a b s1 s2 s3 →
      OptRel3 (fun r1 r2 r3 => Combined a b r1.1 r2.1 r3.1 ∧ ComboList a b r1.2 r2.2 r3.2)
        (runBlocks s1 bs1) (runBlocks s2 bs2) (runBlocks s3 bs3) := by
  induction bs1 with
  | nil =>
    intro bs2 bs3 s1 s2 s3 hbs h
    cases bs2 with
    | nil =>
      cases bs3 with
      | nil => exact ⟨h, True.intro⟩
      | cons z zs => exact hbs.elim
    | cons y ys => exact hbs.elim
  | cons x xs ih =>
    intro bs2 bs3 s1 s2 s3 hbs h
    cases bs2 with
    | nil => exact hbs.elim
    | cons y ys =>
      cases bs3 with
      | nil => exact hbs.elim
      | cons z zs =>
        obtain ⟨hb, hrest⟩ := hbs
        simp only [runBlocks, Option.bind_eq_bind]
        refine optRel3_bind _ _ _ _ _ _ _ _ (process_combo a b s1 s2 s3 h _ _ _ _ _ _ hb hb) ?_
        intro r1 r2 r3 hr
        refine optRel3_bind _ _ _ _ _ _ _ _ (ih ys zs r1.1 r2.1 r3.1 hrest hr.1) ?_
        intro q1 q2 q3 hq
        exact ⟨hq.1, hr.2, hq.2⟩
theorem AudioBuffer.combo_eq_combine (a b : α) (x y z : AudioBuffer α)
    (h : AudioBuffer.Combo a b x y z) : z = AudioBuffer.combine a b x y := by
  obtain ⟨h1, h2, _, _, h5⟩ := h
  cases z with
  | mk nc ns d =>
    simp only [AudioBuffer.combine, AudioBuffer.mk.injEq]
    exact ⟨h1.symm, h2.symm, funext (fun c => funext (fun j => h5 c j))⟩

theorem comboList_eq (a b : α) (xs : List (AudioBuffer α)) :
    ∀ ys zs : List (AudioBuffer α), ComboList a b xs ys zs →
      zs = List.zipWith (AudioBuffer.combine a b) xs ys := by
  induction xs with
  | nil =>
    intro ys zs h
    cases ys with
    | nil =>
      cases zs with
      | nil => rfl
      | cons z zs => exact h.elim
    | cons y ys => exact h.elim
  | cons x xs ih =>
    intro ys zs h
    cases ys with
    | nil => exact h.elim
    | cons y ys =>
      cases zs with
      | nil => exact h.elim
      | cons z zs =>
        obtain ⟨hb, hrest⟩ := h
        rw [List.zipWith_cons_cons, ← ih ys zs hrest, ← AudioBuffer.combo_eq_combine a b x y z hb]

theorem comboList_zipWith (a b : α) (xs ys : List (AudioBuffer α))
    (h : List.Forall₂ (fun x y : AudioBuffer α =>
      x.numChannels = y.numChannels ∧ x.numSamples = y.numSamples) xs ys) :
    ComboList a b xs ys (List.zipWith (AudioBuffer.combine a b) xs ys) := by
  induction h with
  | nil => exact True.intro
  | cons hxy _ ih =>
    exact ⟨⟨rfl, rfl, hxy.1.symm, hxy.2.symm, fun _ _ => rfl⟩, ih⟩

theorem combined_fresh (a b : α) (F H : Nat) (g : α) (w : List α) (numIn numOut : Nat) :
    Combined a b (freshProcessor F H g w numIn numOut) (freshProcessor F H g w numIn numOut)
      (freshProcessor F H g w numIn numOut) := by
  have hz : ∀ c j : Nat, (0 : α) = a * 0 + b * 0 := fun _ _ => by ring
  exact ⟨⟨rfl, rfl, rfl, rfl, rfl, rfl, rfl, rfl, rfl, rfl⟩,
    ⟨rfl, rfl, rfl, rfl, rfl, rfl, rfl, rfl, rfl, rfl⟩,
    ⟨rfl, rfl, rfl, rfl, hz⟩, ⟨rfl, rfl, rfl, rfl, hz⟩, ⟨rfl, rfl, rfl, rfl, hz⟩⟩

/-- The run on the blocks `a * x + b * y` faults exactly if the runs on `x` and on
`y` fault, and otherwise leaves `a` times the output blocks of the run on `x` plus `b`
times those of the run on `y`. -/
theorem runBlocks_combine (a b : α) (F H : Nat) (g : α) (w : List α) (numIn numOut : Nat)
    (xs ys : List (AudioBuffer α))
    (h : List.Forall₂ (fun x y : AudioBuffer α =>
      x.numChannels = y.numChannels ∧ x.numSamples = y.numSamples) xs ys) :
    (runBlocks (freshProcessor F H g w numIn numOut)
        (List.zipWith (AudioBuffer.combine a b) xs ys)).map (fun r => r.2)
      = (runBlocks (freshProcessor F H g w numIn numOut) xs).bind (fun r1 =>
          (runBlocks (freshProcessor F H g w numIn numOut) ys).map (fun r2 =>
            List.zipWith (AudioBuffer.combine a b) r1.2 r2.2)) := by
  have hrel := runBlocks_combo a b xs ys _ _ _ _ (comboList_zipWith a b xs ys h)
    (combined_fresh a b F H g w numIn numOut)
  cases h1 : runBlocks (freshProcessor F H g w numIn numOut) xs <;>
    cases h2 : runBlocks (freshProcessor F H g w numIn numOut) ys <;>
    cases h3 : runBlocks (freshProcessor F H g w numIn numOut)
      (List.zipWith (AudioBuffer.combine a b) xs ys) <;>
    rw [h1, h2, h3] at hrel <;>
    first
    | exact hrel.elim
    | rfl
    | (simp only [Option.map_some', Option.some_bind, Option.some.injEq]
       exact comboList_eq a b _ _ _ hrel.2)

theorem AudioBuffer.add_eq_combine :
    (AudioBuffer.add : AudioBuffer α → AudioBuffer α → AudioBuffer α)
      = AudioBuffer.combine 1 1 := by
  funext x y
  simp [AudioBuffer.add, AudioBuffer.combine]

theorem map_scale_eq_zipWith (a : α) (xs : List (AudioBuffer α)) :
    xs.map (AudioBuffer.scale a) = List.zipWith (AudioBuffer.combine a 0) xs xs := by
  induction xs with
  | nil => rfl
  | cons x xs ih =>
    rw [List.map_cons, List.zipWith_cons_cons, ih]
    congr 1
    simp [AudioBuffer.scale, AudioBuffer.combine]

theorem mem_zipWith_add (xs : List (AudioBuffer α)) :
    ∀ (ys : List (AudioBuffer α)) (z : AudioBuffer α),
      z ∈ List.zipWith AudioBuffer.add xs ys → ∃ x ∈ xs, z.numChannels = x.numChannels := by
  induction xs with
  | nil =>
    intro ys z hz
    simp at hz
  | cons x xs ih =>
    intro ys z hz
    cases ys with
    | nil => simp at hz
    | cons y ys =>
      rw [List.zipWith_cons_cons, List.mem_cons] at hz
      cases hz with
      | inl h => exact ⟨x, List.mem_cons_self _ _, by rw [h]; rfl⟩
      | inr h =>
        obtain ⟨x', hx', hc⟩ := ih ys z h
        exact ⟨x', List.mem_cons_of_mem _ hx', hc⟩

/-- For an accepted configuration with an exponent of at most 30 the constructor
returns a processor, whose sizes are the `int` members. -/
theorem construct_of_checks (p d : Int) (g : α) (w : List α)
    (hc : constructorChecks p d = true) (hp : p ≤ 30) :
    OverlapAddFftProcessor.construct p d g w
        = some (OverlapAddFftProcessor.init (2 ^ p.toNat) (2 ^ (p.toNat - d.toNat)) g w) ∧
      fftSizeOf p = ((2 ^ p.toNat : Nat) : Int) ∧
      hopSizeOf p d = ((2 ^ (p.toNat - d.toNat) : Nat) : Int) := by
  have hc2 := hc
  simp only [constructorChecks, Bool.and_eq_true, decide_eq_true_eq] at hc2
  have hF := fftSizeOf_eq p hp
  have hH := hopSizeOf_eq p d hp hc2.2
  refine ⟨?_, hF, hH⟩
  unfold OverlapAddFftProcessor.construct
  rw [if_pos hc, if_pos hp, hF, hH, Int.toNat_ofNat, Int.toNat_ofNat]

/-- Every reachable state of a processor with `fftSize ≤ 16384` and a window of
`fftSize` entries keeps its sizes and window, and either has been prepared, and then
no iteration on one of its channels can fault, or still has no channels. -/
theorem reachable_wellFormed (F H : Nat) (g : α) (w : List α) (hF : F ≤ gBufferSize)
    (hw : w.length = F) (s : OverlapAddFftProcessor α)
    (h : Reachable (OverlapAddFftProcessor.init F H g w) s) :
    s.fftSize = F ∧ s.window = w ∧ s.gInputBufferPointer < gBufferSize ∧
      s.gOutputBufferReadPointer < gBufferSize ∧
      (WellFormed s ∨ s.gInputBuffer.numChannels = 0) := by
  induction h with
  | start =>
    exact ⟨rfl, rfl, (show 0 < gBufferSize by decide), (show 0 < gBufferSize by decide),
      Or.inr rfl⟩
  | prepare s numIn numOut _ ih =>
    obtain ⟨h1, h2, h3, h4, _⟩ := ih
    exact ⟨h1, h2, h3, h4,
      Or.inl (wellFormed_prepare s numIn numOut (by rw [h1]; exact hF) (by rw [h1, h2]; exact hw)
        h3 h4)⟩
  | iteration s m ch inp r _ hr ih =>
    obtain ⟨h1, h2, _, _, h5⟩ := ih
    cases h5 with
    | inl hwf =>
      have e := processSample_some _ _ _ _ _ hr
      subst e
      have hwf2 := wellFormed_pureSample s ch inp hwf
      exact ⟨by rw [pureSample_fftSize]; exact h1, by rw [pureSample_window]; exact h2,
        hwf2.in_ptr, hwf2.read_ptr, Or.inl hwf2⟩
    | inr h0 =>
      exfalso
      simp only [processSample, Option.bind_eq_bind, Option.bind_eq_some] at hr
      obtain ⟨gIn, hIn, _⟩ := hr
      obtain ⟨hrange, _⟩ := AudioBuffer.setSample_eq_some _ _ _ _ _ hIn
      have := hrange.1
      omega

/-- Values of `roundFloat32`: representable numbers (among them the inputs of the
run of C1) are kept, `1 / 3` becomes `11184811 / 2 ^ 25`, the two products of the run of
C1 are rounded down, and ties go to the even significand. -/
theorem roundFloat32_values :
    roundFloat32 0 = 0 ∧ roundFloat32 (1 / 2) = 1 / 2 ∧ roundFloat32 (-5) = -5 ∧
    roundFloat32 3 = 3 ∧ roundFloat32 16777215 = 16777215 ∧
    roundFloat32 (1 / 3) = 11184811 / 33554432 ∧
    roundFloat32 50331645 = 50331644 ∧ roundFloat32 150994932 = 150994928 ∧
    roundFloat32 16777217 = 16777216 ∧ roundFloat32 16777219 = 16777220 := by
  refine ⟨?_, ?_, ?_, ?_, ?_, ?_, ?_, ?_, ?_, ?_⟩ <;> decide!

end Properties

/-! ## The claims of the specification -/

section Claims


/-- C2 (the code at the failing input).  With `fftSize = 2`, `hopSize = 1`, two
channels and the window `1, 1`, the block `stereoSix` processed in one call gives the
delayed input on both channels, while the same block processed as its first three
and its last three samples gives silence on both channels: the channel-major loop
with shared cursors makes the output depend on the block boundaries. -/
theorem block_split_changes_two_channel_output :
    (runBlocks (freshProcessor 2 1 (1 / 2) [1, 1] 2 2) [stereoSix]).map
        (fun r => (channelStream r.2 0, channelStream r.2 1))
      = some ([0, 0, 0, 1, 2, 3], [0, 0, 0, 10, 20, 30]) ∧
    (runBlocks (freshProcessor 2 1 (1 / 2) [1, 1] 2 2)
        [stereoSix.takeSamples 3, stereoSix.dropSamples 3]).map
        (fun r => (channelStream r.2 0, channelStream r.2 1))
      = some ([0, 0, 0, 0, 0, 0], [0, 0, 0, 0, 0, 0]) := by
  constructor <;> decide!

/-- C3 (the code at the failing input).  `SpectralDynamicProcessor` has
`fftSize = 1024` and `hopSize = 128`.  Prepared for two channels, with a rectangular
window, and fed the scenario in blocks of one sample, it does not fault and every
one of the 10000 output samples of channel 0 is 0, also those from index 1152 on,
where the claimed plateau `0.5 * Σ w[n]^2` is 4: each hop completes in an iteration
of channel 1, so no frame is ever laid on channel 0. -/
theorem two_channel_scenario_in_unit_blocks :
    OverlapAddFftProcessor.construct 10 3 (1 / 2 : ℚ) (List.replicate 1024 1)
      = some (OverlapAddFftProcessor.init 1024 128 (1 / 2) (List.replicate 1024 1)) ∧
    (∃ s outs,
      runBlocks (freshProcessor 1024 128 (1 / 2) (List.replicate 1024 1) 2 2) scenarioBlocks
        = some (s, outs) ∧
      channelStream outs 0 = List.replicate 10000 0) ∧
    (1 / 2 : ℚ) * ∑ n ∈ (Finset.range 1024).filter (fun n => n % 128 = 1152 % 128),
      (List.replicate 1024 (1 : ℚ)).getD n 0 ^ 2 = 4 := by
  refine ⟨rfl, ?_, by decide!⟩
  have hbs : ∀ b ∈ scenarioBlocks, b.numChannels = 2 ∧ b.numSamples = 1 := by
    intro b hb
    rw [List.eq_of_mem_replicate hb]
    exact ⟨rfl, rfl⟩
  have hwf := wellFormed_fresh 1024 128 (1 / 2 : ℚ) (List.replicate 1024 1) 2 2
    (by decide) (List.length_replicate _ _)
  refine ⟨_, _, runBlocks_eq _ scenarioBlocks hwf (fun b hb => ?_), ?_⟩
  · rw [(hbs b hb).1]; exact le_rfl
  · rw [starved_stream _ scenarioBlocks (starved_fresh 1024 128 _ _ 2 2 (by decide) (by decide))
      hbs]
    unfold scenarioBlocks
    rw [List.length_replicate]

/-- C4 (as stated, refuted).  The configuration `fftSizeAsPowerOf2 = 15`,
`hopSizeDividerAsPowerOf2 = 15` passes the constructor's checks (`fftSize = 32768`,
`hopSize = 1`), but the first sample of a silent stream already fires a frame cycle
whose extraction index is `(1 + 0 - 32768 + 16384) % 16384 = -16383`: the read of
`gInputBuffer` is out of range and the call faults instead of emitting a zero. -/
theorem silence_faults_when_frame_exceeds_buffer :
    OverlapAddFftProcessor.construct 15 15 (1 / 2 : ℚ) (List.replicate 32768 1)
      = some (OverlapAddFftProcessor.init 32768 1 (1 / 2) (List.replicate 32768 1)) ∧
    circularBufferIndex 1 0 32768 = -16383 ∧
    runBlocks (freshProcessor 32768 1 (1 / 2 : ℚ) (List.replicate 32768 1) 1 1)
      [silentBlock 1 1] = none :=
  ⟨rfl, by decide, Option.isNone_iff_eq_none.mp (by decide!)⟩

/-- C4 (amended).  For every configuration accepted by the constructor whose
`fftSize` is at most 16384, every window of length `fftSize`, every number of prepared
channels and every sequence of blocks with at most that many channels, a freshly
prepared processor fed zeros does not fault, emits only zeros on every channel that
the blocks carry, and every cell of both circular buffers stays zero. -/
theorem silence_in_silence_out {α : Type} [CommRing α]
    (fftSizeAsPowerOf2 hopSizeDividerAsPowerOf2 : Int) (g : α) (window : List α)
    (proc : OverlapAddFftProcessor α) (numIn numOut : Nat) (blocks : List (AudioBuffer α))
    (hcons : OverlapAddFftProcessor.construct fftSizeAsPowerOf2 hopSizeDividerAsPowerOf2 g window
      = some proc)
    (hcap : proc.fftSize ≤ gBufferSize) (hwin : window.length = proc.fftSize)
    (hch : ∀ b ∈ blocks, b.numChannels ≤ numIn)
    (hzero : ∀ b ∈ blocks, ∀ c i, c < b.numChannels → i < b.numSamples → b.data c i = 0) :
    ∃ s outs,
      runBlocks (proc.prepare numIn numOut) blocks = some (s, outs) ∧
      (∀ c, (∀ b ∈ blocks, c < b.numChannels) → ∀ v ∈ channelStream outs c, v = 0) ∧
      (∀ c j, s.gInputBuffer.data c j = 0 ∧ s.gOutputBuffer.data c j = 0) := by
  obtain ⟨_, hproc⟩ := construct_eq_some _ _ _ _ _ hcons
  generalize (fftSizeOf fftSizeAsPowerOf2).toNat = F at hproc
  generalize (hopSizeOf fftSizeAsPowerOf2 hopSizeDividerAsPowerOf2).toNat = H at hproc
  subst hproc
  have hwf : WellFormed ((OverlapAddFftProcessor.init F H g window).prepare numIn numOut) :=
    wellFormed_fresh F H g window numIn numOut hcap hwin
  have hsil := fun c => silent_channel_run c
    (freshProcessor F H g window numIn numOut)
    blocks (silent_fresh c _ _ g window numIn numOut)
    (fun b hb hc i hi => hzero b hb c i hc hi)
  exact ⟨_, _, runBlocks_eq _ blocks hwf hch, fun c => (hsil c).2, fun c j => (hsil c).1 j⟩

/-- The theorem of C4 at `fftSizeAsPowerOf2 = 2`, `hopSizeDividerAsPowerOf2 = 1`, two
channels and the blocks `silentBlocks`. -/
theorem silence_in_silence_out_witness :
    OverlapAddFftProcessor.construct 2 1 (1 / 2 : ℚ) [1, 1, 1, 1]
      = some (OverlapAddFftProcessor.init 4 2 (1 / 2) [1, 1, 1, 1]) ∧
    ∃ s outs,
      runBlocks ((OverlapAddFftProcessor.init 4 2 (1 / 2 : ℚ) [1, 1, 1, 1]).prepare 2 2)
        silentBlocks = some (s, outs) ∧
      (∀ c, (∀ b ∈ silentBlocks, c < b.numChannels) →
        ∀ v ∈ channelStream outs c, v = 0) ∧
      (∀ c j, s.gInputBuffer.data c j = 0 ∧ s.gOutputBuffer.data c j = 0) :=
  ⟨rfl, silence_in_silence_out 2 1 (1 / 2 : ℚ) [1, 1, 1, 1] _ 2 2
    silentBlocks rfl (by decide) rfl (by decide)
    (by
      intro b hb c i _ _
      simp only [silentBlocks, List.mem_cons, List.mem_singleton, List.not_mem_nil,
        or_false] at hb
      rcases hb with rfl | rfl <;> rfl)⟩

/-- C5 (as stated, refuted).  With `fftSizeAsPowerOf2 = 15` and
`hopSizeDividerAsPowerOf2 = 14` (`fftSize = 32768`, `hopSize = 2`) and two channels,
the first call, with the sample 1 on channel 0 and the sample 0 on channel 1, fires
its frame cycle in the iteration of the silent channel 1, where the extraction index
`(2 + 0 - 32768 + 16384) % 16384 = -16382` is out of range: the call faults and no
output is produced for channel 1. -/
theorem silent_channel_faults_when_frame_exceeds_buffer :
    OverlapAddFftProcessor.construct 15 14 (1 / 2 : ℚ) (List.replicate 32768 1)
      = some (OverlapAddFftProcessor.init 32768 2 (1 / 2) (List.replicate 32768 1)) ∧
    circularBufferIndex 2 0 32768 = -16382 ∧
    runBlocks (freshProcessor 32768 2 (1 / 2 : ℚ) (List.replicate 32768 1) 2 2)
      [blockOfChannels [[1], [0]] 1] = none :=
  ⟨rfl, by decide, Option.isNone_iff_eq_none.mp (by decide!)⟩

/-- C5 (amended).  For `fftSize` at most 16384, every hop size, every window of length
`fftSize`, every number of prepared channels and every sequence of blocks that carry
channel `c` and have at most the prepared number of channels: if the input of
channel `c` is zero in every block, then a freshly prepared processor does not fault
and every output sample of channel `c` is 0, whatever the other channels carry. -/
theorem silent_channel_stays_silent {α : Type} [CommRing α]
    (fftSize hopSize : Nat) (g : α) (window : List α) (numIn numOut : Nat)
    (blocks : List (AudioBuffer α)) (c : Nat)
    (hcap : fftSize ≤ gBufferSize) (hwin : window.length = fftSize)
    (hch : ∀ b ∈ blocks, b.numChannels ≤ numIn) (hc : ∀ b ∈ blocks, c < b.numChannels)
    (hzero : ∀ b ∈ blocks, ∀ i, i < b.numSamples → b.data c i = 0) :
    ∃ s outs,
      runBlocks (freshProcessor fftSize hopSize g window numIn numOut) blocks = some (s, outs) ∧
      ∀ v ∈ channelStream outs c, v = 0 := by
  have hwf := wellFormed_fresh fftSize hopSize g window numIn numOut hcap hwin
  have hsil := silent_channel_run c _ blocks
    (silent_fresh c fftSize hopSize g window numIn numOut) (fun b hb _ => hzero b hb)
  exact ⟨_, _, runBlocks_eq _ blocks hwf hch, hsil.2 hc⟩

/-- The theorem of C5 for channel 1 of a two-channel block that carries `1, 2, 3` on
channel 0 and zeros on channel 1, at `fftSize = 2`, `hopSize = 1`. -/
theorem silent_channel_stays_silent_witness :
    ∃ s outs,
      runBlocks (freshProcessor 2 1 (1 / 2 : ℚ) [1, 1] 2 2)
        [blockOfChannels [[1, 2, 3], [0, 0, 0]] 3] = some (s, outs) ∧
      ∀ v ∈ channelStream outs 1, v = 0 :=
  silent_channel_stays_silent 2 1 (1 / 2 : ℚ) [1, 1] 2 2
    [blockOfChannels [[1, 2, 3], [0, 0, 0]] 3] 1 (by decide) rfl (by decide) (by decide)
    (by
      intro b hb i hi
      rw [List.mem_singleton] at hb
      subst hb
      have h3 : i < 3 := hi
      interval_cases i <;> rfl)

/-- C9.  In every state reached from a processor accepted by the constructor by one
`prepare` and any sequence of successful `process` calls (any channel counts, any
block sizes), the output write pointer equals the output read pointer plus
`fftSize + 2 * hopSize` minus the hop counter, modulo 16384; in particular the lead is
`fftSize + 2 * hopSize` whenever the hop counter is 0.  Moreover an iteration started
in any state either leaves the write pointer as it is, or fires and adds `hopSize`
to it modulo 16384. -/
theorem write_pointer_lead {α : Type} [CommRing α]
    (fftSizeAsPowerOf2 hopSizeDividerAsPowerOf2 : Int) (g : α) (window : List α)
    (proc : OverlapAddFftProcessor α) (numIn numOut : Nat) (blocks : List (AudioBuffer α))
    (s : OverlapAddFftProcessor α) (outs : List (AudioBuffer α))
    (hcons : OverlapAddFftProcessor.construct fftSizeAsPowerOf2 hopSizeDividerAsPowerOf2 g window
      = some proc)
    (hrun : runBlocks (proc.prepare numIn numOut) blocks = some (s, outs)) :
    s.gOutputBufferWritePointer % gBufferSize
        = (s.gOutputBufferReadPointer + (proc.fftSize + 2 * proc.hopSize - s.gHopCounter))
            % gBufferSize ∧
      (s.gHopCounter = 0 →
        s.gOutputBufferWritePointer % gBufferSize
          = (s.gOutputBufferReadPointer + (proc.fftSize + 2 * proc.hopSize)) % gBufferSize) ∧
      (∀ (t : OverlapAddFftProcessor α) (m ch : Nat) (inp : α)
          (r : OverlapAddFftProcessor α × α), processSample t m ch inp = some r →
        r.1.gOutputBufferWritePointer = t.gOutputBufferWritePointer ∨
          (fires t ∧ r.1.gOutputBufferWritePointer
            = (t.gOutputBufferWritePointer + t.hopSize) % gBufferSize)) := by
  obtain ⟨hchk, hproc⟩ := construct_eq_some _ _ _ _ _ hcons
  have hpos := hopSize_pos_of_checks _ _ hchk
  generalize (fftSizeOf fftSizeAsPowerOf2).toNat = F at hproc
  generalize (hopSizeOf fftSizeAsPowerOf2 hopSizeDividerAsPowerOf2).toNat = H at hproc hpos
  subst hproc
  have hclock := clock_reachable F H g window numIn numOut hpos blocks (s, outs) hrun
  obtain ⟨hc, hF, hH⟩ := hclock
  have hlead := clock_lead _ s hc
  rw [hF, hH] at hlead
  refine ⟨hlead, ?_, ?_⟩
  · intro h0
    rw [h0, Nat.sub_zero] at hlead
    exact hlead
  · intro t m ch inp r hr
    obtain ⟨_, _, _, h4, _⟩ := processSample_cursors t m ch inp r hr
    by_cases hf : fires t
    · rw [if_pos hf] at h4
      exact Or.inr ⟨hf, h4⟩
    · rw [if_neg hf] at h4
      exact Or.inl h4

/-- The theorem of C9 for `fftSizeAsPowerOf2 = 2`, `hopSizeDividerAsPowerOf2 = 1` after
the eight single-channel samples of `demoBlocks`. -/
theorem write_pointer_lead_witness :
    OverlapAddFftProcessor.construct 2 1 (1 / 2 : ℚ) [1, 1, 1, 1]
      = some (OverlapAddFftProcessor.init 4 2 (1 / 2) [1, 1, 1, 1]) ∧
    runBlocks ((OverlapAddFftProcessor.init 4 2 (1 / 2 : ℚ) [1, 1, 1, 1]).prepare 1 1) demoBlocks
      = some (pureState (freshProcessor 4 2 (1 / 2) [1, 1, 1, 1] 1 1) (runIterations demoBlocks),
          pureBlocks (freshProcessor 4 2 (1 / 2) [1, 1, 1, 1] 1 1) demoBlocks) ∧
    (pureState (freshProcessor 4 2 (1 / 2 : ℚ) [1, 1, 1, 1] 1 1)
        (runIterations demoBlocks)).gOutputBufferWritePointer % gBufferSize
      = ((pureState (freshProcessor 4 2 (1 / 2 : ℚ) [1, 1, 1, 1] 1 1)
          (runIterations demoBlocks)).gOutputBufferReadPointer
          + (4 + 2 * 2 - (pureState (freshProcessor 4 2 (1 / 2 : ℚ) [1, 1, 1, 1] 1 1)
              (runIterations demoBlocks)).gHopCounter)) % gBufferSize :=
  ⟨rfl,
    runBlocks_eq _ demoBlocks (wellFormed_fresh 4 2 _ _ 1 1 (by decide) rfl) (by decide),
    (write_pointer_lead 2 1 (1 / 2 : ℚ) [1, 1, 1, 1] _ 1 1 demoBlocks _ _ rfl
      (runBlocks_eq _ demoBlocks (wellFormed_fresh 4 2 _ _ 1 1 (by decide) rfl)
        (by decide))).1⟩

/-- C6 (the code at the failing input).  With `fftSize = 4`, `hopSize = 2` and two
channels, one call with three samples per channel runs six iterations on the shared
hop counter and fires three frame cycles, not `3 / 2 = 1`. -/
theorem two_channels_fire_per_iteration :
    (runBlocks (freshProcessor 4 2 (1 / 2 : ℚ) [1, 1, 1, 1] 2 2) [silentBlock 2 3]).map
        (fun r => r.1.frameCycles) = some 3 ∧
    3 / 2 = 1 := by
  constructor <;> decide!

/-- C7.  For `hopSize ≥ 1`, `fftSize + 2 * hopSize < 16384` and a window of length
`fftSize`, every sequence of `process` calls on a freshly prepared processor, with
blocks of at most the prepared number of channels and of any lengths, runs without a
fault: no access to `gInputBuffer`, `gOutputBuffer`, the frame buffer or the window
is out of range (an access out of range gives `none`).  In the state reached, the
input write pointer and the output read pointer are below 16384, and for every
`n < fftSize` both `circularBufferIndex` values lie in `[0, 16384)`. -/
theorem circular_indices_in_range {α : Type} [CommRing α]
    (fftSize hopSize : Nat) (g : α) (window : List α) (numIn numOut : Nat)
    (blocks : List (AudioBuffer α))
    (_hhop : 1 ≤ hopSize) (hcap : fftSize + 2 * hopSize < gBufferSize)
    (hwin : window.length = fftSize) (hch : ∀ b ∈ blocks, b.numChannels ≤ numIn) :
    ∃ s outs,
      runBlocks (freshProcessor fftSize hopSize g window numIn numOut) blocks = some (s, outs) ∧
      s.gInputBufferPointer < gBufferSize ∧
      s.gOutputBufferReadPointer < gBufferSize ∧
      ∀ n, n < fftSize →
        (0 ≤ circularBufferIndex s.gInputBufferPointer n fftSize ∧
          circularBufferIndex s.gInputBufferPointer n fftSize < (gBufferSize : Int)) ∧
        (0 ≤ circularBufferIndex s.gOutputBufferWritePointer n fftSize ∧
          circularBufferIndex s.gOutputBufferWritePointer n fftSize < (gBufferSize : Int)) := by
  have hF : fftSize ≤ gBufferSize := by omega
  have hwf := wellFormed_fresh fftSize hopSize g window numIn numOut hF hwin
  have hfin := wellFormed_pureState _ (runIterations blocks) hwf
  exact ⟨_, _, runBlocks_eq _ blocks hwf hch, hfin.in_ptr, hfin.read_ptr,
    fun n _ => ⟨circularBufferIndex_range _ n fftSize hF,
      circularBufferIndex_range _ n fftSize hF⟩⟩

/-- The theorem of C7 at `fftSize = 2`, `hopSize = 1`, two channels and the block
`stereoSix`. -/
theorem circular_indices_in_range_witness :
    (1 ≤ 1 ∧ 2 + 2 * 1 < gBufferSize ∧ ([1, 1] : List ℚ).length = 2) ∧
    ∃ s outs,
      runBlocks (freshProcessor 2 1 (1 / 2 : ℚ) [1, 1] 2 2) [stereoSix] = some (s, outs) ∧
      s.gInputBufferPointer < gBufferSize ∧
      s.gOutputBufferReadPointer < gBufferSize ∧
      ∀ n, n < 2 →
        (0 ≤ circularBufferIndex s.gInputBufferPointer n 2 ∧
          circularBufferIndex s.gInputBufferPointer n 2 < (gBufferSize : Int)) ∧
        (0 ≤ circularBufferIndex s.gOutputBufferWritePointer n 2 ∧
          circularBufferIndex s.gOutputBufferWritePointer n 2 < (gBufferSize : Int)) :=
  ⟨⟨by decide, by decide, rfl⟩,
    circular_indices_in_range 2 1 (1 / 2 : ℚ) [1, 1] 2 2 [stereoSix] (by decide) (by decide)
      rfl (by decide)⟩

/-- C8 (the code at the failing input).  A processor with `fftSize = 4`,
`hopSize = 2` is prepared, processes one sample, and is prepared again: `prepare` sets
the output write pointer to `fftSize + 2 * hopSize = 8`, but the input write pointer,
the output read pointer and the hop counter keep the value 1 they had. -/
theorem prepare_keeps_cursors_of_used_processor :
    (runBlocks (freshProcessor 4 2 (1 / 2 : ℚ) [1, 1, 1, 1] 1 1) [monoBlock [1]]).map
        (fun r =>
          ((r.1.prepare 1 1).gInputBufferPointer, (r.1.prepare 1 1).gOutputBufferReadPointer,
            (r.1.prepare 1 1).gHopCounter, (r.1.prepare 1 1).gOutputBufferWritePointer))
      = some (1, 1, 1, 8) := by
  decide!

/-- C10 (as stated, refuted).  In `firstFiringState` the write cursor is `W = 4` and the
frame cycle extracts the frame `0, 1`.  Cell `(W + 1) % 16384 = 5` of the output
buffer holds 0 before and 0 after the cycle, not `0 + frame[1] * w[1] = 1`; the value
is added to cell `W + 1 - fftSize = 3`. -/
theorem scatter_does_not_start_at_write_cursor :
    (frameCycle firstFiringState 1 0).map
        (fun s' =>
          (firstFiringState.gOutputBufferWritePointer, s'.fftInOutBuffer.data 0 1,
            firstFiringState.gOutputBuffer.data 0 5, s'.gOutputBuffer.data 0 5,
            s'.gOutputBuffer.data 0 3))
      = some (4, 1, 0, 0, 1) := by
  decide!

/-- C10 (amended).  In a state with the sizes that `prepare` establishes
(`fftSize ≤ 16384`, window of length `fftSize`) a frame cycle for an allocated channel
`ch`, fired with the write cursor `W`, does not fault.  With `frame` the content of the
frame buffer of `ch` after extraction and the (empty) transform, for every
`n < fftSize` the value `frame[n] * w[n]` is added to the previous content of cell
`(W - fftSize + n) mod 16384` of the output buffer of `ch`, which is the index
`circularBufferIndex W n fftSize`: the frame is laid down ending just before the write
cursor.  No other cell of that buffer and no cell of another channel changes, and
afterwards the write cursor is `(W + hopSize) % 16384`. -/
theorem scatter_add_placement {α : Type} [CommRing α] (s : OverlapAddFftProcessor α)
    (m ch : Nat) (hs : WellFormed s) (hch : ch < s.gInputBuffer.numChannels) :
    ∃ s', frameCycle s m ch = some s' ∧
      (∀ n, n < s.fftSize →
        circularBufferIndex s.gOutputBufferWritePointer n s.fftSize
          = ((s.gOutputBufferWritePointer + n + gBufferSize - s.fftSize) % gBufferSize : Nat) ∧
        s'.gOutputBuffer.data ch
            ((s.gOutputBufferWritePointer + n + gBufferSize - s.fftSize) % gBufferSize)
          = s.gOutputBuffer.data ch
              ((s.gOutputBufferWritePointer + n + gBufferSize - s.fftSize) % gBufferSize)
            + s'.fftInOutBuffer.data ch n * s.window.getD n 0) ∧
      (∀ j, (∀ n, n < s.fftSize →
          (s.gOutputBufferWritePointer + n + gBufferSize - s.fftSize) % gBufferSize ≠ j) →
        s'.gOutputBuffer.data ch j = s.gOutputBuffer.data ch j) ∧
      (∀ c j, c ≠ ch → s'.gOutputBuffer.data c j = s.gOutputBuffer.data c j) ∧
      s'.gOutputBufferWritePointer
        = (s.gOutputBufferWritePointer + s.hopSize) % gBufferSize := by
  have hoc : ch < s.gOutputBuffer.numChannels := by rw [hs.out_channels]; exact hch
  have hfc : ch < s.fftInOutBuffer.numChannels := lt_of_lt_of_le hch hs.fft_channels
  have hC : gBufferSize = 16384 := rfl
  have hF := hs.fft_le
  refine ⟨pureFrameCycle s ch, frameCycle_eq s m ch hs.fft_le hs.window_length hs.in_samples
    hch hs.out_samples hoc hs.fft_samples hfc, ?_, ?_, ?_, rfl⟩
  · intro n hn
    refine ⟨circularBufferIndex_eq _ n _ hs.fft_le, ?_⟩
    rw [pureFrameCycle_out_data, if_pos rfl, Finset.sum_eq_single n]
    · rw [if_pos rfl]
    · intro n' hn' hne
      have hn2 : n' < s.fftSize := Finset.mem_range.mp hn'
      rw [if_neg]
      rw [hC] at hF ⊢
      omega
    · intro hnot
      exact absurd (Finset.mem_range.mpr hn) hnot
  · intro j hj
    rw [pureFrameCycle_out_data, if_pos rfl, Finset.sum_eq_zero, add_zero]
    intro n hn
    rw [if_neg (hj n (Finset.mem_range.mp hn))]
  · intro c j hc
    rw [pureFrameCycle_out_data, if_neg hc, add_zero]

/-- The theorem of C10 for the frame cycle of `firstFiringState`. -/
theorem scatter_add_placement_witness :
    (WellFormed firstFiringState ∧ 0 < firstFiringState.gInputBuffer.numChannels) ∧
    ∃ s', frameCycle firstFiringState 1 0 = some s' ∧
      (∀ n, n < firstFiringState.fftSize →
        circularBufferIndex firstFiringState.gOutputBufferWritePointer n
            firstFiringState.fftSize
          = ((firstFiringState.gOutputBufferWritePointer + n + gBufferSize
              - firstFiringState.fftSize) % gBufferSize : Nat) ∧
        s'.gOutputBuffer.data 0
            ((firstFiringState.gOutputBufferWritePointer + n + gBufferSize
              - firstFiringState.fftSize) % gBufferSize)
          = firstFiringState.gOutputBuffer.data 0
              ((firstFiringState.gOutputBufferWritePointer + n + gBufferSize
                - firstFiringState.fftSize) % gBufferSize)
            + s'.fftInOutBuffer.data 0 n * firstFiringState.window.getD n 0) ∧
      (∀ j, (∀ n, n < firstFiringState.fftSize →
          (firstFiringState.gOutputBufferWritePointer + n + gBufferSize
            - firstFiringState.fftSize) % gBufferSize ≠ j) →
        s'.gOutputBuffer.data 0 j = firstFiringState.gOutputBuffer.data 0 j) ∧
      (∀ c j, c ≠ 0 → s'.gOutputBuffer.data c j = firstFiringState.gOutputBuffer.data c j) ∧
      s'.gOutputBufferWritePointer
        = (firstFiringState.gOutputBufferWritePointer + firstFiringState.hopSize)
            % gBufferSize :=
  ⟨⟨⟨by decide, rfl, rfl, rfl, rfl, rfl, by decide, by decide, by decide⟩, by decide⟩,
    scatter_add_placement firstFiringState 1 0
      ⟨by decide, rfl, rfl, rfl, rfl, rfl, by decide, by decide, by decide⟩ (by decide)⟩

/-- C11 (the code at the failing input).  With `fftSize = 4`, `hopSize = 2`, a
rectangular window and two channels, one call with the sample 1 on both channels
fires its one frame cycle in the iteration of channel 1.  Afterwards the input
buffer of channel 0 holds the sample 1, but the frame buffer and the output buffer of
channel 0 are still all zero: no frame was extracted or scatter-added for channel 0.
Only channel 1 has its frame `0, 0, 0, 1` and the value 1 in output cell 7, and the
write pointer has advanced from 8 to 10. -/
theorem frame_cycle_serves_one_channel :
    ((freshProcessor 4 2 (1 / 2 : ℚ) [1, 1, 1, 1] 2 2).process
        (blockOfChannels [[1], [1]] 1) (blockOfChannels [[1], [1]] 1)).map
      (fun r => (r.1.frameCycles, r.1.gOutputBufferWritePointer)) = some (1, 10) ∧
    ((freshProcessor 4 2 (1 / 2 : ℚ) [1, 1, 1, 1] 2 2).process
        (blockOfChannels [[1], [1]] 1) (blockOfChannels [[1], [1]] 1)).map
      (fun r =>
        ((List.range 4).map (r.1.gInputBuffer.data 0),
          (List.range 4).map (r.1.fftInOutBuffer.data 0),
          (List.range 12).map (r.1.gOutputBuffer.data 0)))
      = some ([1, 0, 0, 0], [0, 0, 0, 0], [0, 0, 0, 0, 0, 0, 0, 0, 0, 0, 0, 0]) ∧
    ((freshProcessor 4 2 (1 / 2 : ℚ) [1, 1, 1, 1] 2 2).process
        (blockOfChannels [[1], [1]] 1) (blockOfChannels [[1], [1]] 1)).map
      (fun r => ((List.range 4).map (r.1.fftInOutBuffer.data 1), r.1.gOutputBuffer.data 1 7))
      = some ([0, 0, 0, 1], 1) := by
  refine ⟨?_, ?_, ?_⟩ <;> decide!

/-- C13 (the code at the failing input).  A processor prepared for two channels is
given, through `process (inputBlock, outputBlock)`, an input block of two channels and
an output block of one channel, so that `min (I, O) = 1`.  The loop of `process` runs
over the two channels of the input block; the store to channel 1 of the output block
(line 190) is out of range and the call faults.  With an output block of two channels
the call returns. -/
theorem process_iterates_input_channels :
    (freshProcessor 4 2 (1 / 2 : ℚ) [1, 1, 1, 1] 2 2).process
        (blockOfChannels [[1], [1]] 1) (blockOfChannels [[7]] 1) = none ∧
    ((freshProcessor 4 2 (1 / 2 : ℚ) [1, 1, 1, 1] 2 2).process
        (blockOfChannels [[1], [1]] 1) (blockOfChannels [[7], [7]] 1)).isSome = true :=
  ⟨Option.isNone_iff_eq_none.mp (by decide!), by decide!⟩

/-- Where the output block has at least the channels and the samples of the input
block (as in the replacing context of the plugin): on a processor with the sizes that
`prepare` establishes, for an input block with `I` channels, `I` at most the number of
prepared channels, `process` does not fault and runs exactly the iterations of the
channels below `I`.  It stores the value of `out` of iteration `(c, i)` to sample `i`
of output channel `c` for `c < I`, and leaves every other sample of the output block,
and its shape, unmodified. -/
theorem process_handles_input_channels {α : Type} [CommRing α] (s : OverlapAddFftProcessor α)
    (inputBlock outputBlock : AudioBuffer α) (hs : WellFormed s)
    (hch : inputBlock.numChannels ≤ s.gInputBuffer.numChannels)
    (ho : inputBlock.numChannels ≤ outputBlock.numChannels)
    (hN : inputBlock.numSamples ≤ outputBlock.numSamples) :
    ∃ s' o', s.process inputBlock outputBlock = some (s', o') ∧
      s' = pureState s (blockIterations inputBlock) ∧
      (∀ p ∈ blockIterations inputBlock, p.1 < inputBlock.numChannels) ∧
      o'.numChannels = outputBlock.numChannels ∧ o'.numSamples = outputBlock.numSamples ∧
      (∀ c i, c < inputBlock.numChannels → i < inputBlock.numSamples →
        o'.data c i = (pureOutputs s (blockIterations inputBlock)).getD
          (c * inputBlock.numSamples + i) 0) ∧
      (∀ c i, ¬ (c < inputBlock.numChannels ∧ i < inputBlock.numSamples) →
        o'.data c i = outputBlock.data c i) := by
  refine ⟨_, _, process_eq s inputBlock outputBlock hs hch ho hN, rfl, ?_, rfl, rfl, ?_, ?_⟩
  · intro p hp
    obtain ⟨_, _, hlt, _⟩ := mem_blockPrefix inputBlock inputBlock.numChannels p hp
    exact hlt
  · intro c i hc hi
    simp only [outputsBlock, hc, hi, and_self, if_true]
  · intro c i hci
    simp only [outputsBlock, hci, if_false]

/-- The lemma `process_handles_input_channels` for an input block of one channel, an
output block of two channels and a processor prepared for two channels. -/
theorem process_handles_input_channels_witness :
    (WellFormed (freshProcessor 4 2 (1 / 2 : ℚ) [1, 1, 1, 1] 2 2) ∧
      (monoBlock [1, 2, 3] : AudioBuffer ℚ).numChannels ≤ 2 ∧
      (monoBlock [1, 2, 3] : AudioBuffer ℚ).numSamples
        ≤ (blockOfChannels [[7, 7, 7], [8, 8, 8]] 3 : AudioBuffer ℚ).numSamples) ∧
    ∃ s' o', (freshProcessor 4 2 (1 / 2 : ℚ) [1, 1, 1, 1] 2 2).process (monoBlock [1, 2, 3])
        (blockOfChannels [[7, 7, 7], [8, 8, 8]] 3) = some (s', o') ∧
      s' = pureState (freshProcessor 4 2 (1 / 2 : ℚ) [1, 1, 1, 1] 2 2)
        (blockIterations (monoBlock [1, 2, 3])) ∧
      (∀ p ∈ blockIterations (monoBlock [1, 2, 3] : AudioBuffer ℚ),
        p.1 < (monoBlock [1, 2, 3] : AudioBuffer ℚ).numChannels) ∧
      o'.numChannels = (blockOfChannels [[7, 7, 7], [8, 8, 8]] 3 : AudioBuffer ℚ).numChannels ∧
      o'.numSamples = (blockOfChannels [[7, 7, 7], [8, 8, 8]] 3 : AudioBuffer ℚ).numSamples ∧
      (∀ c i, c < (monoBlock [1, 2, 3] : AudioBuffer ℚ).numChannels →
        i < (monoBlock [1, 2, 3] : AudioBuffer ℚ).numSamples →
        o'.data c i = (pureOutputs (freshProcessor 4 2 (1 / 2 : ℚ) [1, 1, 1, 1] 2 2)
          (blockIterations (monoBlock [1, 2, 3]))).getD
          (c * (monoBlock [1, 2, 3] : AudioBuffer ℚ).numSamples + i) 0) ∧
      (∀ c i, ¬ (c < (monoBlock [1, 2, 3] : AudioBuffer ℚ).numChannels ∧
          i < (monoBlock [1, 2, 3] : AudioBuffer ℚ).numSamples) →
        o'.data c i = (blockOfChannels [[7, 7, 7], [8, 8, 8]] 3 : AudioBuffer ℚ).data c i) :=
  ⟨⟨wellFormed_fresh 4 2 _ _ 2 2 (by decide) rfl, by decide, by decide⟩,
    process_handles_input_channels (freshProcessor 4 2 (1 / 2 : ℚ) [1, 1, 1, 1] 2 2)
      (monoBlock [1, 2, 3]) (blockOfChannels [[7, 7, 7], [8, 8, 8]] 3)
      (wellFormed_fresh 4 2 _ _ 2 2 (by decide) rfl) (by decide) (by decide) (by decide)⟩

/-- C17 (the code at the failing input).  A processor with `fftSize = 2`,
`hopSize = 1` and the window `1, 1` is prepared, processes three samples, is prepared
again and processes the sample 1.  That last iteration has the read cursor `r = 3`:
it stores `0.5 * 0 = 0` to the output and moves the cursor to 4, but its frame cycle,
with the write pointer reset to `fftSize + 2 * hopSize = 4` by the second `prepare`,
adds the frame value 1 to cell `4 + 1 - 2 = 3`: cell `r` holds 1, not 0, at the end of
the iteration, although `16384 > fftSize + 2 * hopSize`. -/
theorem read_cell_rewritten_after_second_prepare :
    (runCalls (OverlapAddFftProcessor.init 2 1 (1 / 2 : ℚ) [1, 1])
        [Call.prepare 1 1, Call.process (monoBlock [0, 0, 0]), Call.prepare 1 1]).map
      (fun s => (s.gOutputBufferReadPointer, s.gOutputBufferWritePointer,
        s.gOutputBuffer.data 0 3)) = some (3, 4, 0) ∧
    (runCalls (OverlapAddFftProcessor.init 2 1 (1 / 2 : ℚ) [1, 1])
        [Call.prepare 1 1, Call.process (monoBlock [0, 0, 0]), Call.prepare 1 1,
          Call.process (monoBlock [1])]).map
      (fun s => (s.gOutputBufferReadPointer, s.gOutputBuffer.data 0 3)) = some (4, 1) := by
  constructor <;> decide!

/-- C12.  For `fftSize ≤ 16384`, `hopSize ≥ 1` and a window of length `fftSize`, a
freshly prepared processor fed a single-channel stream `x` of `t = k * hopSize`
samples, `k ≥ 1`, in blocks of any sizes, does not fault, and the frame buffer left by
the frame cycle that fires with the last sample holds, for every `n < fftSize`,
`w[n] * x[t - fftSize + n]` where `t - fftSize + n ≥ 0` and 0 elsewhere. -/
theorem frame_holds_latest_samples {α : Type} [CommRing α] (fftSize hopSize : Nat) (g : α)
    (window : List α) (numIn numOut : Nat) (blocks : List (AudioBuffer α)) (k : Nat)
    (hcap : fftSize ≤ gBufferSize) (hhop : 1 ≤ hopSize) (hwin : window.length = fftSize)
    (hnum : 1 ≤ numIn) (hmono : ∀ b ∈ blocks, b.numChannels = 1) (hk : 1 ≤ k)
    (hlen : (channelStream blocks 0).length = k * hopSize) :
    ∃ s outs,
      runBlocks (freshProcessor fftSize hopSize g window numIn numOut) blocks = some (s, outs) ∧
      ∀ n, n < fftSize →
        s.fftInOutBuffer.data 0 n
          = if fftSize ≤ k * hopSize + n then
              window.getD n 0 * (channelStream blocks 0).getD (k * hopSize + n - fftSize) 0
            else 0 := by
  have hwf := wellFormed_fresh fftSize hopSize g window numIn numOut hcap hwin
  refine ⟨_, _, runBlocks_eq _ blocks hwf (fun b hb => by
    rw [hmono b hb, freshProcessor_in_numChannels]; exact hnum), ?_⟩
  intro n hn
  have hit : runIterations blocks
      = monoIterations (fun i => (channelStream blocks 0).getD i 0) (k * hopSize) := by
    rw [runIterations_mono blocks hmono, ← hlen, monoIterations_of_list]
  rw [hit, mono_frame _ fftSize hopSize g window numIn numOut hhop hcap hwin hnum k hk n hn]
  unfold delayed
  split
  · rw [mul_comm]
  · rw [zero_mul]

/-- The theorem of C12 for the eight samples of `demoBlocks` at `fftSize = 4`,
`hopSize = 2`, `k = 4`. -/
theorem frame_holds_latest_samples_witness :
    (4 ≤ gBufferSize ∧ 1 ≤ 2 ∧ ([1, 1, 1, 1] : List ℚ).length = 4 ∧
      (channelStream demoBlocks 0).length = 4 * 2) ∧
    ∃ s outs,
      runBlocks (freshProcessor 4 2 (1 / 2 : ℚ) [1, 1, 1, 1] 1 1) demoBlocks = some (s, outs) ∧
      ∀ n, n < 4 →
        s.fftInOutBuffer.data 0 n
          = if 4 ≤ 4 * 2 + n then
              ([1, 1, 1, 1] : List ℚ).getD n 0 * (channelStream demoBlocks 0).getD (4 * 2 + n - 4) 0
            else 0 :=
  ⟨⟨by decide, by decide, rfl, by decide⟩,
    frame_holds_latest_samples 4 2 (1 / 2 : ℚ) [1, 1, 1, 1] 1 1 demoBlocks 4 (by decide)
      (by decide) rfl (by decide) (by decide) (by decide) (by decide)⟩

/-- C18.  For `fftSizeAsPowerOf2 = 14`, `hopSizeDividerAsPowerOf2 = 1` the
constructor's checks pass and give `fftSize = 16384 = gBufferSize`, `hopSize = 8192`,
so the capacity does not exceed `fftSize + 2 * hopSize`; every index computed by
`circularBufferIndex` lies in `[0, 16384)`, and no run over single-channel blocks
faults.  Yet with the window of 16384 ones and the input `1, 0, ..., 0` the output
sample of index 8192, below `fftSize + hopSize = 24576`, is `1/2`, not zero. -/
theorem undersized_capacity_corrupts_silently :
    constructorChecks 14 1 = true ∧
    (∃ proc : OverlapAddFftProcessor ℚ,
      OverlapAddFftProcessor.construct 14 1 (1 / 2) (List.replicate 16384 1) = some proc ∧
      proc.fftSize = 16384 ∧ proc.hopSize = 8192 ∧ proc.fftSize = gBufferSize ∧
      ¬ gBufferSize > proc.fftSize + 2 * proc.hopSize ∧
      (∀ pointer n : Nat,
        0 ≤ circularBufferIndex pointer n proc.fftSize ∧
          circularBufferIndex pointer n proc.fftSize < 16384) ∧
      (∀ blocks : List (AudioBuffer ℚ), (∀ b ∈ blocks, b.numChannels = 1) →
        (runBlocks (proc.prepare 1 1) blocks).isSome = true) ∧
      ∃ s outs, runBlocks (proc.prepare 1 1) [impulseBlock] = some (s, outs) ∧
        (8192 < (channelStream outs 0).length ∧ 8192 < proc.fftSize + proc.hopSize) ∧
        (channelStream outs 0).getD 8192 0 = 1 / 2 ∧
        (channelStream outs 0).getD 8192 0 ≠ 0) := by
  refine ⟨rfl, OverlapAddFftProcessor.init 16384 8192 (1 / 2) (List.replicate 16384 1),
    rfl, rfl, rfl, rfl, by decide, ?_, ?_, ?_⟩
  · intro pointer n
    exact circularBufferIndex_range pointer n 16384 (by decide)
  · intro blocks hmono
    have hwf := wellFormed_fresh 16384 8192 (1 / 2 : ℚ) (List.replicate 16384 1) 1 1
      (by decide) (List.length_replicate _ _)
    have := runBlocks_eq _ blocks hwf (fun b hb => by
      rw [hmono b hb, freshProcessor_in_numChannels])
    unfold freshProcessor at this
    rw [this]; rfl
  · have hwf := wellFormed_fresh 16384 8192 (1 / 2 : ℚ) (List.replicate 16384 1) 1 1
      (by decide) (List.length_replicate _ _)
    have hmono : ∀ b ∈ [impulseBlock], b.numChannels = 1 := by
      intro b hb
      rw [List.mem_singleton.mp hb]; rfl
    have hrun := runBlocks_eq _ [impulseBlock] hwf (fun b hb => by
      rw [hmono b hb, freshProcessor_in_numChannels])
    have hstream := channelStream_pureBlocks_mono
      (freshProcessor 16384 8192 (1 / 2 : ℚ) (List.replicate 16384 1) 1 1) [impulseBlock] hmono
    have hlen : (channelStream [impulseBlock] 0).length = 8193 := by
      unfold impulseBlock
      rw [channelStream_monoBlock, List.length_cons, List.length_replicate]
    have hit : runIterations [impulseBlock]
        = monoIterations (fun i => (channelStream [impulseBlock] 0).getD i 0) 8193 := by
      rw [runIterations_mono _ hmono, ← hlen, monoIterations_of_list]
    have hval : (channelStream (pureBlocks
        (freshProcessor 16384 8192 (1 / 2 : ℚ) (List.replicate 16384 1) 1 1) [impulseBlock])
        0).getD 8192 0 = 1 / 2 := by
      rw [hstream, hit, pureOutputs_mono_getD _ _ 8193 8192 (by omega),
        undersized_first_output _ 16384 8192 _ _ 1 1 rfl rfl]
      have hx0 : (channelStream [impulseBlock] 0).getD 0 0 = 1 := by
        unfold impulseBlock
        rw [channelStream_monoBlock]; rfl
      rw [hx0, getD_replicate_of_lt 1 0 16384 8192 (by omega)]; norm_num
    refine ⟨_, _, hrun, ⟨?_, by decide⟩, hval, ?_⟩
    · rw [hstream, pureOutputs_length, hit, monoIterations, List.length_map,
        List.length_range]
      omega
    · rw [hval]; norm_num

/-- C21.  In every state that a newly constructed processor reaches between two
iterations of the inner loop, after any calls of `prepare` and `process` (any channel
counts and block sizes) in which `n` iterations were executed, `gInputBufferPointer`
and `gOutputBufferReadPointer` are equal, lie in `[0, 16384)` and equal `n` modulo
16384; and so after any further host calls that do not fault, with the iterations
of their blocks added to `n`. -/
theorem cursors_in_lockstep {α : Type} [CommRing α] (fftSize hopSize : Nat) (g : α)
    (window : List α) (n : Nat) (s : OverlapAddFftProcessor α)
    (hreach : ReachableAfter (OverlapAddFftProcessor.init fftSize hopSize g window) n s) :
    s.gInputBufferPointer = s.gOutputBufferReadPointer ∧
    s.gInputBufferPointer < 16384 ∧ s.gOutputBufferReadPointer < 16384 ∧
    s.gInputBufferPointer = n % 16384 ∧ s.gOutputBufferReadPointer = n % 16384 ∧
    ∀ (calls : List (Call α)) (s' : OverlapAddFftProcessor α), runCalls s calls = some s' →
      s'.gInputBufferPointer = s'.gOutputBufferReadPointer ∧
      s'.gInputBufferPointer = (n + callIterations calls) % 16384 ∧
      s'.gOutputBufferReadPointer = (n + callIterations calls) % 16384 := by
  have hC : gBufferSize = 16384 := rfl
  obtain ⟨h1, h2⟩ := reachableAfter_cursors fftSize hopSize g window n s hreach
  rw [hC] at h1 h2
  refine ⟨by rw [h1, h2], by omega, by omega, h1, h2, ?_⟩
  intro calls s' hrun
  obtain ⟨h3, h4⟩ := reachableAfter_cursors fftSize hopSize g window _ s'
    (reachableAfter_runCalls _ calls n s s' hreach hrun)
  rw [hC] at h3 h4
  exact ⟨by rw [h3, h4], h3, h4⟩

/-- The theorem of C21 for the state after `prepare (1, 1)` and one iteration, at
`fftSize = 4`, `hopSize = 2`. -/
theorem cursors_in_lockstep_witness :
    ReachableAfter (OverlapAddFftProcessor.init 4 2 (1 / 2 : ℚ) [1, 1, 1, 1]) (0 + 1)
      (pureSample (freshProcessor 4 2 (1 / 2 : ℚ) [1, 1, 1, 1] 1 1) 0 1).1 ∧
    (pureSample (freshProcessor 4 2 (1 / 2 : ℚ) [1, 1, 1, 1] 1 1) 0 1).1.gInputBufferPointer
      = (pureSample (freshProcessor 4 2 (1 / 2 : ℚ) [1, 1, 1, 1] 1 1) 0
          1).1.gOutputBufferReadPointer ∧
    (pureSample (freshProcessor 4 2 (1 / 2 : ℚ) [1, 1, 1, 1] 1 1) 0 1).1.gInputBufferPointer
      = (0 + 1) % 16384 :=
  ⟨ReachableAfter.iteration 0 _ 1 0 1 _ (ReachableAfter.prepare 0 _ 1 1 ReachableAfter.start)
      (processSample_eq _ 1 0 1 (wellFormed_fresh 4 2 _ _ 1 1 (by decide) rfl) (by decide)),
    (cursors_in_lockstep 4 2 (1 / 2 : ℚ) [1, 1, 1, 1] (0 + 1) _
      (ReachableAfter.iteration 0 _ 1 0 1 _ (ReachableAfter.prepare 0 _ 1 1 ReachableAfter.start)
        (processSample_eq _ 1 0 1 (wellFormed_fresh 4 2 _ _ 1 1 (by decide) rfl)
          (by decide)))).1,
    (cursors_in_lockstep 4 2 (1 / 2 : ℚ) [1, 1, 1, 1] (0 + 1) _
      (ReachableAfter.iteration 0 _ 1 0 1 _ (ReachableAfter.prepare 0 _ 1 1 ReachableAfter.start)
        (processSample_eq _ 1 0 1 (wellFormed_fresh 4 2 _ _ 1 1 (by decide) rfl)
          (by decide)))).2.2.2.1⟩

/-- C14 (as stated, refuted).  The configuration `fftSizeAsPowerOf2 = 31`,
`hopSizeDividerAsPowerOf2 = 1` passes both assertions, but `1 << 31` overflows the
`int` member: `fftSize = -2147483648` and `hopSize = -1073741824`, which is not
`≥ 1`; no processor is returned. -/
theorem checks_pass_with_negative_hop_size :
    constructorChecks 31 1 = true ∧
    fftSizeOf 31 = -2147483648 ∧ hopSizeOf 31 1 = -1073741824 ∧
    ¬ (1 ≤ hopSizeOf 31 1) ∧
    OverlapAddFftProcessor.construct 31 1 (1 / 2 : ℚ) [] = none := by
  refine ⟨rfl, by decide, by decide, by decide, rfl⟩

/-- C14 (amended).  The constructor's checks fail exactly when
`hopSizeDividerAsPowerOf2 ≤ 0` or `hopSizeDividerAsPowerOf2 > fftSizeAsPowerOf2`; in
particular the divider 0 is rejected.  For `fftSizeAsPowerOf2 ≤ 30` the constructor
returns no processor exactly in these cases, and every configuration that passes has
`2 * hopSize ≤ fftSize` and `hopSize ≥ 1` for the `int` members, which are below
`2 ^ 31`, and the constructor returns a processor with these sizes. -/
theorem configuration_validation {α : Type} [CommRing α]
    (fftSizeAsPowerOf2 hopSizeDividerAsPowerOf2 : Int) (g : α) (window : List α)
    (hp : fftSizeAsPowerOf2 ≤ 30) :
    (constructorChecks fftSizeAsPowerOf2 hopSizeDividerAsPowerOf2 = false ↔
      hopSizeDividerAsPowerOf2 ≤ 0 ∨ hopSizeDividerAsPowerOf2 > fftSizeAsPowerOf2) ∧
    constructorChecks fftSizeAsPowerOf2 0 = false ∧
    (OverlapAddFftProcessor.construct fftSizeAsPowerOf2 hopSizeDividerAsPowerOf2 g window = none ↔
      hopSizeDividerAsPowerOf2 ≤ 0 ∨ hopSizeDividerAsPowerOf2 > fftSizeAsPowerOf2) ∧
    (constructorChecks fftSizeAsPowerOf2 hopSizeDividerAsPowerOf2 = true →
      2 * hopSizeOf fftSizeAsPowerOf2 hopSizeDividerAsPowerOf2 ≤ fftSizeOf fftSizeAsPowerOf2 ∧
      1 ≤ hopSizeOf fftSizeAsPowerOf2 hopSizeDividerAsPowerOf2 ∧
      fftSizeOf fftSizeAsPowerOf2 < 2 ^ 31 ∧
      ∃ proc,
        OverlapAddFftProcessor.construct fftSizeAsPowerOf2 hopSizeDividerAsPowerOf2 g window
          = some proc ∧
        (proc.fftSize : Int) = fftSizeOf fftSizeAsPowerOf2 ∧
        (proc.hopSize : Int) = hopSizeOf fftSizeAsPowerOf2 hopSizeDividerAsPowerOf2 ∧
        2 * proc.hopSize ≤ proc.fftSize ∧ 1 ≤ proc.hopSize) := by
  have hchk : constructorChecks fftSizeAsPowerOf2 hopSizeDividerAsPowerOf2 = false ↔
      hopSizeDividerAsPowerOf2 ≤ 0 ∨ hopSizeDividerAsPowerOf2 > fftSizeAsPowerOf2 := by
    simp only [constructorChecks, Bool.and_eq_false_iff, decide_eq_false_iff_not]
    omega
  have h0 : constructorChecks fftSizeAsPowerOf2 0 = false := by
    simp [constructorChecks]
  refine ⟨hchk, h0, ?_, ?_⟩
  · rw [← hchk]
    unfold OverlapAddFftProcessor.construct
    rw [if_pos hp]
    split <;> simp [*]
  · intro hc
    obtain ⟨hcons, hF, hH⟩ := construct_of_checks fftSizeAsPowerOf2 hopSizeDividerAsPowerOf2
      g window hc hp
    have hc2 := hc
    simp only [constructorChecks, Bool.and_eq_true, decide_eq_true_eq] at hc2
    have hsplit : fftSizeAsPowerOf2.toNat
        = (fftSizeAsPowerOf2.toNat - hopSizeDividerAsPowerOf2.toNat) + 1
          + (hopSizeDividerAsPowerOf2.toNat - 1) := by omega
    have hle : 2 * 2 ^ (fftSizeAsPowerOf2.toNat - hopSizeDividerAsPowerOf2.toNat)
        ≤ 2 ^ fftSizeAsPowerOf2.toNat := by
      calc 2 * 2 ^ (fftSizeAsPowerOf2.toNat - hopSizeDividerAsPowerOf2.toNat)
          = 2 ^ ((fftSizeAsPowerOf2.toNat - hopSizeDividerAsPowerOf2.toNat) + 1) := by
            rw [Nat.pow_succ, Nat.mul_comm]
        _ ≤ 2 ^ fftSizeAsPowerOf2.toNat := Nat.pow_le_pow_right (by decide) (by omega)
    have hpos : 1 ≤ 2 ^ (fftSizeAsPowerOf2.toNat - hopSizeDividerAsPowerOf2.toNat) :=
      Nat.one_le_two_pow
    have hlt : 2 ^ fftSizeAsPowerOf2.toNat < 2 ^ 31 :=
      Nat.pow_lt_pow_right (by decide) (by omega)
    rw [hF, hH]
    refine ⟨by exact_mod_cast hle, by exact_mod_cast hpos, by exact_mod_cast hlt, _, hcons,
      rfl, rfl, hle, hpos⟩

/-- The theorem of C14 at the exponents of `SpectralDynamicProcessor`, whose checks
pass. -/
theorem configuration_validation_witness :
    ((10 : Int) ≤ 30 ∧ constructorChecks 10 3 = true) ∧
    2 * hopSizeOf 10 3 ≤ fftSizeOf 10 ∧ 1 ≤ hopSizeOf 10 3 ∧ fftSizeOf 10 < 2 ^ 31 ∧
    ∃ proc,
      OverlapAddFftProcessor.construct 10 3 (1 / 2 : ℚ) (List.replicate 1024 1) = some proc ∧
      (proc.fftSize : Int) = fftSizeOf 10 ∧ (proc.hopSize : Int) = hopSizeOf 10 3 ∧
      2 * proc.hopSize ≤ proc.fftSize ∧ 1 ≤ proc.hopSize :=
  ⟨⟨by decide, rfl⟩,
    (configuration_validation 10 3 (1 / 2 : ℚ) (List.replicate 1024 1) (by decide)).2.2.2 rfl⟩

/-- C15.  For `0 ≤ fftSizeAsPowerOf2 ≤ 30` and
`0 ≤ hopSizeDividerAsPowerOf2 ≤ fftSizeAsPowerOf2` the member initialisers give the
`int` values `fftSize = 2 ^ p` (below `2 ^ 31`: no overflow) and
`hopSize = fftSize / 2 ^ d = 2 ^ (p - d)` without rounding: `hopSize * 2 ^ d = fftSize`
and `hopSize` divides `fftSize`.  For `d ≥ 1` the constructor returns a processor, and
it has exactly these sizes; for `d = 0` the initialisers give `hopSize = fftSize` and
the assertion of line 55 then fails.  The constructor of `SpectralDynamicProcessor`
returns a processor with `fftSize = 1024` and `hopSize = 128`. -/
theorem sizes_from_exponents {α : Type} [CommRing α]
    (fftSizeAsPowerOf2 hopSizeDividerAsPowerOf2 : Int) (g : α) (window : List α)
    (hp0 : 0 ≤ fftSizeAsPowerOf2) (hp : fftSizeAsPowerOf2 ≤ 30)
    (_hd0 : 0 ≤ hopSizeDividerAsPowerOf2) (hd : hopSizeDividerAsPowerOf2 ≤ fftSizeAsPowerOf2) :
    fftSizeOf fftSizeAsPowerOf2 = 2 ^ fftSizeAsPowerOf2.toNat ∧
    fftSizeOf fftSizeAsPowerOf2 < 2 ^ 31 ∧
    hopSizeOf fftSizeAsPowerOf2 hopSizeDividerAsPowerOf2
      = fftSizeOf fftSizeAsPowerOf2 / 2 ^ hopSizeDividerAsPowerOf2.toNat ∧
    hopSizeOf fftSizeAsPowerOf2 hopSizeDividerAsPowerOf2
      = 2 ^ (fftSizeAsPowerOf2.toNat - hopSizeDividerAsPowerOf2.toNat) ∧
    hopSizeOf fftSizeAsPowerOf2 hopSizeDividerAsPowerOf2 * 2 ^ hopSizeDividerAsPowerOf2.toNat
      = fftSizeOf fftSizeAsPowerOf2 ∧
    hopSizeOf fftSizeAsPowerOf2 hopSizeDividerAsPowerOf2 ∣ fftSizeOf fftSizeAsPowerOf2 ∧
    (1 ≤ hopSizeDividerAsPowerOf2 →
      ∃ proc,
        OverlapAddFftProcessor.construct fftSizeAsPowerOf2 hopSizeDividerAsPowerOf2 g window
          = some proc ∧
        proc.fftSize = 2 ^ fftSizeAsPowerOf2.toNat ∧
        proc.hopSize = 2 ^ (fftSizeAsPowerOf2.toNat - hopSizeDividerAsPowerOf2.toNat) ∧
        (proc.fftSize : Int) = fftSizeOf fftSizeAsPowerOf2 ∧
        (proc.hopSize : Int) = hopSizeOf fftSizeAsPowerOf2 hopSizeDividerAsPowerOf2) ∧
    (hopSizeDividerAsPowerOf2 = 0 →
      hopSizeOf fftSizeAsPowerOf2 hopSizeDividerAsPowerOf2 = fftSizeOf fftSizeAsPowerOf2 ∧
      constructorChecks fftSizeAsPowerOf2 hopSizeDividerAsPowerOf2 = false) ∧
    (∃ proc, SpectralDynamicProcessor.construct g window = some proc ∧
      proc.fftSize = 1024 ∧ proc.hopSize = 128) := by
  have hF := fftSizeOf_eq fftSizeAsPowerOf2 hp
  have hH := hopSizeOf_eq fftSizeAsPowerOf2 hopSizeDividerAsPowerOf2 hp hd
  have hle : hopSizeDividerAsPowerOf2.toNat ≤ fftSizeAsPowerOf2.toNat := by omega
  have hmul : 2 ^ (fftSizeAsPowerOf2.toNat - hopSizeDividerAsPowerOf2.toNat)
      * 2 ^ hopSizeDividerAsPowerOf2.toNat = 2 ^ fftSizeAsPowerOf2.toNat := by
    rw [← Nat.pow_add, Nat.sub_add_cancel hle]
  have hlt : 2 ^ fftSizeAsPowerOf2.toNat < 2 ^ 31 :=
    Nat.pow_lt_pow_right (by decide) (by omega)
  have hdiv : 2 ^ fftSizeAsPowerOf2.toNat / 2 ^ hopSizeDividerAsPowerOf2.toNat
      = 2 ^ (fftSizeAsPowerOf2.toNat - hopSizeDividerAsPowerOf2.toNat) :=
    Nat.pow_div hle (by decide)
  have hzero : hopSizeDividerAsPowerOf2 = 0 →
      hopSizeOf fftSizeAsPowerOf2 hopSizeDividerAsPowerOf2 = fftSizeOf fftSizeAsPowerOf2 ∧
      constructorChecks fftSizeAsPowerOf2 hopSizeDividerAsPowerOf2 = false := by
    intro hz
    have hz2 : hopSizeDividerAsPowerOf2.toNat = 0 := by omega
    refine ⟨?_, ?_⟩
    · rw [hH, hF, hz2, Nat.sub_zero]
    · simp only [constructorChecks, Bool.and_eq_false_iff, decide_eq_false_iff_not]
      omega
  have hspec : ∃ proc : OverlapAddFftProcessor α,
      SpectralDynamicProcessor.construct g window = some proc ∧
      proc.fftSize = 1024 ∧ proc.hopSize = 128 := by
    obtain ⟨hcons, _, _⟩ := construct_of_checks 10 3 g window rfl (by decide)
    have t10 : (10 : Int).toNat = 10 := rfl
    have t3 : (3 : Int).toNat = 3 := rfl
    have e1 : (2 : Nat) ^ (10 : Int).toNat = 1024 := by rw [t10]; norm_num
    have e2 : (2 : Nat) ^ ((10 : Int).toNat - (3 : Int).toNat) = 128 := by
      rw [t10, t3]; norm_num
    rw [e1, e2] at hcons
    exact ⟨_, hcons, rfl, rfl⟩
  rw [hF, hH]
  have hcast : ∀ n : Nat, ((2 ^ n : Nat) : Int) = 2 ^ n := fun n => by
    simp only [Nat.cast_pow, Nat.cast_ofNat]
  refine ⟨hcast _, by exact_mod_cast hlt, ?_, hcast _, by exact_mod_cast hmul,
    ?_, ?_, ?_, ?_⟩
  · rw [← hdiv, Int.natCast_div, hcast, hcast]
  · exact ⟨((2 ^ hopSizeDividerAsPowerOf2.toNat : Nat) : Int), by exact_mod_cast hmul.symm⟩
  · intro hd1
    have hc : constructorChecks fftSizeAsPowerOf2 hopSizeDividerAsPowerOf2 = true := by
      simp only [constructorChecks, Bool.and_eq_true, decide_eq_true_eq]
      omega
    obtain ⟨hcons, _, _⟩ := construct_of_checks fftSizeAsPowerOf2 hopSizeDividerAsPowerOf2
      g window hc hp
    exact ⟨_, hcons, rfl, rfl, rfl, rfl⟩
  · rw [← hF, ← hH]
    exact hzero
  · exact hspec

/-- The theorem of C15 at the exponents of `SpectralDynamicProcessor`. -/
theorem sizes_from_exponents_witness :
    ((0 : Int) ≤ 10 ∧ (10 : Int) ≤ 30 ∧ (0 : Int) ≤ 3 ∧ (3 : Int) ≤ 10) ∧
    fftSizeOf 10 = 2 ^ (10 : Int).toNat ∧
    hopSizeOf 10 3 = 2 ^ ((10 : Int).toNat - (3 : Int).toNat) ∧
    ∃ proc,
      OverlapAddFftProcessor.construct 10 3 (1 / 2 : ℚ) (List.replicate 1024 1) = some proc ∧
      proc.fftSize = 2 ^ (10 : Int).toNat ∧
      proc.hopSize = 2 ^ ((10 : Int).toNat - (3 : Int).toNat) ∧
      (proc.fftSize : Int) = fftSizeOf 10 ∧ (proc.hopSize : Int) = hopSizeOf 10 3 :=
  ⟨⟨by decide, by decide, by decide, by decide⟩,
    (sizes_from_exponents 10 3 (1 / 2 : ℚ) (List.replicate 1024 1) (by decide) (by decide)
      (by decide) (by decide)).1,
    (sizes_from_exponents 10 3 (1 / 2 : ℚ) (List.replicate 1024 1) (by decide) (by decide)
      (by decide) (by decide)).2.2.2.1,
    (sizes_from_exponents 10 3 (1 / 2 : ℚ) (List.replicate 1024 1) (by decide) (by decide)
      (by decide) (by decide)).2.2.2.2.2.2.1 (by decide)⟩

/-- C16.  For `hopSize ≥ 1`, in every state that a newly constructed processor can be
in between two iterations of the inner loop, after any calls of `prepare` and
`process`, the hop counter is at most `hopSize - 1`.  A successful iteration started
in such a state fires a frame cycle exactly if the incremented counter reaches
`hopSize`; then the counter is 0 afterwards, otherwise it is one more than before;
so the counter is 0 after the iteration exactly if a frame cycle fired in it.  With
`fftSize ≤ 16384` and a window of `fftSize` entries, every iteration on a channel of
the prepared buffers, firing or not, does return, in a reachable state with the
counter reset or incremented. -/
theorem hop_counter_range {α : Type} [CommRing α] (fftSize hopSize : Nat) (g : α)
    (window : List α) (s : OverlapAddFftProcessor α) (hhop : 1 ≤ hopSize)
    (hreach : Reachable (OverlapAddFftProcessor.init fftSize hopSize g window) s) :
    s.hopSize = hopSize ∧ s.gHopCounter ≤ hopSize - 1 ∧
    (∀ (m ch : Nat) (inp : α) (r : OverlapAddFftProcessor α × α),
      processSample s m ch inp = some r →
      (s.gHopCounter + 1 ≥ hopSize →
        r.1.gHopCounter = 0 ∧ r.1.frameCycles = s.frameCycles + 1) ∧
      (¬ s.gHopCounter + 1 ≥ hopSize →
        r.1.gHopCounter = s.gHopCounter + 1 ∧ r.1.frameCycles = s.frameCycles) ∧
      (r.1.gHopCounter = 0 ↔ r.1.frameCycles = s.frameCycles + 1)) ∧
    (fftSize ≤ gBufferSize → window.length = fftSize →
      ∀ (m ch : Nat) (inp : α), ch < s.gInputBuffer.numChannels →
        ∃ r, processSample s m ch inp = some r ∧
          Reachable (OverlapAddFftProcessor.init fftSize hopSize g window) r.1 ∧
          r.1.gHopCounter = (if s.gHopCounter + 1 ≥ hopSize then 0 else s.gHopCounter + 1) ∧
          r.1.frameCycles
            = (if s.gHopCounter + 1 ≥ hopSize then s.frameCycles + 1 else s.frameCycles) ∧
          r.1.gHopCounter ≤ hopSize - 1) := by
  obtain ⟨hH, hlt⟩ := reachable_hop fftSize hopSize g window hhop s hreach
  have hcond : ∀ (m ch : Nat) (inp : α) (r : OverlapAddFftProcessor α × α),
      processSample s m ch inp = some r →
      r.1.gHopCounter = (if s.gHopCounter + 1 ≥ hopSize then 0 else s.gHopCounter + 1) ∧
      r.1.frameCycles
        = (if s.gHopCounter + 1 ≥ hopSize then s.frameCycles + 1 else s.frameCycles) := by
    intro m ch inp r hr
    obtain ⟨_, _, h3, _, h5, _, _⟩ := processSample_cursors s m ch inp r hr
    simp only [fires, hH] at h3 h5
    exact ⟨h3, h5⟩
  refine ⟨hH, by omega, ?_, ?_⟩
  · intro m ch inp r hr
    obtain ⟨h3, h5⟩ := hcond m ch inp r hr
    by_cases hf : s.gHopCounter + 1 ≥ hopSize
    · rw [if_pos hf] at h3 h5
      exact ⟨fun _ => ⟨h3, h5⟩, fun h => absurd hf h, by rw [h3, h5]; simp⟩
    · rw [if_neg hf] at h3 h5
      refine ⟨fun h => absurd h hf, fun _ => ⟨h3, h5⟩, ?_⟩
      rw [h3, h5]
      constructor <;> intro h <;> omega
  · intro hcap hwin m ch inp hch
    obtain ⟨_, _, _, _, hwf⟩ := reachable_wellFormed fftSize hopSize g window hcap hwin s hreach
    cases hwf with
    | inr h0 => omega
    | inl hwf =>
      have hr := processSample_eq s m ch inp hwf hch
      obtain ⟨h3, h5⟩ := hcond m ch inp _ hr
      have hreach2 := Reachable.iteration s m ch inp _ hreach hr
      obtain ⟨_, hlt2⟩ := reachable_hop fftSize hopSize g window hhop _ hreach2
      exact ⟨_, hr, hreach2, h3, h5, by omega⟩

/-- The theorem of C16 at `fftSize = 4`, `hopSize = 2`, in the state after
`prepare (1, 1)` and one iteration, where the hop counter is 1: the next iteration
returns, fires a frame cycle and resets the counter to 0. -/
theorem hop_counter_range_witness :
    (1 ≤ 2 ∧ Reachable (OverlapAddFftProcessor.init 4 2 (1 / 2 : ℚ) [1, 1, 1, 1])
      (pureSample (freshProcessor 4 2 (1 / 2 : ℚ) [1, 1, 1, 1] 1 1) 0 1).1 ∧
      4 ≤ gBufferSize ∧ ([1, 1, 1, 1] : List ℚ).length = 4 ∧
      0 < (pureSample (freshProcessor 4 2 (1 / 2 : ℚ) [1, 1, 1, 1] 1 1)
        0 1).1.gInputBuffer.numChannels ∧
      (pureSample (freshProcessor 4 2 (1 / 2 : ℚ) [1, 1, 1, 1] 1 1) 0 1).1.gHopCounter + 1 ≥ 2) ∧
    ∃ r, processSample (pureSample (freshProcessor 4 2 (1 / 2 : ℚ) [1, 1, 1, 1] 1 1) 0 1).1
        1 0 2 = some r ∧
      r.1.gHopCounter = 0 ∧
      r.1.frameCycles
        = (pureSample (freshProcessor 4 2 (1 / 2 : ℚ) [1, 1, 1, 1] 1 1) 0 1).1.frameCycles + 1 := by
  have hreach : Reachable (OverlapAddFftProcessor.init 4 2 (1 / 2 : ℚ) [1, 1, 1, 1])
      (pureSample (freshProcessor 4 2 (1 / 2 : ℚ) [1, 1, 1, 1] 1 1) 0 1).1 :=
    Reachable.iteration _ 1 0 1 _ (Reachable.prepare _ 1 1 Reachable.start)
      (processSample_eq _ 1 0 1 (wellFormed_fresh 4 2 _ _ 1 1 (by decide) rfl) (by decide))
  have hfire : (pureSample (freshProcessor 4 2 (1 / 2 : ℚ) [1, 1, 1, 1] 1 1)
      0 1).1.gHopCounter + 1 ≥ 2 := by decide
  obtain ⟨r, hr, _, _, _, _⟩ :=
    (hop_counter_range 4 2 (1 / 2 : ℚ) [1, 1, 1, 1] _ (by decide) hreach).2.2.2
      (by decide) rfl 1 0 2 (by decide)
  obtain ⟨h1, _, _⟩ :=
    (hop_counter_range 4 2 (1 / 2 : ℚ) [1, 1, 1, 1] _ (by decide) hreach).2.2.1 1 0 2 r hr
  exact ⟨⟨by decide, hreach, by decide, rfl, by decide, hfire⟩, r, hr, (h1 hfire).1,
    (h1 hfire).2⟩

/-- C19 (as stated, refuted).  The configuration `fftSizeAsPowerOf2 = 15`,
`hopSizeDividerAsPowerOf2 = 15` passes the constructor's checks (`fftSize = 32768`,
`hopSize = 1`).  Two runs on two-channel blocks that agree on channel 0 and differ on
channel 1 both fault in their first iteration, whose frame cycle reads
`gInputBuffer` at the index `-16383`: neither run produces an output sample. -/
theorem non_interference_faults_when_frame_exceeds_buffer :
    OverlapAddFftProcessor.construct 15 15 (1 / 2 : ℚ) (List.replicate 32768 1)
      = some (OverlapAddFftProcessor.init 32768 1 (1 / 2) (List.replicate 32768 1)) ∧
    List.Forall₂ (AudioBuffer.SameOn 0)
      [(blockOfChannels [[1], [3]] 1 : AudioBuffer ℚ)] [blockOfChannels [[1], [7]] 1] ∧
    runBlocks (freshProcessor 32768 1 (1 / 2 : ℚ) (List.replicate 32768 1) 2 2)
      [blockOfChannels [[1], [3]] 1] = none ∧
    runBlocks (freshProcessor 32768 1 (1 / 2 : ℚ) (List.replicate 32768 1) 2 2)
      [blockOfChannels [[1], [7]] 1] = none :=
  ⟨rfl, List.Forall₂.cons ⟨rfl, rfl, fun _ _ => rfl⟩ List.Forall₂.nil,
    Option.isNone_iff_eq_none.mp (by decide!), Option.isNone_iff_eq_none.mp (by decide!)⟩

/-- C19 (amended).  For `fftSize ≤ 16384`, a window of `fftSize` entries and blocks
with no more channels than were prepared: two runs from the same freshly prepared
processor (the default, empty `processFrameInBuffer`) over two sequences of blocks of
the same shapes that hold the same samples on channel `c` both return, and the output
samples of channel `c`, the input cursor, the read and the write cursor of the output
buffer and the hop counter are the same in both. -/
theorem channel_non_interference {α : Type} [CommRing α] (fftSize hopSize : Nat) (g : α)
    (window : List α) (numIn numOut : Nat) (c : Nat) (blocks1 blocks2 : List (AudioBuffer α))
    (hcap : fftSize ≤ gBufferSize) (hwin : window.length = fftSize)
    (hch : ∀ b ∈ blocks1, b.numChannels ≤ numIn)
    (hagree : List.Forall₂ (AudioBuffer.SameOn c) blocks1 blocks2) :
    ∃ r1 r2,
      runBlocks (freshProcessor fftSize hopSize g window numIn numOut) blocks1 = some r1 ∧
      runBlocks (freshProcessor fftSize hopSize g window numIn numOut) blocks2 = some r2 ∧
      channelStream r1.2 c = channelStream r2.2 c ∧
      r1.1.gInputBufferPointer = r2.1.gInputBufferPointer ∧
      r1.1.gOutputBufferReadPointer = r2.1.gOutputBufferReadPointer ∧
      r1.1.gOutputBufferWritePointer = r2.1.gOutputBufferWritePointer ∧
      r1.1.gHopCounter = r2.1.gHopCounter := by
  have hobs := observe_rel c (freshProcessor fftSize hopSize g window numIn numOut)
    blocks1 blocks2 hagree
  have h1 := runBlocks_eq _ blocks1
    (wellFormed_fresh fftSize hopSize g window numIn numOut hcap hwin) (fun b hb => by
      rw [freshProcessor_in_numChannels]; exact hch b hb)
  rw [h1] at hobs
  cases h2 : runBlocks (freshProcessor fftSize hopSize g window numIn numOut) blocks2 with
  | none => rw [h2] at hobs; exact absurd hobs (by simp)
  | some r2 =>
    rw [h2] at hobs
    have hobs2 := Option.some.inj hobs
    simp only [observe, Prod.mk.injEq] at hobs2
    exact ⟨_, r2, h1, rfl, hobs2.1, hobs2.2.1, hobs2.2.2.1, hobs2.2.2.2.1, hobs2.2.2.2.2⟩

/-- The theorem of C19 for two two-channel blocks of two samples that differ on
channel 1 only, observed on channel 0. -/
theorem channel_non_interference_witness :
    (4 ≤ gBufferSize ∧ ([1, 1, 1, 1] : List ℚ).length = 4 ∧
      (∀ b ∈ [(blockOfChannels [[1, 2], [3, 4]] 2 : AudioBuffer ℚ)], b.numChannels ≤ 2) ∧
      List.Forall₂ (AudioBuffer.SameOn 0)
        [(blockOfChannels [[1, 2], [3, 4]] 2 : AudioBuffer ℚ)]
        [blockOfChannels [[1, 2], [7, 8]] 2]) ∧
    ∃ r1 r2,
      runBlocks (freshProcessor 4 2 (1 / 2 : ℚ) [1, 1, 1, 1] 2 2)
        [blockOfChannels [[1, 2], [3, 4]] 2] = some r1 ∧
      runBlocks (freshProcessor 4 2 (1 / 2 : ℚ) [1, 1, 1, 1] 2 2)
        [blockOfChannels [[1, 2], [7, 8]] 2] = some r2 ∧
      channelStream r1.2 0 = channelStream r2.2 0 ∧
      r1.1.gInputBufferPointer = r2.1.gInputBufferPointer ∧
      r1.1.gOutputBufferReadPointer = r2.1.gOutputBufferReadPointer ∧
      r1.1.gOutputBufferWritePointer = r2.1.gOutputBufferWritePointer ∧
      r1.1.gHopCounter = r2.1.gHopCounter :=
  ⟨⟨by decide, rfl, fun b hb => by rw [List.mem_singleton.mp hb]; exact le_refl 2,
      List.Forall₂.cons ⟨rfl, rfl, fun _ _ => rfl⟩ List.Forall₂.nil⟩,
    channel_non_interference 4 2 (1 / 2 : ℚ) [1, 1, 1, 1] 2 2 0
      [blockOfChannels [[1, 2], [3, 4]] 2] [blockOfChannels [[1, 2], [7, 8]] 2]
      (by decide) rfl (fun b hb => by rw [List.mem_singleton.mp hb]; exact le_refl 2)
      (List.Forall₂.cons ⟨rfl, rfl, fun _ _ => rfl⟩ List.Forall₂.nil)⟩

/-- C20 (as stated, refuted).  The configuration `fftSizeAsPowerOf2 = 15`,
`hopSizeDividerAsPowerOf2 = 14` passes the constructor's checks (`fftSize = 32768`,
`hopSize = 2`, even).  With two channels and one sample per call, the first call
already faults: its frame cycle, fired in the iteration of channel 1, reads
`gInputBuffer` at the index `(2 + 0 - 32768 + 16384) % 16384 = -16382`; no output
sample of channel 0 is produced. -/
theorem starved_run_faults_when_frame_exceeds_buffer :
    OverlapAddFftProcessor.construct 15 14 (1 / 2 : ℚ) (List.replicate 32768 1)
      = some (OverlapAddFftProcessor.init 32768 2 (1 / 2) (List.replicate 32768 1)) ∧
    circularBufferIndex 2 0 32768 = -16382 ∧
    runBlocks (freshProcessor 32768 2 (1 / 2 : ℚ) (List.replicate 32768 1) 2 2)
      [blockOfChannels [[1], [1]] 1] = none :=
  ⟨rfl, by decide, Option.isNone_iff_eq_none.mp (by decide!)⟩

/-- C20 (amended).  For `fftSize ≤ 16384`, a window of `fftSize` entries, an even
`hopSize ≥ 1` and at least two prepared channels, let every call of `process` carry
one sample on each of two channels.  From a freshly prepared processor, any number `k`
of these calls returns, and afterwards: the iteration of channel 0 of the next call
returns, fires no frame cycle and delivers the output sample 0; the `2 * k / hopSize`
frame cycles fired so far all fired in an iteration of channel 1; the output buffer of
channel 0 is all zero; and all `k` output samples of channel 0 are 0. -/
theorem shared_hop_counter_starves_channel {α : Type} [CommRing α] (fftSize hopSize : Nat)
    (g : α) (window : List α) (numIn numOut : Nat) (blocks : List (AudioBuffer α))
    (hcap : fftSize ≤ gBufferSize) (hwin : window.length = fftSize) (hnum : 2 ≤ numIn)
    (hhop : 0 < hopSize) (heven : hopSize % 2 = 0)
    (hshape : ∀ b ∈ blocks, b.numChannels = 2 ∧ b.numSamples = 1) :
    ∀ k, k ≤ blocks.length →
      ∃ s outs,
        runBlocks (freshProcessor fftSize hopSize g window numIn numOut) (blocks.take k)
          = some (s, outs) ∧
        (∀ inp, ∃ r, processSample s 2 0 inp = some r ∧
          r.1.frameCycles = s.frameCycles ∧ r.2 = 0 ∧
          ∀ j, r.1.gOutputBuffer.data 0 j = 0) ∧
        s.frameCycles = 2 * k / hopSize ∧
        (∀ j, s.gOutputBuffer.data 0 j = 0) ∧
        channelStream outs 0 = List.replicate k 0 := by
  intro k hk
  have hshape2 : ∀ b ∈ blocks.take k, b.numChannels = 2 ∧ b.numSamples = 1 :=
    fun b hb => hshape b (List.mem_of_mem_take hb)
  have hlen : (blocks.take k).length = k := by
    rw [List.length_take]; omega
  have hwf := wellFormed_fresh fftSize hopSize g window numIn numOut hcap hwin
  have hrun := runBlocks_eq _ (blocks.take k) hwf (fun b hb => by
    rw [(hshape2 b hb).1, freshProcessor_in_numChannels]; exact hnum)
  obtain ⟨hst, hout⟩ := starved_run _ _ _
    (starved_fresh fftSize hopSize g window numIn numOut hhop heven) hshape2 hrun
  have hcyc := frameCycles_eq_div fftSize hopSize g window numIn numOut hhop _ _ hrun
  rw [totalIterations_two_by_one _ hshape2, hlen] at hcyc
  rw [hlen] at hout
  have hst2 : Starved (pureState (freshProcessor fftSize hopSize g window numIn numOut)
      (runIterations (blocks.take k))) := hst
  have hz : ∀ j, (pureState (freshProcessor fftSize hopSize g window numIn numOut)
      (runIterations (blocks.take k))).gOutputBuffer.data 0 j = 0 := hst2.out_zero
  have hnf : ¬ fires (pureState (freshProcessor fftSize hopSize g window numIn numOut)
      (runIterations (blocks.take k))) := by
    have h1 := hst2.hop_even
    have h2 := hst2.hop_lt
    have h3 := hst2.size_even
    unfold fires; omega
  refine ⟨_, _, hrun, ?_, hcyc, hz, hout⟩
  intro inp
  refine ⟨_, processSample_eq _ 2 0 inp (wellFormed_pureState _ _ hwf) (by
    rw [pureState_in_numChannels, freshProcessor_in_numChannels]; omega), ?_, ?_, ?_⟩
  · rw [pureSample_frameCycles, if_neg hnf]
  · rw [pureSample_out]
    exact (congrArg (fun v => v * _) (hz _)).trans (zero_mul _)
  · intro j
    rw [pureSample_out_data]
    simp [hnf, hz]

/-- The theorem of C20 on four calls at `fftSize = 4`, `hopSize = 2`. -/
theorem shared_hop_counter_starves_channel_witness :
    (4 ≤ gBufferSize ∧ ([1, 1, 1, 1] : List ℚ).length = 4 ∧ 2 ≤ 2 ∧ 0 < 2 ∧ 2 % 2 = 0 ∧
      (∀ b ∈ List.replicate 4 (blockOfChannels [[1], [0]] 1 : AudioBuffer ℚ),
        b.numChannels = 2 ∧ b.numSamples = 1) ∧
      4 ≤ (List.replicate 4 (blockOfChannels [[1], [0]] 1 : AudioBuffer ℚ)).length) ∧
    ∃ s outs,
      runBlocks (freshProcessor 4 2 (1 / 2 : ℚ) [1, 1, 1, 1] 2 2)
          ((List.replicate 4 (blockOfChannels [[1], [0]] 1)).take 4) = some (s, outs) ∧
      (∀ inp, ∃ r, processSample s 2 0 inp = some r ∧
        r.1.frameCycles = s.frameCycles ∧ r.2 = 0 ∧
        ∀ j, r.1.gOutputBuffer.data 0 j = 0) ∧
      s.frameCycles = 2 * 4 / 2 ∧
      (∀ j, s.gOutputBuffer.data 0 j = 0) ∧
      channelStream outs 0 = List.replicate 4 0 :=
  ⟨⟨by decide, rfl, by decide, by decide, by decide, fun b hb => by
      rw [List.eq_of_mem_replicate hb]; exact ⟨rfl, rfl⟩, by decide⟩,
    shared_hop_counter_starves_channel 4 2 (1 / 2 : ℚ) [1, 1, 1, 1] 2 2
      (List.replicate 4 (blockOfChannels [[1], [0]] 1)) (by decide) rfl (by decide)
      (by decide) (by decide)
      (fun b hb => by rw [List.eq_of_mem_replicate hb]; exact ⟨rfl, rfl⟩) 4 (by decide)⟩

/-- C22 (as stated, refuted).  The configuration `fftSizeAsPowerOf2 = 15`,
`hopSizeDividerAsPowerOf2 = 15` passes the constructor's checks (`fftSize = 32768`,
`hopSize = 1`).  The runs on a block `x`, on a block `y`, on `x + y` and on `3 * x` all
fault in their first iteration, whose frame cycle reads `gInputBuffer` at the index
`-16383`: there are no outputs to add or to scale. -/
theorem linearity_runs_fault_when_frame_exceeds_buffer :
    OverlapAddFftProcessor.construct 15 15 (1 / 2 : ℚ) (List.replicate 32768 1)
      = some (OverlapAddFftProcessor.init 32768 1 (1 / 2) (List.replicate 32768 1)) ∧
    runBlocks (freshProcessor 32768 1 (1 / 2 : ℚ) (List.replicate 32768 1) 1 1)
      [monoBlock [1]] = none ∧
    runBlocks (freshProcessor 32768 1 (1 / 2 : ℚ) (List.replicate 32768 1) 1 1)
      [monoBlock [2]] = none ∧
    runBlocks (freshProcessor 32768 1 (1 / 2 : ℚ) (List.replicate 32768 1) 1 1)
      (List.zipWith AudioBuffer.add [monoBlock [1]] [monoBlock [2]]) = none ∧
    runBlocks (freshProcessor 32768 1 (1 / 2 : ℚ) (List.replicate 32768 1) 1 1)
      ([monoBlock [1]].map (AudioBuffer.scale 3)) = none :=
  ⟨rfl, Option.isNone_iff_eq_none.mp (by decide!), Option.isNone_iff_eq_none.mp (by decide!),
    Option.isNone_iff_eq_none.mp (by decide!), Option.isNone_iff_eq_none.mp (by decide!)⟩

/-- C22 (amended).  For `fftSize ≤ 16384`, a window of `fftSize` entries and blocks
with no more channels than were prepared, from a freshly prepared processor (the
default, empty `processFrameInBuffer`, samples in a commutative ring): the runs on
`x`, on `y` of the same block shapes, on `x + y` and on `a * x` all return; the run on
`x + y` leaves the sample-wise sums of the output blocks of the runs on `x` and on
`y`, and the run on `a * x` leaves `a` times the output blocks of the run on `x`. -/
theorem passthrough_is_linear {α : Type} [CommRing α] (fftSize hopSize : Nat) (g : α)
    (window : List α) (numIn numOut : Nat) (a : α) (xs ys : List (AudioBuffer α))
    (hcap : fftSize ≤ gBufferSize) (hwin : window.length = fftSize)
    (hch : ∀ b ∈ xs, b.numChannels ≤ numIn)
    (hshape : List.Forall₂ (fun x y : AudioBuffer α =>
      x.numChannels = y.numChannels ∧ x.numSamples = y.numSamples) xs ys) :
    ∃ r1 r2 r3 r4,
      runBlocks (freshProcessor fftSize hopSize g window numIn numOut) xs = some r1 ∧
      runBlocks (freshProcessor fftSize hopSize g window numIn numOut) ys = some r2 ∧
      runBlocks (freshProcessor fftSize hopSize g window numIn numOut)
        (List.zipWith AudioBuffer.add xs ys) = some r3 ∧
      runBlocks (freshProcessor fftSize hopSize g window numIn numOut)
        (xs.map (AudioBuffer.scale a)) = some r4 ∧
      r3.2 = List.zipWith AudioBuffer.add r1.2 r2.2 ∧
      r4.2 = r1.2.map (AudioBuffer.scale a) := by
  have hadd := runBlocks_combine 1 1 fftSize hopSize g window numIn numOut xs ys hshape
  rw [← AudioBuffer.add_eq_combine] at hadd
  have hscale := runBlocks_combine a 0 fftSize hopSize g window numIn numOut xs xs
    (forall2_same_shape xs)
  rw [← map_scale_eq_zipWith] at hscale
  have hwf := wellFormed_fresh fftSize hopSize g window numIn numOut hcap hwin
  have h1 := runBlocks_eq _ xs hwf (fun b hb => by
    rw [freshProcessor_in_numChannels]; exact hch b hb)
  have h3 := runBlocks_eq _ (List.zipWith AudioBuffer.add xs ys) hwf (fun b hb => by
    rw [freshProcessor_in_numChannels]
    obtain ⟨x, hx, hc⟩ := mem_zipWith_add xs ys b hb
    rw [hc]
    exact hch x hx)
  rw [h1, h3] at hadd
  rw [h1] at hscale
  simp only [Option.some_bind, Option.map_some'] at hadd hscale
  cases h2 : runBlocks (freshProcessor fftSize hopSize g window numIn numOut) ys with
  | none => rw [h2] at hadd; exact absurd hadd (by simp)
  | some r2 =>
    rw [h2] at hadd
    cases h4 : runBlocks (freshProcessor fftSize hopSize g window numIn numOut)
        (xs.map (AudioBuffer.scale a)) with
    | none => rw [h4] at hscale; exact absurd hscale (by simp)
    | some r4 =>
      rw [h4] at hscale
      simp only [Option.map_some', Option.some.injEq] at hadd hscale
      exact ⟨_, r2, _, r4, h1, rfl, h3, rfl, hadd, by
        rw [hscale]; exact (map_scale_eq_zipWith a _).symm⟩

/-- The theorem of C22 for two two-channel blocks of two samples and the factor 3. -/
theorem passthrough_is_linear_witness :
    (4 ≤ gBufferSize ∧ ([1, 1, 1, 1] : List ℚ).length = 4 ∧
      (∀ b ∈ [(blockOfChannels [[1, 2], [3, 4]] 2 : AudioBuffer ℚ)], b.numChannels ≤ 2) ∧
      List.Forall₂ (fun x y : AudioBuffer ℚ =>
          x.numChannels = y.numChannels ∧ x.numSamples = y.numSamples)
        [blockOfChannels [[1, 2], [3, 4]] 2] [blockOfChannels [[5, 6], [7, 8]] 2]) ∧
    ∃ r1 r2 r3 r4,
      runBlocks (freshProcessor 4 2 (1 / 2 : ℚ) [1, 1, 1, 1] 2 2)
        [blockOfChannels [[1, 2], [3, 4]] 2] = some r1 ∧
      runBlocks (freshProcessor 4 2 (1 / 2 : ℚ) [1, 1, 1, 1] 2 2)
        [blockOfChannels [[5, 6], [7, 8]] 2] = some r2 ∧
      runBlocks (freshProcessor 4 2 (1 / 2 : ℚ) [1, 1, 1, 1] 2 2)
        (List.zipWith AudioBuffer.add [blockOfChannels [[1, 2], [3, 4]] 2]
          [blockOfChannels [[5, 6], [7, 8]] 2]) = some r3 ∧
      runBlocks (freshProcessor 4 2 (1 / 2 : ℚ) [1, 1, 1, 1] 2 2)
        ([blockOfChannels [[1, 2], [3, 4]] 2].map (AudioBuffer.scale 3)) = some r4 ∧
      r3.2 = List.zipWith AudioBuffer.add r1.2 r2.2 ∧
      r4.2 = r1.2.map (AudioBuffer.scale 3) :=
  ⟨⟨by decide, rfl, fun b hb => by rw [List.mem_singleton.mp hb]; exact le_refl 2,
      List.Forall₂.cons ⟨rfl, rfl⟩ List.Forall₂.nil⟩,
    passthrough_is_linear 4 2 (1 / 2 : ℚ) [1, 1, 1, 1] 2 2 3
      [blockOfChannels [[1, 2], [3, 4]] 2] [blockOfChannels [[5, 6], [7, 8]] 2]
      (by decide) rfl (fun b hb => by rw [List.mem_singleton.mp hb]; exact le_refl 2)
      (List.Forall₂.cons ⟨rfl, rfl⟩ List.Forall₂.nil)⟩

end Claims

end OverlapAdd
